import Mathlib

/-!
# sq: declarative extraction of typed values from a document

A shallow embedding of the Go package `sq` (files `extract.go`, `funcs.go`,
`sq.go`).  Go strings are modelled as lists of characters, the reflected
schema as a type descriptor `Ty` together with a value tree `Val`, and the
goquery document as an abstract collaborator `Dom` over node handles.
Runtime failures of the Go program (nil dereference, `reflect` misuse) are an
explicit outcome of the model.
-/

namespace Sq

/-- Go strings, as sequences of characters. -/
abbrev Str := List Char

/-! ## The `strings` and `unicode` helpers used by the package -/

/-- Go `unicode.IsSpace`: the Unicode white space property. -/
def isSpace (c : Char) : Bool :=
  let n := c.toNat
  n = 0x09 || n = 0x0A || n = 0x0B || n = 0x0C || n = 0x0D || n = 0x20 ||
  n = 0x85 || n = 0xA0 || n = 0x1680 || (0x2000 ≤ n && n ≤ 0x200A) ||
  n = 0x2028 || n = 0x2029 || n = 0x202F || n = 0x205F || n = 0x3000

/-- Go `strings.TrimSpace`. -/
def TrimSpace (s : Str) : Str :=
  (s.dropWhile isSpace).rdropWhile isSpace

/-- Go `strings.HasPrefix(s, pre)`. -/
def startsWith (s pre : Str) : Bool := pre.isPrefixOf s

/-- Go `strings.HasSuffix(s, suf)`. -/
def endsWith (s suf : Str) : Bool := suf.isSuffixOf s

/-- Go `strings.TrimPrefix(s, pre)`. -/
def trimStart (s pre : Str) : Str :=
  if startsWith s pre then s.drop pre.length else s

/-- Go `strings.TrimSuffix(s, suf)`. -/
def trimEnd (s suf : Str) : Str :=
  if endsWith s suf then s.take (s.length - suf.length) else s

/-- Go `strings.Contains(s, sub)`. -/
def Contains (s sub : Str) : Bool :=
  s.tails.any (fun t => sub.isPrefixOf t)

/-- The scan behind Go `strings.Split(s, sep)` for a non-empty separator:
`skip` counts the characters of a separator just matched that are still to be
passed over, `cur` holds the current segment in reverse. -/
def splitAux (sep : Str) : Str → Nat → Str → List Str
  | [], _, cur => [cur.reverse]
  | _ :: cs, skip + 1, cur => splitAux sep cs skip cur
  | c :: cs, 0, cur =>
    if sep.isPrefixOf (c :: cs) then cur.reverse :: splitAux sep cs (sep.length - 1) []
    else splitAux sep cs 0 (c :: cur)

/-- Go `strings.Split(s, sep)` for a non-empty separator. -/
def Split (s sep : Str) : List Str := splitAux sep s 0 []

/-- Go `strings.IndexByte(s, c)`, `none` standing for -1. -/
def IndexByte (s : Str) (c : Char) : Option Nat :=
  let i := s.indexOf c
  if i < s.length then some i else none

/-- Go `strings.LastIndexByte(s, c)`, `none` standing for -1. -/
def LastIndexByte (s : Str) (c : Char) : Option Nat :=
  let i := s.reverse.indexOf c
  if i < s.length then some (s.length - 1 - i) else none

/-! ## Struct tags: `reflect.StructTag.Get` -/

/-- Value of a hexadecimal digit (`strconv.unhex`). -/
def unhex (c : Char) : Option Nat :=
  let n := c.toNat
  if 48 ≤ n ∧ n ≤ 57 then some (n - 48)
  else if 97 ≤ n ∧ n ≤ 102 then some (n - 97 + 10)
  else if 65 ≤ n ∧ n ≤ 70 then some (n - 65 + 10)
  else none

/-- Value of an octal digit. -/
def unoct (c : Char) : Option Nat :=
  let n := c.toNat
  if 48 ≤ n ∧ n ≤ 55 then some (n - 48) else none

/-- Fold a list of digit values in the given base, failing on a bad digit. -/
def digitsValue (base : Nat) (ds : List (Option Nat)) : Option Nat :=
  ds.foldl (fun acc d => match acc, d with
    | some a, some x => some (a * base + x)
    | _, _ => none) (some 0)

/-- A rune escape of `strconv.UnquoteChar` (backslash u or U): the value must
be a valid Unicode scalar. -/
def runeOfValue (v : Option Nat) : Option Char :=
  match v with
  | some n => if Nat.isValidChar n then some (Char.ofNat n) else none
  | none => none

/-- The escape-processing loop of Go `strconv.Unquote` on a double-quoted
string, started after the opening quote: the input must end exactly at the
closing quote.  A byte escape (backslash x and octal) yields the character
with that code: this is the byte that Go yields for a code below 0x80; for a
code of 0x80 or more Go yields one raw byte, which a text of characters cannot
hold, and the character with that code stands for it. -/
def unquoteBody : Str → Option Str
  | [] => none
  | c :: rest =>
    if c = '"' then (if rest.isEmpty then some [] else none)
    else if c = '\n' then none
    else if c = '\\' then
      match rest with
      | [] => none
      | e :: r1 =>
        if e = 'a' then (unquoteBody r1).map (Char.ofNat 7 :: ·)
        else if e = 'b' then (unquoteBody r1).map (Char.ofNat 8 :: ·)
        else if e = 'f' then (unquoteBody r1).map (Char.ofNat 12 :: ·)
        else if e = 'n' then (unquoteBody r1).map ('\n' :: ·)
        else if e = 'r' then (unquoteBody r1).map ('\r' :: ·)
        else if e = 't' then (unquoteBody r1).map ('\t' :: ·)
        else if e = 'v' then (unquoteBody r1).map (Char.ofNat 11 :: ·)
        else if e = '\\' then (unquoteBody r1).map ('\\' :: ·)
        else if e = '"' then (unquoteBody r1).map ('"' :: ·)
        else if e = 'x' then
          match r1 with
          | h1 :: h2 :: r2 =>
            match digitsValue 16 [unhex h1, unhex h2] with
            | some v => (unquoteBody r2).map (Char.ofNat v :: ·)
            | none => none
          | _ => none
        else if e = 'u' then
          match r1 with
          | h1 :: h2 :: h3 :: h4 :: r2 =>
            match runeOfValue (digitsValue 16 [unhex h1, unhex h2, unhex h3, unhex h4]) with
            | some ch => (unquoteBody r2).map (ch :: ·)
            | none => none
          | _ => none
        else if e = 'U' then
          match r1 with
          | h1 :: h2 :: h3 :: h4 :: h5 :: h6 :: h7 :: h8 :: r2 =>
            match runeOfValue (digitsValue 16 [unhex h1, unhex h2, unhex h3, unhex h4,
                unhex h5, unhex h6, unhex h7, unhex h8]) with
            | some ch => (unquoteBody r2).map (ch :: ·)
            | none => none
          | _ => none
        else
          match r1 with
          | o2 :: o3 :: r2 =>
            match digitsValue 8 [unoct e, unoct o2, unoct o3] with
            | some v => if v > 255 then none else (unquoteBody r2).map (Char.ofNat v :: ·)
            | none => none
          | _ => none
    else (unquoteBody rest).map (c :: ·)

/-- Go `strconv.Unquote` on a double-quoted string. -/
def Unquote (q : Str) : Option Str :=
  match q with
  | c :: rest => if c = '"' then unquoteBody rest else none
  | [] => none

/-- Characters that `reflect.StructTag.Lookup` accepts in a key. -/
def isKeyChar (c : Char) : Bool :=
  c.toNat > 32 && c != ':' && c != '"' && c.toNat != 0x7f

/-- The scan of a quoted value in `reflect.StructTag.Lookup`, started after the
opening quote: the raw body up to the closing quote and the rest of the tag. -/
def scanQuoted : Str → Option (Str × Str)
  | [] => none
  | c :: rest =>
    if c = '"' then some ([], rest)
    else if c = '\\' then
      match rest with
      | [] => none
      | e :: r1 => (scanQuoted r1).map (fun br => (c :: e :: br.1, br.2))
    else (scanQuoted rest).map (fun br => (c :: br.1, br.2))

/-- The loop of `reflect.StructTag.Lookup`: the quoted (raw) value of the first
well-formed pair whose key is `key`.  Every iteration consumes one key and one
value, so the length of the tag is fuel enough. -/
def findKey (key : Str) : Nat → Str → Option Str
  | 0, _ => none
  | fuel + 1, tag =>
    let tag1 := tag.dropWhile (· = ' ')
    if tag1.isEmpty then none
    else
      let name := tag1.takeWhile isKeyChar
      match tag1.dropWhile isKeyChar with
      | c1 :: c2 :: rest =>
        if name.isEmpty || c1 != ':' || c2 != '"' then none
        else
          match scanQuoted rest with
          | none => none
          | some (body, after) =>
            if key = name then some ('"' :: body ++ ['"'])
            else findKey key fuel after
      | _ => none

/-- Go `reflect.StructTag.Lookup`. -/
def StructTagLookup (tag key : Str) : Option Str :=
  (findKey key tag.length tag).bind Unquote

/-- Go `reflect.StructTag.Get`. -/
def StructTagGet (tag key : Str) : Str :=
  (StructTagLookup tag key).getD []

/-! ## Errors -/

/-- The reason carried by a `*strconv.NumError`. -/
inductive NumReason where
  | invalidSyntax
  | outOfRange
  deriving DecidableEq, Repr

/-- The errors of the package.  A constructor stands for the Go error value or
for the `fmt.Errorf` call that builds the message:
`invalidKind k` is "invalid kind: k", `attributeNotFound acc` is
"attribute not found: acc", `didNotMatch sel` is "%q did not match",
`privateField name` is "private field with sq tag: %q", `badAccessor part` is
"Bad accessor: %q", `badTag tag` is "Bad tag: %q", `notRegistered name` is
"%q not registered func", `parserFail sel e` is "sel: (parser fail) %q",
`loaderFail sel e` is "sel: (loader fail) %q", `coerce sel e` is "sel: e",
`num fn s r` is the `strconv` error "fn: parsing %q: r", and `external msg` is
an error made by a collaborator. -/
inductive Err where
  | invalidKind (kind : Str)
  | notSettable
  | nonStructPtrValue
  | tagNotFound
  | nodeNotFound
  | noRegexpMatch
  | attributeNotFound (acc : Str)
  | didNotMatch (selector : Str)
  | privateField (name : Str)
  | badAccessor (part : Str)
  | badTag (tag : Str)
  | notRegistered (name : Str)
  | parserFail (selector : Str) (cause : Err)
  | loaderFail (selector : Str) (cause : Err)
  | coerce (selector : Str) (cause : Err)
  | num (fn : Str) (input : Str) (reason : NumReason)
  | external (msg : Str)
  deriving DecidableEq, Repr

/-- The Go sentinel `ErrNonStructPtrValue`. -/
def ErrNonStructPtrValue : Err := Err.nonStructPtrValue

/-- The Go sentinel `ErrTagNotFound`. -/
def ErrTagNotFound : Err := Err.tagNotFound

/-- The Go sentinel `ErrNoRegexpMatch`. -/
def ErrNoRegexpMatch : Err := Err.noRegexpMatch

/-- Outcome of running Go code that may fail at run time (a Go panic). -/
inductive Run (α : Type) where
  | done (a : α)
  | panic
  deriving Repr

/-- Sequencing of runs: a panic ends the computation. -/
def Run.bind {α β : Type} (r : Run α) (f : α → Run β) : Run β :=
  match r with
  | .done a => f a
  | .panic => .panic

/-- Apply a function to the result of a run. -/
def Run.map {α β : Type} (f : α → β) (r : Run α) : Run β :=
  match r with
  | .done a => .done (f a)
  | .panic => .panic

/-! ## The document collaborator (goquery) -/

/-- A handle on one node of the document. -/
abbrev Node := Nat

/-- A goquery selection: the ordered list of its nodes. -/
abbrev Selection := List Node

/-- The operations of `*goquery.Selection` that the package calls, for one
parsed document.  `Size` is the length of the selection and `Each` visits its
nodes in order, each as a one-node selection. -/
structure Dom where
  /-- `sel.Find(selector)`. -/
  find : Selection → Str → Selection
  /-- `sel.Is(selector)`. -/
  matchesSel : Selection → Str → Bool
  /-- `sel.Text()`. -/
  text : Selection → Str
  /-- `sel.Html()`. -/
  html : Selection → Str × Option Err
  /-- `sel.Attr(name)`. -/
  attr : Selection → Str → Option Str

/-- A parsed document: its operations and its root selection. -/
structure Document where
  dom : Dom
  root : Selection

/-- The loop of `sel.Each`: the callback runs on every node in order, with its
index, and updates the state captured by the closure. -/
def eachIndexed {σ : Type} (body : Nat → Node → σ → Run σ) : Nat → List Node → σ → Run σ
  | _, [], s => .done s
  | i, n :: ns, s =>
    match body i n s with
    | .done s1 => eachIndexed body (i + 1) ns s1
    | .panic => .panic

/-! ## Extraction plans (`path`) and the registries -/

/-- A value produced by a constructor (`interface{}` result of a loader), after
the pointer dereference of `setValueFromSel`. -/
inductive Dyn where
  | text (s : Str)
  | selection (nodes : Selection)
  | node (n : Node)
  | foreign (kind : Str) (repr : Str)
  deriving DecidableEq, Repr

/-- Result of a constructor call: a value, an error, or a run-time failure. -/
inductive LoadResult where
  | ok (d : Dyn)
  | err (e : Err)
  | panic

/-- Go `ParseFunc`; `none` is the nil function. -/
abbrev ParseFunc := Option (Str → Str → Except Err Str)

/-- Go `LoadFunc`; `none` is the nil function. -/
abbrev LoadFunc := Option (Selection → Str → Str → LoadResult)

/-- Go `parser`. -/
structure parser where
  f : ParseFunc
  args : Str

/-- Go `loader`. -/
structure loader where
  f : LoadFunc
  args : Str

/-- Go `path`: the plan compiled from one annotation. -/
structure path where
  selector : Str := []
  acc : Str := []
  parsers : List parser := []
  loader : Option loader := none

/-- Go `(p parser) parse`. -/
def parser.parse (p : parser) (s : Str) : Except Err Str :=
  match p.f with
  | some f => f s p.args
  | none => .ok s

/-- Go `(l *loader) load`. -/
def loader.load (l : loader) (sel : Selection) (s : Str) : LoadResult :=
  match l.f with
  | some f => f sel s l.args
  | none => .ok (Dyn.text s)

/-- Go constant `accessorAttr`. -/
def accessorAttr : Str := "attr".toList

/-- Go constant `accessorHTML`. -/
def accessorHTML : Str := "html".toList

/-- Go constant `accessorText`. -/
def accessorText : Str := "text".toList

/-- Go `trimAccessor`. -/
def trimAccessor (s pre : Str) : Str :=
  let s := trimStart s pre
  let s := trimStart s ['(']
  let s := trimEnd s [')']
  TrimSpace s

/-- Go `extractString`: the extracted text and the error, as the Go pair. -/
def extractString (D : Dom) (sel : Selection) (acc : Str) : Str × Option Err :=
  if acc = accessorHTML then
    let r := D.html sel
    (TrimSpace r.1, r.2)
  else if acc = accessorText then
    (TrimSpace (D.text sel), none)
  else if startsWith acc accessorAttr then
    match D.attr sel (trimAccessor acc accessorAttr) with
    | none => ([], some (Err.attributeNotFound acc))
    | some s => (TrimSpace s, none)
  else if acc = [] then
    ([], none)
  else
    ([], some (Err.badAccessor acc))

/-- Go `parseFunctionSignature`. -/
def parseFunctionSignature (s : Str) : Str × Str :=
  match IndexByte s '(' with
  | some i =>
    let name := s.take i
    match LastIndexByte s ')' with
    | some j => if i < j then (name, (s.take j).drop (i + 1)) else (name, [])
    | none => (name, [])
  | none => (s, [])

/-- The two name-indexed registries read by `parseTag` (the Go maps
`parseFuncs` and `loadFuncs`); `none` is a missing key. -/
structure FuncRegistry where
  parseFuncs : Str → Option ParseFunc
  loadFuncs : Str → Option LoadFunc

/-- The body of the loop of `parseTag` over the segments, from index `i` on. -/
def parseParts (R : FuncRegistry) : Nat → List Str → path → Except Err path
  | _, [], p => .ok p
  | i, part0 :: rest, p =>
    let part := TrimSpace part0
    if i = 0 then
      parseParts R (i + 1) rest { p with selector := part }
    else if i = 1 then
      if startsWith part (accessorAttr ++ ['(']) || accessorHTML = part || accessorText = part then
        parseParts R (i + 1) rest { p with acc := part }
      else
        .error (Err.badAccessor part)
    else
      let na := parseFunctionSignature part
      match R.parseFuncs na.1 with
      | some pf => parseParts R (i + 1) rest { p with parsers := p.parsers ++ [⟨pf, na.2⟩] }
      | none =>
        match R.loadFuncs na.1 with
        | some lf => parseParts R (i + 1) rest { p with loader := some ⟨lf, na.2⟩ }
        | none => .error (Err.notRegistered na.1)

/-- The key of the struct tag that holds the annotation. -/
def tagKey : Str := "sq".toList

/-- The separator of the segments of an annotation. -/
def segmentSep : Str := " | ".toList

/-- The text that `parseTag` looks for in a tag that gave no selector. -/
def tagMarker : Str := "sq:".toList

/-- The segments of the annotation held by a struct tag. -/
def segmentsOf (tag : Str) : List Str := Split (StructTagGet tag tagKey) segmentSep

/-- Go `parseTag`. -/
def parseTag (R : FuncRegistry) (tag : Str) : Except Err path :=
  match parseParts R 0 (segmentsOf tag) {} with
  | .error e => .error e
  | .ok p =>
    if p.selector = [] then
      if Contains tag tagMarker then .error (Err.badTag tag)
      else .error ErrTagNotFound
    else .ok p

/-! ## The reflected schema: types and values -/

/-- Identity of a Go type as `reflect.Type` reports it: `PkgPath()` and
`Name()`, both empty for an unnamed type. -/
structure TypeId where
  pkgPath : Str := []
  name : Str := []
  deriving DecidableEq, Repr

/-- The kinds that `setValueFromSel` coerces from text.  `int` covers the
kinds Int to Int64 and `uint` the kinds Uint to Uint64 and Uintptr, with the
width that `Type.Bits()` reports; Uint8 is `uint 8`. -/
inductive ScalarKind where
  | bool
  | int (bits : Nat)
  | uint (bits : Nat)
  | float (bits : Nat)
  | string
  | iface
  deriving DecidableEq, Repr

/-- One field of a struct type: `reflect.StructField`. -/
structure Field (τ : Type) where
  name : Str
  tag : Str
  type : τ

/-- A Go type as seen through `reflect`.  `unsupported` stands for the kinds
Map, Chan, Func, Complex64, Complex128 and UnsafePointer, named by `kind`. -/
inductive Ty where
  | scalar (id : TypeId) (k : ScalarKind)
  | ptr (id : TypeId) (elem : Ty)
  | array (id : TypeId) (len : Nat) (elem : Ty)
  | slice (id : TypeId) (elem : Ty)
  | struct (id : TypeId) (fields : List (Field Ty))
  | unsupported (id : TypeId) (kind : Str)

/-- The identity (`PkgPath`, `Name`) of a type. -/
def Ty.id : Ty → TypeId
  | .scalar id _ => id
  | .ptr id _ => id
  | .array id _ _ => id
  | .slice id _ => id
  | .struct id _ => id
  | .unsupported id _ => id

/-- Whether `Kind()` is Uint8. -/
def Ty.isUint8 : Ty → Bool
  | .scalar _ (.uint 8) => true
  | _ => false

/-- Whether the type is `uint8` itself (which `byte` names too), not a named
type of that kind. -/
def Ty.isByte : Ty → Bool
  | .scalar id (.uint 8) => id.pkgPath = [] && id.name = "uint8".toList
  | _ => false

/-- The state of a slot of the schema instance.  `loaded d` is a slot that
holds the value `d` made by a constructor; `ptr none` is a nil pointer and
`iface none` a nil interface. -/
inductive Val where
  | bool (b : Bool)
  | int (n : Int)
  | uint (n : Nat)
  | float (bits : Nat)
  | string (s : Str)
  | iface (held : Option Dyn)
  | ptr (target : Option Val)
  | array (elems : List Val)
  | slice (elems : List Val)
  | struct (fields : List Val)
  | loaded (d : Dyn)
  | unsupported

mutual
/-- The zero value of a type (`reflect.Zero`, `reflect.New(t).Elem()`). -/
def zero : Ty → Val
  | .scalar _ .bool => .bool false
  | .scalar _ (.int _) => .int 0
  | .scalar _ (.uint _) => .uint 0
  | .scalar _ (.float _) => .float 0
  | .scalar _ .string => .string []
  | .scalar _ .iface => .iface none
  | .ptr _ _ => .ptr none
  | .array _ n e => .array (List.replicate n (zero e))
  | .slice _ _ => .slice []
  | .struct _ fs => .struct (zeroFields fs)
  | .unsupported _ _ => .unsupported
/-- The zero values of the fields of a struct type. -/
def zeroFields : List (Field Ty) → List Val
  | [] => []
  | f :: fs => zero f.type :: zeroFields fs
end

/-- The elements of an array or slice slot. -/
def Val.elems : Val → List Val
  | .array es => es
  | .slice es => es
  | _ => []

/-- The field slots of a struct slot. -/
def Val.fields : Val → List Val
  | .struct fs => fs
  | _ => []

/-- Go `[]byte(s)`: the UTF-8 encoding of a string. -/
def bytesOf (s : Str) : List Nat :=
  s.flatMap (fun c => (String.utf8EncodeChar c).map UInt8.toNat)

/-- Go `reflect.Copy(dst, src)` on element lists: the first
`min (len dst) (len src)` elements are overwritten. -/
def copyInto (dst src : List Val) : List Val :=
  src.take dst.length ++ dst.drop src.length

/-! ## Scalar coercion (`strconv`) -/

/-- Go `strconv.ParseBool`. -/
def ParseBool (s : Str) : Except Err Bool :=
  if s = "1".toList || s = "t".toList || s = "T".toList || s = "TRUE".toList ||
      s = "true".toList || s = "True".toList then .ok true
  else if s = "0".toList || s = "f".toList || s = "F".toList || s = "FALSE".toList ||
      s = "false".toList || s = "False".toList then .ok false
  else .error (Err.num "ParseBool".toList s .invalidSyntax)

/-- The bound `maxUint64/10 + 1` of `strconv.ParseUint` in base 10: from this
value on, multiplying by ten overflows 64 bits. -/
def uintCutoff : Nat := (2 ^ 64 - 1) / 10 + 1

/-- The digit loop of `strconv.ParseUint` in base 10, on 64-bit unsigned
arithmetic: the value read so far is `n`, and `maxVal` is the largest value of
the requested width.  The first character that is not a digit is a syntax
error, the first overflow a range error. -/
def parseUintLoop (maxVal : Nat) : Str → Nat → Except NumReason Nat
  | [], n => .ok n
  | c :: cs, n =>
    if c.isDigit then
      if n ≥ uintCutoff then .error .outOfRange
      else
        let n10 := n * 10
        let n1 := (n10 + (c.toNat - 48)) % 2 ^ 64
        if n1 < n10 || n1 > maxVal then .error .outOfRange
        else parseUintLoop maxVal cs n1
    else .error .invalidSyntax

/-- The core of `strconv.ParseUint(s, 10, bits)`: the value, or the reason of
the failure. -/
def parseUintCore (s : Str) (bits : Nat) : Except NumReason Nat :=
  if s.isEmpty then .error .invalidSyntax
  else parseUintLoop (2 ^ bits - 1) s 0

/-- Go `strconv.ParseUint(s, 10, bits)`. -/
def ParseUint (s : Str) (bits : Nat) : Except Err Nat :=
  match parseUintCore s bits with
  | .ok n => .ok n
  | .error r => .error (Err.num "ParseUint".toList s r)

/-- Go `strconv.ParseInt(s, 10, bits)`: the sign is picked off, the rest is
read by `ParseUint` with the same bit size (a range error there leaves the
largest unsigned number of the size and is not returned as such), and the
magnitude is checked against the width. -/
def ParseInt (s : Str) (bits : Nat) : Except Err Int :=
  if s.isEmpty then .error (Err.num "ParseInt".toList s .invalidSyntax)
  else
    let neg := s.head? = some '-'
    let digits := if s.head? = some '+' || s.head? = some '-' then s.tail else s
    match parseUintCore digits bits with
    | .error .invalidSyntax => .error (Err.num "ParseInt".toList s .invalidSyntax)
    | r =>
      let un := match r with
        | .ok n => n
        | .error _ => 2 ^ bits - 1
      let cutoff := 2 ^ (bits - 1)
      if !neg && un ≥ cutoff then .error (Err.num "ParseInt".toList s .outOfRange)
      else if neg && un > cutoff then .error (Err.num "ParseInt".toList s .outOfRange)
      else .ok (if neg then -(un : Int) else (un : Int))

/-! ## The hydration engine -/

/-- Go `TypeLoader`. -/
structure TypeLoader where
  isType : Ty → Bool
  load : Selection → Str → LoadResult

/-- The library functions that hydration relies on and that the model leaves
to the environment: `unicode.IsUpper`, `strconv.ParseFloat` (the result is
the bit pattern of the float), and the assignability test of
`reflect.Value.Set`, which fails at run time when it does not hold. -/
structure Lib where
  isUpper : Char → Bool
  parseFloat : Str → Nat → Except Err Nat
  assignable : Ty → Dyn → Bool

/-- The registries of the package: the two name-indexed maps and the
`typeLoaders` map, listed in the order in which the `range` statement of
`hydrateValue` visits it. -/
structure Registry extends FuncRegistry where
  typeLoaders : List TypeLoader

/-- The selector step of `hydrateValue` (lines 62 to 67): the narrowed
selection, or the did-not-match error. -/
def narrow (D : Dom) (sel : Selection) (p : Option path) : Except Err Selection :=
  match p with
  | none => .ok sel
  | some p =>
    if p.selector.length > 0 && p.selector != ['.'] && !D.matchesSel sel p.selector then
      let sel1 := D.find sel p.selector
      if sel1.length = 0 then .error (Err.didNotMatch p.selector) else .ok sel1
    else .ok sel

/-- Go `setValueFromSel`: the new state of the slot and the returned error.
`v.Set` fails at run time when the value is not assignable to the slot: the
value of a terminal, or the text for a slot of an interface type. -/
def setValueFromSel (L : Lib) (D : Dom) (t : Ty) (v : Val) (sel : Selection) (p : path) :
    Run (Val × Option Err) :=
  match extractString D sel p.acc with
  | (_, some err) => .done (v, some err)
  | (s0, none) =>
    match p.parsers.foldlM (fun s (pp : parser) => pp.parse s) s0 with
    | .error err => .done (v, some (Err.parserFail p.selector err))
    | .ok s =>
      match p.loader with
      | some l =>
        match l.load sel s with
        | .panic => .panic
        | .err err => .done (v, some (Err.loaderFail p.selector err))
        | .ok rv => if L.assignable t rv then .done (.loaded rv, none) else .panic
      | none =>
        match t with
        | .scalar _ .bool =>
          match ParseBool s with
          | .error err => .done (v, some (Err.coerce p.selector err))
          | .ok b => .done (.bool b, none)
        | .scalar _ (.int bits) =>
          match ParseInt s bits with
          | .error err => .done (v, some (Err.coerce p.selector err))
          | .ok n => .done (.int n, none)
        | .scalar _ (.uint bits) =>
          match ParseUint s bits with
          | .error err => .done (v, some (Err.coerce p.selector err))
          | .ok n => .done (.uint n, none)
        | .scalar _ (.float bits) =>
          match L.parseFloat s bits with
          | .error err => .done (v, some (Err.coerce p.selector err))
          | .ok x => .done (.float x, none)
        | .scalar _ .string => .done (.string s, none)
        | .scalar _ .iface =>
          if L.assignable t (Dyn.text s) then .done (.iface (some (Dyn.text s)), none)
          else .panic
        | _ => .panic

/-- The first type loader of the table whose predicate accepts the type. -/
def findTypeLoader (tls : List TypeLoader) (t : Ty) : Option TypeLoader :=
  tls.find? (fun tl => tl.isType t)

/-- The `loader` that `hydrateValue` builds around a type loader. -/
def typeLoaderAsLoader (tl : TypeLoader) : loader :=
  ⟨some (fun sel text _ => tl.load sel text), []⟩

/-- Whether the field name starts with an upper-case letter
(`utf8.DecodeRuneInString` then `unicode.IsUpper`). -/
def exported (L : Lib) (name : Str) : Bool :=
  match name with
  | [] => false
  | c :: _ => L.isUpper c

/-- The state that a call of `hydrateValue` leaves behind: the slot, the
returned errors, and the plan (which the call may have updated in place). -/
abbrev Hydrated := Val × List Err × Option path

/-- The plan when it is non-nil and carries a loader (the test
`p != nil && p.loader != nil`). -/
def planWithLoader (p : Option path) : Option path :=
  p.filter (fun pp => pp.loader.isSome)

/-- Wrap the outcome of hydrating the target of a pointer: the pointer slot
now points to the hydrated target. -/
def underPointer (r : Run Hydrated) : Run Hydrated :=
  r.map (fun h => (Val.ptr (some h.1), h.2))

/-- The result of a `setValueFromSel` call as `hydrateValue` returns it. -/
def leafResult (p : Option path) (r : Run (Val × Option Err)) : Run Hydrated :=
  r.map (fun x => (x.1, x.2.toList, p))

mutual
/-- Go `hydrateValue`.  The slot is given by its type `t`, its settability
`canSet` and its state `v`; the result is the new state of the slot, the
returned errors and the state of the plan.  The first equation is the loop of
`resolvePointer` followed by the rest of the function on the target.  In the
byte-array case `reflect.Copy` from a `[]byte` fails at run time unless the
element type is `uint8` itself; `SetBytes` in the byte-slice case asks for the
kind only. -/
def hydrateValue (L : Lib) (D : Dom) (R : Registry) :
    Ty → Bool → Val → Selection → Option path → Run Hydrated
  | .ptr _ e, canSet, v, sel, p =>
    match v with
    | .ptr (some w) => underPointer (hydrateValue L D R e true w sel p)
    | _ =>
      if canSet then underPointer (hydrateValue L D R e true (zero e) sel p)
      else .panic
  | t, canSet, v, sel0, p =>
    if !canSet then .done (v, [], p)
    else
      match narrow D sel0 p with
      | .error err => .done (v, [err], p)
      | .ok sel =>
        match planWithLoader p with
        | some pp => leafResult p (setValueFromSel L D t v sel pp)
        | none =>
          match findTypeLoader R.typeLoaders t with
          | some tl =>
            match p with
            | none => .panic
            | some pp =>
              let pp1 : path := { pp with loader := some (typeLoaderAsLoader tl) }
              leafResult (some pp1) (setValueFromSel L D t v sel pp1)
          | none =>
            match t with
            | .struct _ fs =>
              (hydrateFields L D R fs v.fields sel []).map
                (fun r => (Val.struct r.1, r.2, p))
            | .array _ len e =>
              if e.isUint8 then
                match p with
                | none => .panic
                | some pp =>
                  match extractString D sel pp.acc with
                  | (_, some err) => .done (v, [err], p)
                  | (s, none) =>
                    if e.isByte then
                      .done (.array (copyInto v.elems ((bytesOf s).map Val.uint)), [], p)
                    else .panic
              else
                (eachIndexed (fun i n (st : List Val × List Err × Option path) =>
                    if i < len then
                      match hydrateValue L D R e true (st.1.getD i (zero e)) [n] st.2.2 with
                      | .panic => .panic
                      | .done h => .done (st.1.set i h.1, st.2.1 ++ h.2.1, h.2.2)
                    else .done st) 0 sel (v.elems, [], p)).map
                  (fun st => (Val.array st.1, st.2.1, st.2.2))
            | .slice _ e =>
              if e.isUint8 then
                match p with
                | none => .panic
                | some pp =>
                  match extractString D sel pp.acc with
                  | (_, some err) => .done (v, [err], p)
                  | (s, none) => .done (.slice ((bytesOf s).map Val.uint), [], p)
              else
                (eachIndexed (fun i n (st : List Val × List Err × Option path) =>
                    match hydrateValue L D R e true (st.1.getD i (zero e)) [n] st.2.2 with
                    | .panic => .panic
                    | .done h => .done (st.1.set i h.1, st.2.1 ++ h.2.1, h.2.2))
                  0 sel (List.replicate sel.length (zero e), [], p)).map
                  (fun st => (Val.slice st.1, st.2.1, st.2.2))
            | .scalar _ _ =>
              match p with
              | none => .panic
              | some pp => leafResult p (setValueFromSel L D t v sel pp)
            | .unsupported _ kind => .done (v, [Err.invalidKind kind], p)
            | .ptr _ _ => .panic
/-- The loop of the struct case of `hydrateValue` over the fields, from the
field at the head of the list on: `vs` are the slots of these fields and `errs`
the errors collected so far. -/
def hydrateFields (L : Lib) (D : Dom) (R : Registry) :
    List (Field Ty) → List Val → Selection → List Err → Run (List Val × List Err)
  | [], _, _, errs => .done ([], errs)
  | ft :: fs, vs, sel, errs =>
    let fv := vs.headD (zero ft.type)
    match parseTag R.toFuncRegistry ft.tag with
    | .error err =>
      (hydrateFields L D R fs vs.tail sel
        (if err = ErrTagNotFound then errs else errs ++ [err])).map
        (fun r => (fv :: r.1, r.2))
    | .ok p =>
      if !exported L ft.name then
        (hydrateFields L D R fs vs.tail sel (errs ++ [Err.privateField ft.name])).map
          (fun r => (fv :: r.1, r.2))
      else
        match hydrateValue L D R ft.type true fv sel (some p) with
        | .panic => .panic
        | .done h =>
          (hydrateFields L D R fs vs.tail sel (errs ++ h.2.1)).map
            (fun r => (h.1 :: r.1, r.2))
end

/-- Whether a type is a pointer to a struct (the test of `Scrape`). -/
def isStructPtr : Ty → Bool
  | .ptr _ (.struct _ _) => true
  | _ => false

/-- Go `Scrape`.  The target is the dynamic type and value held by the
`interface{}` argument (`none` for a nil interface); the reader is given by what
`goquery.NewDocumentFromReader` makes of it.  The result is the new state of
the target and the returned errors. -/
def Scrape (L : Lib) (R : Registry) (structPtr : Option (Ty × Val))
    (r : Unit → Except Err Document) : Run (Option (Ty × Val) × List Err) :=
  match structPtr with
  | none => .done (structPtr, [ErrNonStructPtrValue])
  | some (t, v) =>
    if !isStructPtr t then .done (structPtr, [ErrNonStructPtrValue])
    else
      match r () with
      | .error err => .done (structPtr, [err])
      | .ok doc =>
        (hydrateValue L doc.dom R t false v doc.root none).map
          (fun h => (some (t, h.1), h.2.1))

/-- Go `resolvePointer` as it acts on a settable slot: the slot after the
loop, where every nil pointer on the way to the target has been replaced by a
pointer to a zero value. -/
def resolvePointer : Ty → Val → Val
  | .ptr _ e, .ptr (some w) => .ptr (some (resolvePointer e w))
  | .ptr _ e, _ => .ptr (some (resolvePointer e (zero e)))
  | _, v => v

/-- The type that `resolvePointer` leaves the handle on. -/
def Ty.base : Ty → Ty
  | .ptr _ e => e.base
  | t => t

/-- The value that `resolvePointer` leaves the handle on. -/
def targetOf : Ty → Val → Val
  | .ptr _ e, .ptr (some w) => targetOf e w
  | .ptr _ e, _ => targetOf e (zero e)
  | _, v => v

/-! ## The built-in type loaders (`funcs.go`) -/

/-- The parsers of other packages that the built-in type loaders call. -/
structure Ext where
  /-- `url.Parse`. -/
  urlParse : Str → Except Err Dyn
  /-- `otto/parser.ParseFile(nil, "", text, 0)`. -/
  ottoParse : Str → Except Err Dyn
  /-- `douceur/parser.Parse`. -/
  cssParse : Str → Except Err Dyn

/-- A constructor result from a Go `(value, error)` pair. -/
def LoadResult.ofExcept (r : Except Err Dyn) : LoadResult :=
  match r with
  | .ok d => .ok d
  | .error e => .err e

/-- The entry "url" of `typeLoaders`. -/
def urlTypeLoader (X : Ext) : TypeLoader where
  isType t := t.id.pkgPath = "net/url".toList && t.id.name = "URL".toList
  load _ s := LoadResult.ofExcept (X.urlParse s)

/-- The entry "goquery" of `typeLoaders`. -/
def goqueryTypeLoader : TypeLoader where
  isType t := endsWith t.id.pkgPath "/goquery".toList && t.id.name = "Selection".toList
  load sel _ := .ok (Dyn.selection sel)

/-- The entry "html" of `typeLoaders`: `sel.Clone().Nodes[0]` fails at run
time on an empty selection. -/
def htmlTypeLoader : TypeLoader where
  isType t := t.id.pkgPath = "golang.org/x/net/html".toList && t.id.name = "Node".toList
  load sel _ :=
    match sel with
    | n :: _ => .ok (Dyn.node n)
    | [] => .panic

/-- The entry "otto" of `typeLoaders`. -/
def ottoTypeLoader (X : Ext) (D : Dom) : TypeLoader where
  isType t := endsWith t.id.pkgPath "otto/ast".toList && t.id.name = "Program".toList
  load sel text := LoadResult.ofExcept (X.ottoParse (if text = [] then D.text sel else text))

/-- The entry "css" of `typeLoaders`. -/
def cssTypeLoader (X : Ext) (D : Dom) : TypeLoader where
  isType t := endsWith t.id.pkgPath "douceur/css".toList && t.id.name = "Stylesheet".toList
  load sel text := LoadResult.ofExcept (X.cssParse (if text = [] then D.text sel else text))

/-- The built-in `typeLoaders`, in the order of the source. -/
def builtinTypeLoaders (X : Ext) (D : Dom) : List TypeLoader :=
  [urlTypeLoader X, goqueryTypeLoader, htmlTypeLoader, ottoTypeLoader X D, cssTypeLoader X D]

/-! ## Notions used to state the properties -/

/-- Run computations in order and collect their results; the first run-time
failure ends the whole. -/
def Run.all {α : Type} : List (Run α) → Run (List α)
  | [] => .done []
  | r :: rs => r.bind (fun a => (Run.all rs).map (fun as => a :: as))

/-- What one field of a composite contributes: its slot afterwards and its
errors.  Nothing when the field is not annotated, the compile error when the
annotation does not compile, the visibility error when the field is annotated
but unexported, and otherwise what hydrating the field with its compiled plan
gives. -/
def fieldContribution (L : Lib) (D : Dom) (R : Registry) (sel : Selection)
    (ft : Field Ty) (fv : Val) : Run (Val × List Err) :=
  match parseTag R.toFuncRegistry ft.tag with
  | .error err => if err = ErrTagNotFound then .done (fv, []) else .done (fv, [err])
  | .ok p =>
    if exported L ft.name then
      (hydrateValue L D R ft.type true fv sel (some p)).map (fun h => (h.1, h.2.1))
    else .done (fv, [Err.privateField ft.name])

/-- What the loops of the array and slice cases do: slot `i` is hydrated
from node `i`, in order, as long as there are both a slot and a node; slots
without a node are kept as they are, nodes without a slot are not looked at.
The plan handed to a slot is the plan as the slot before left it, since the
slots share it and `hydrateValue` may write a type loader into it: this is not
in general the hydration of every slot with the compiled plan. -/
def hydratePairs (L : Lib) (D : Dom) (R : Registry) (e : Ty) :
    List Val → List Node → Option path → Run (List Val × List Err × Option path)
  | v :: vs, n :: ns, p =>
    (hydrateValue L D R e true v [n] p).bind (fun h =>
      (hydratePairs L D R e vs ns h.2.2).map (fun r => (h.1 :: r.1, h.2.1 ++ r.2.1, r.2.2)))
  | [], _ :: _, p => .done ([], [], p)
  | vs, [], p => .done (vs, [], p)

/-- An accessor segment of the form `attr(name)`. -/
def attrForm (s : Str) : Bool :=
  startsWith s "attr(".toList && (s.drop 5).getLast? = some ')'

/-- Whether hydrating a slot of (pointer-resolved) type `t` with plan `p` pulls
text out of the document through the accessor: the slot is built by a terminal
or type-directed constructor, or is a scalar, or a byte sequence. -/
def usesAccessor (R : Registry) (p : path) (t : Ty) : Bool :=
  p.loader.isSome || (findTypeLoader R.typeLoaders t).isSome ||
  match t with
  | .scalar _ _ => true
  | .array _ _ e => e.isUint8
  | .slice _ e => e.isUint8
  | _ => false

/-! ## A concrete environment for the examples -/

/-- The library functions of the examples: ASCII upper case, no float is
parsed, and `Set` accepts a string for `string` and interface slots, a
selection for a goquery `Selection` slot and a node for an html `Node` slot. -/
def exampleLib : Lib where
  isUpper := Char.isUpper
  parseFloat s _ := .error (Err.num "ParseFloat".toList s .invalidSyntax)
  assignable t d :=
    match t, d with
    | .scalar _ .iface, _ => true
    | .scalar id .string, .text _ => id.pkgPath = [] && id.name = "string".toList
    | .struct id _, .selection _ => goqueryTypeLoader.isType (.struct id [])
    | .struct id _, .node _ => htmlTypeLoader.isType (.struct id [])
    | _, _ => false

/-- External parsers of the examples: every input is rejected. -/
def exampleExt : Ext where
  urlParse _ := .error (Err.external "url".toList)
  ottoParse _ := .error (Err.external "otto".toList)
  cssParse _ := .error (Err.external "css".toList)

/-- A document given by tables: what `Find` and `Is` answer for a selection
and a selector, and the text and attributes of a selection. -/
structure DocTable where
  finds : List ((Selection × Str) × Selection) := []
  matching : List (Selection × Str) := []
  texts : List (Selection × Str) := []
  attrs : List ((Selection × Str) × Str) := []

/-- The document operations read off the tables; the markup of a selection is
taken to be its text. -/
def DocTable.dom (t : DocTable) : Dom where
  find sel s := (t.finds.lookup (sel, s)).getD []
  matchesSel sel s := t.matching.contains (sel, s)
  text sel := (t.texts.lookup sel).getD []
  html sel := ((t.texts.lookup sel).getD [], none)
  attr sel name := t.attrs.lookup (sel, name)

/-- The registry of the examples: no named function is registered and the
type loaders are the built-in ones. -/
def exampleRegistry (D : Dom) : Registry where
  parseFuncs _ := none
  loadFuncs _ := none
  typeLoaders := builtinTypeLoaders exampleExt D

/-- The predeclared type `string`. -/
def tyString : Ty := .scalar ⟨[], "string".toList⟩ .string

/-- The predeclared type `int` (64 bits). -/
def tyInt : Ty := .scalar ⟨[], "int".toList⟩ (.int 64)

/-- The struct type `goquery.Selection`; its fields are unexported and carry
no tag. -/
def tySelection : Ty :=
  .struct ⟨"github.com/PuerkitoBio/goquery".toList, "Selection".toList⟩
    [⟨"Nodes".toList, [], .slice {} (.ptr {} (.unsupported {} "node".toList))⟩]

/-- A document with root node 0 and two `div` elements, nodes 1 and 2, each with
the text "x"; node 3 is an `a` element with the text "7". -/
def twoDivs : DocTable where
  finds := [(([0], "div".toList), [1, 2]), (([0], "a".toList), [3])]
  matching := [([1], "div".toList), ([2], "div".toList), ([3], "a".toList)]
  texts := [([1], "x".toList), ([2], "x".toList), ([1, 2], "xx".toList), ([3], "7".toList)]


/-- A composite with six fields: a text field, an unexported annotated field,
an integer field whose text is not a number, a field whose selector matches
nothing, a field without annotation, and a field whose annotation does not
compile. -/
def sixFields : List (Field Ty) :=
  [⟨"Title".toList, "sq:\"a | text\"".toList, tyString⟩,
   ⟨"hidden".toList, "sq:\"a\"".toList, tyString⟩,
   ⟨"Count".toList, "sq:\"div | text\"".toList, tyInt⟩,
   ⟨"Missing".toList, "sq:\"blink\"".toList, tyString⟩,
   ⟨"Plain".toList, "json:\"plain\"".toList, tyString⟩,
   ⟨"Fuzzy".toList, "sq:\"a | fuzzy\"".toList, tyString⟩]

/-- A document with root node 0 and three `p` elements, nodes 1, 2 and 3, with
the texts "10", "20" and "30". -/
def threePs : DocTable where
  finds := [(([0], "p".toList), [1, 2, 3])]
  matching := [([1], "p".toList), ([2], "p".toList), ([3], "p".toList)]
  texts := [([1], "10".toList), ([2], "20".toList), ([3], "30".toList)]

/-- The plan compiled from the annotation "p | text". -/
def planPText : path := { selector := "p".toList, acc := "text".toList }

/-- The plan compiled from the annotation "div". -/
def planDiv : path := { selector := "div".toList }

/-- A sequence of sequences of goquery selections: `[][]*goquery.Selection`. -/
def tySelectionRows : Ty := .slice {} (.slice {} (.ptr {} tySelection))

/-- A composite whose only field is such a sequence of sequences, annotated
"div". -/
def rowsStruct : Ty :=
  .struct {} [⟨"Rows".toList, "sq:\"div\"".toList, tySelectionRows⟩]

/-- A composite with a field annotated "(optional) blink" and a field annotated
"blink". -/
def optionalFields : List (Field Ty) :=
  [⟨"Optional".toList, "sq:\"(optional) blink\"".toList, tyString⟩,
   ⟨"Missing".toList, "sq:\"blink\"".toList, tyString⟩]

/-- A reader that delivers the two-div document. -/
def twoDivsReader : Unit → Except Err Document :=
  fun _ => .ok ⟨twoDivs.dom, [0]⟩

/-- A composite whose only field is unexported and carries an annotation that
does not compile. -/
def hiddenFuzzy : List (Field Ty) :=
  [⟨"hidden".toList, "sq:\"a | fuzzy\"".toList, tyString⟩]

/-- The plan compiled from the annotation "blink". -/
def planBlink : path := { selector := "blink".toList }

/-- The plan compiled from the annotation "div | attr(missing)". -/
def planDivMissing : path := { selector := "div".toList, acc := "attr(missing)".toList }

/-- The value a pointer slot of element type `e` points to once
`resolvePointer` has allocated it: the target, or the zero value for a nil
pointer. -/
def pointee (e : Ty) (v : Val) : Val :=
  match v with
  | .ptr (some w) => w
  | _ => zero e

/-- A registry of named functions in which nothing is registered. -/
def noFuncs : FuncRegistry where
  parseFuncs _ := none
  loadFuncs _ := none

/-! ## The built-in named functions (`funcs.go`) -/

/-- A compiled regular expression (`*regexp.Regexp`), by the two methods the
package calls. -/
structure Regexp where
  /-- `r.FindStringSubmatch(s)`; the empty list is the nil result. -/
  findStringSubmatch : Str → List Str
  /-- `r.ReplaceAllString(s, repl)`. -/
  replaceAllString : Str → Str → Str

/-- The functions of other packages that the built-in named functions call. -/
structure ExtFuncs where
  /-- `regexp.Compile`. -/
  regexpCompile : Str → Except Err Regexp
  /-- `path.Join` of two elements. -/
  pathJoin : Str → Str → Str
  /-- `time.Parse(layout, value)`. -/
  timeParse : Str → Str → Except Err Dyn
  /-- `ago.Parse`. -/
  agoParse : Str → Except Err Dyn

/-- The entry "regexp" of `parseFuncs`. -/
def regexpFunc (F : ExtFuncs) (s pattern : Str) : Except Err Str :=
  match F.regexpCompile pattern with
  | .error err => .error err
  | .ok r =>
    match r.findStringSubmatch s with
    | [m0] => .ok m0
    | _ :: m1 :: _ => if m1.length = 0 then .error ErrNoRegexpMatch else .ok m1
    | [] => .error ErrNoRegexpMatch

/-- The entry "strip" of `parseFuncs`. -/
def stripFunc (F : ExtFuncs) (s pattern : Str) : Except Err Str :=
  match F.regexpCompile pattern with
  | .error err => .error err
  | .ok r => .ok (r.replaceAllString s [])

/-- The entry "path.prepend" of `parseFuncs` (the line it prints is left
out). -/
def pathPrependFunc (F : ExtFuncs) (s token : Str) : Except Err Str :=
  if startsWith s token then .ok s else .ok (F.pathJoin token s)

/-- The entry "path.append" of `parseFuncs` (the line it prints is left
out). -/
def pathAppendFunc (F : ExtFuncs) (s token : Str) : Except Err Str :=
  if endsWith s token then .ok s else .ok (F.pathJoin s token)

/-- The entry "prepend" of `parseFuncs`. -/
def prependFunc (s token : Str) : Except Err Str :=
  if startsWith s token then .ok s else .ok (token ++ s)

/-- The entry "append" of `parseFuncs`. -/
def appendFunc (s token : Str) : Except Err Str :=
  if endsWith s token then .ok s else .ok (s ++ token)

/-- The built-in map `parseFuncs`. -/
def builtinParseFuncs (F : ExtFuncs) (name : Str) : Option ParseFunc :=
  if name = "regexp".toList then some (some (regexpFunc F))
  else if name = "strip".toList then some (some (stripFunc F))
  else if name = "path.prepend".toList then some (some (pathPrependFunc F))
  else if name = "path.append".toList then some (some (pathAppendFunc F))
  else if name = "prepend".toList then some (some prependFunc)
  else if name = "append".toList then some (some appendFunc)
  else none

/-- The entry "time" of `loadFuncs`. -/
def timeFunc (F : ExtFuncs) (_ : Selection) (s layout : Str) : LoadResult :=
  LoadResult.ofExcept (F.timeParse (TrimSpace layout) (TrimSpace s))

/-- The entry "ago" of `loadFuncs`. -/
def agoFunc (F : ExtFuncs) (_ : Selection) (s _ : Str) : LoadResult :=
  LoadResult.ofExcept (F.agoParse (TrimSpace s))

/-- The built-in map `loadFuncs`. -/
def builtinLoadFuncs (F : ExtFuncs) (name : Str) : Option LoadFunc :=
  if name = "time".toList then some (some (timeFunc F))
  else if name = "ago".toList then some (some (agoFunc F))
  else none

/-- The registries as the package sets them up, nothing registered by the
caller. -/
def builtinRegistry (X : Ext) (F : ExtFuncs) (D : Dom) : Registry where
  parseFuncs := builtinParseFuncs F
  loadFuncs := builtinLoadFuncs F
  typeLoaders := builtinTypeLoaders X D

/-- External functions of the examples: no pattern compiles, no time is
parsed, and joining two paths puts a slash between them. -/
def exampleFuncs : ExtFuncs where
  regexpCompile _ := .error (Err.external "regexp".toList)
  pathJoin a b := a ++ '/' :: b
  timeParse _ _ := .error (Err.external "time".toList)
  agoParse _ := .error (Err.external "ago".toList)

/-- The built-in named functions over the external functions of the
examples. -/
def exampleBuiltins : FuncRegistry where
  parseFuncs := builtinParseFuncs exampleFuncs
  loadFuncs := builtinLoadFuncs exampleFuncs

/-! ## Notions used to state the properties of the pipeline -/

/-- The part of `setValueFromSel` after the pipeline (lines 209 to 279): the
text `s` goes to the terminal of the plan when there is one, and to the
coercion for the kind of the slot otherwise. -/
def storeText (L : Lib) (t : Ty) (v : Val) (sel : Selection) (p : path) (s : Str) :
    Run (Val × Option Err) :=
  match p.loader with
  | some l =>
    match l.load sel s with
    | .panic => .panic
    | .err err => .done (v, some (Err.loaderFail p.selector err))
    | .ok rv => if L.assignable t rv then .done (.loaded rv, none) else .panic
  | none =>
    match t with
    | .scalar _ .bool =>
      match ParseBool s with
      | .error err => .done (v, some (Err.coerce p.selector err))
      | .ok b => .done (.bool b, none)
    | .scalar _ (.int bits) =>
      match ParseInt s bits with
      | .error err => .done (v, some (Err.coerce p.selector err))
      | .ok n => .done (.int n, none)
    | .scalar _ (.uint bits) =>
      match ParseUint s bits with
      | .error err => .done (v, some (Err.coerce p.selector err))
      | .ok n => .done (.uint n, none)
    | .scalar _ (.float bits) =>
      match L.parseFloat s bits with
      | .error err => .done (v, some (Err.coerce p.selector err))
      | .ok x => .done (.float x, none)
    | .scalar _ .string => .done (.string s, none)
    | .scalar _ .iface =>
      if L.assignable t (Dyn.text s) then .done (.iface (some (Dyn.text s)), none)
      else .panic
    | _ => .panic

/-- The pipeline of a plan run on a text: the transforms in the order of the
plan, each on the result of the one before, up to the first failure. -/
def runPipeline (ps : List parser) (s : Str) : Except Err Str :=
  ps.foldlM (fun s (pp : parser) => pp.parse s) s

/-- A transform that fails on every text, with the error "parse fail" (the
function registered as "parsefail" by the tests). -/
def failingParser : parser := ⟨some (fun _ _ => .error (Err.external "parse fail".toList)), []⟩

/-- A transform that puts its argument in front of the text. -/
def prependParser (token : Str) : parser := ⟨some prependFunc, token⟩

/-- The plan "a | text" with the pipeline prepend(1), prepend(2). -/
def planTwoPrepends : path :=
  { selector := "a".toList, acc := "text".toList,
    parsers := [prependParser "1".toList, prependParser "2".toList] }

/-- The plan "a | text" with the pipeline prepend(1), parsefail, prepend(2) and
a terminal. -/
def planFailsSecond : path :=
  { selector := "a".toList, acc := "text".toList,
    parsers := [prependParser "1".toList, failingParser, prependParser "2".toList],
    loader := some ⟨none, []⟩ }

/-- A document with root node 0, a `p.bool` element, node 1, with the text
"true", and a `p.int` element, node 2, with the text "-48". -/
def boolAndInt : DocTable where
  finds := [(([0], "p.bool".toList), [1]), (([0], "p.int".toList), [2])]
  matching := [([1], "p.bool".toList), ([2], "p.int".toList)]
  texts := [([1], "true".toList), ([2], "-48".toList)]

/-- The number that a string of decimal digits continues from `n`. -/
def digitsFrom (n : Nat) (ds : Str) : Nat :=
  ds.foldl (fun m c => m * 10 + (c.toNat - 48)) n

/-- The number denoted by a string of decimal digits. -/
def decimalValue (ds : Str) : Nat := digitsFrom 0 ds

/-- The part of `ParseInt` after the sign has been picked off: `neg` tells
whether the sign was a minus, `ds` is the rest of the text `s`. -/
def parseIntMagnitude (s : Str) (bits : Nat) (neg : Prop) [Decidable neg] (ds : Str) :
    Except Err Int :=
  match parseUintCore ds bits with
  | .error .invalidSyntax => .error (Err.num "ParseInt".toList s .invalidSyntax)
  | r =>
    let un := match r with
      | .ok n => n
      | .error _ => 2 ^ bits - 1
    let cutoff := 2 ^ (bits - 1)
    if !neg && un ≥ cutoff then .error (Err.num "ParseInt".toList s .outOfRange)
    else if neg && un > cutoff then .error (Err.num "ParseInt".toList s .outOfRange)
    else .ok (if neg then -(un : Int) else (un : Int))
/-- The texts that `strconv.ParseBool` reads as true. -/
def trueLiterals : List Str :=
  ["1".toList, "t".toList, "T".toList, "TRUE".toList, "true".toList, "True".toList]

/-- The texts that `strconv.ParseBool` reads as false. -/
def falseLiterals : List Str :=
  ["0".toList, "f".toList, "F".toList, "FALSE".toList, "false".toList, "False".toList]

/-- The predeclared type `bool`. -/
def tyBool : Ty := .scalar ⟨[], "bool".toList⟩ .bool

/-- A document with root node 0 and an `a` element, node 1, whose attribute
`href` is " /home " and which has no other attribute. -/
def oneLink : DocTable where
  finds := [(([0], "a".toList), [1])]
  matching := [([1], "a".toList)]
  texts := [([1], "home".toList)]
  attrs := [(([1], "href".toList), " /home ".toList)]

/-- The accessor `attr(name)`. -/
def attrAccessor (name : Str) : Str := accessorAttr ++ '(' :: name ++ [')']

/-- The transform that a function segment names, with its argument text, when
the name of the segment is in the transform registry. -/
def segmentParser (R : FuncRegistry) (seg : Str) : Option parser :=
  (R.parseFuncs (parseFunctionSignature (TrimSpace seg)).1).map
    (fun pf => ⟨pf, (parseFunctionSignature (TrimSpace seg)).2⟩)

/-- The terminal that a function segment names, with its argument text, when
the name of the segment is not in the transform registry and is in the
terminal registry. -/
def segmentTerminal (R : FuncRegistry) (seg : Str) : Option loader :=
  match R.parseFuncs (parseFunctionSignature (TrimSpace seg)).1 with
  | some _ => none
  | none =>
    (R.loadFuncs (parseFunctionSignature (TrimSpace seg)).1).map
      (fun lf => ⟨lf, (parseFunctionSignature (TrimSpace seg)).2⟩)

/-- The transforms named by the function segments, in the order written. -/
def segmentParsers (R : FuncRegistry) (segs : List Str) : List parser :=
  segs.filterMap (segmentParser R)

/-- The terminal named by the last function segment that names one. -/
def segmentLoader (R : FuncRegistry) (segs : List Str) : Option loader :=
  (segs.filterMap (segmentTerminal R)).getLast?

/-- The text of a function segment: a name with its argument text in
parentheses. -/
def callText (name args : Str) : Str := name ++ '(' :: args ++ [')']

/-! ## Further examples and notions for the built-in functions -/

/-- A compiled pattern given by tables: the leftmost submatch list of each
text, and the result of each replacement. -/
def tableRegexp (submatches : List (Str × List Str))
    (replacements : List ((Str × Str) × Str)) : Regexp where
  findStringSubmatch s := (submatches.lookup s).getD []
  replaceAllString s repl := (replacements.lookup (s, repl)).getD s

/-- The text of the rows of `TestRegexp`. -/
def rainInSpain : Str := "the rain in spain falls".toList

/-- External functions that answer as the `regexp` package does on the rows
of `TestRegexp`: the patterns of the rows compile, with the submatch lists of
the texts of the rows, and the pattern "(" does not. -/
def testRegexpFuncs : ExtFuncs where
  regexpCompile pattern :=
    if pattern = "s".toList then .ok (tableRegexp [("test".toList, ["s".toList])] [])
    else if pattern = " in (\\w+)".toList then
      .ok (tableRegexp [(rainInSpain, [" in spain".toList, "spain".toList])] [])
    else if pattern = " rain(\\S?) ".toList then
      .ok (tableRegexp [(rainInSpain, [" rain ".toList, []])] [])
    else if pattern = " dogs ".toList then .ok (tableRegexp [] [])
    else .error (Err.external "error parsing regexp: missing closing ): `(`".toList)
  pathJoin := exampleFuncs.pathJoin
  timeParse := exampleFuncs.timeParse
  agoParse := exampleFuncs.agoParse

/-- The accessors that `parseTag` lets through: none, `text`, `html`, or a
text that starts with `attr(`. -/
def validAccessor (acc : Str) : Prop :=
  acc = [] ∨ acc = accessorText ∨ acc = accessorHTML ∨
    startsWith acc (accessorAttr ++ ['(']) = true

/-- A struct tag whose only key is `xsq`. -/
def tagXsq : Str := "xsq:\"a\"".toList

/-- A struct tag whose only key is `json`, with a value that holds the text
"sq:". -/
def tagJsonSq : Str := "json:\"sq:a\"".toList

/-- The struct type `url.URL` of the package `net/url`; its fields carry no
tag. -/
def tyURL : Ty :=
  .struct ⟨"net/url".toList, "URL".toList⟩
    [⟨"Scheme".toList, [], tyString⟩,
     ⟨"Opaque".toList, [], tyString⟩,
     ⟨"User".toList, [], .ptr {} (.struct ⟨"net/url".toList, "Userinfo".toList⟩
        [⟨"username".toList, [], tyString⟩, ⟨"password".toList, [], tyString⟩,
         ⟨"passwordSet".toList, [], tyBool⟩])⟩,
     ⟨"Host".toList, [], tyString⟩,
     ⟨"Path".toList, [], tyString⟩,
     ⟨"RawPath".toList, [], tyString⟩,
     ⟨"RawQuery".toList, [], tyString⟩,
     ⟨"Fragment".toList, [], tyString⟩]

/-- The predeclared type `byte`. -/
def tyByte : Ty := .scalar ⟨[], "uint8".toList⟩ (.uint 8)

/-- A document with root node 0 and a `p.eightbytearray` element, node 1, with
the text "EightByteArray". -/
def eightByteDoc : DocTable where
  finds := [(([0], "p.eightbytearray".toList), [1])]
  matching := [([1], "p.eightbytearray".toList)]
  texts := [([1], "EightByteArray".toList)]

/-- The plan compiled from the annotation "p.eightbytearray | text", with a
transform added to its pipeline. -/
def planEightBytes : path :=
  { selector := "p.eightbytearray".toList, acc := "text".toList,
    parsers := [prependParser "zz".toList] }

/-! ## The library functions `path.Clean` and `path.Join` -/

/-- Where the loop of Go `path.Clean` stands in the path: at the start of an
element, inside an element that is being copied, or before the second dot of a
`..` element. -/
inductive CleanMode where
  | start
  | copy
  | skip
  deriving DecidableEq, Repr

/-- The backtracking of `path.Clean` on a `..` element, from write index `w`
(the length of the output less one): the index moves down while it is above
`dotdot` and the character under it is not a slash. -/
def cleanBacktrack (out : Str) (dotdot : Nat) : Nat → Nat
  | 0 => 0
  | w + 1 =>
    if w + 1 > dotdot && out.getD (w + 1) '/' != '/' then cleanBacktrack out dotdot w
    else w + 1

/-- The loop of Go `path.Clean` over the rest of the path: `out` is the output
written so far and `dotdot` the index in it below which `..` must not
backtrack. -/
def cleanLoop (rooted : Bool) : Str → CleanMode → Str → Nat → Str
  | [], _, out, _ => out
  | _ :: rest, .skip, out, dotdot => cleanLoop rooted rest .start out dotdot
  | c :: rest, .copy, out, dotdot =>
    if c = '/' then cleanLoop rooted rest .start out dotdot
    else cleanLoop rooted rest .copy (out ++ [c]) dotdot
  | c :: rest, .start, out, dotdot =>
    if c = '/' then cleanLoop rooted rest .start out dotdot
    else if c = '.' && (rest.isEmpty || rest.head? = some '/') then
      cleanLoop rooted rest .start out dotdot
    else if c = '.' && rest.head? = some '.' &&
        ((rest.drop 1).isEmpty || (rest.drop 1).head? = some '/') then
      if out.length > dotdot then
        cleanLoop rooted rest .skip
          (out.take (cleanBacktrack out dotdot (out.length - 1))) dotdot
      else if !rooted then
        let out1 := (if out.length > 0 then out ++ ['/'] else out) ++ ['.', '.']
        cleanLoop rooted rest .skip out1 out1.length
      else cleanLoop rooted rest .skip out dotdot
    else
      let out1 :=
        if (rooted && out.length != 1) || (!rooted && out.length != 0) then out ++ ['/']
        else out
      cleanLoop rooted rest .copy (out1 ++ [c]) dotdot

/-- Go `path.Clean`. -/
def Clean (path : Str) : Str :=
  match path with
  | [] => ['.']
  | c :: rest =>
    let rooted := c = '/'
    let out :=
      if rooted then cleanLoop true rest .start ['/'] 1
      else cleanLoop false (c :: rest) .start [] 0
    if out.length = 0 then ['.'] else out

/-- Go `path.Join`: the elements from the first non-empty one on, joined with
slashes and cleaned; the empty text when every element is empty. -/
def Join (elems : List Str) : Str :=
  match elems.dropWhile (fun e => e.isEmpty) with
  | [] => []
  | es => Clean (['/'].intercalate es)

/-- External functions whose `path.Join` is the one of the Go library; the
others are those of the examples. -/
def cleanPathFuncs : ExtFuncs where
  regexpCompile := exampleFuncs.regexpCompile
  pathJoin a b := Join [a, b]
  timeParse := exampleFuncs.timeParse
  agoParse := exampleFuncs.agoParse

/-! ## Environments that agree on the contexts that hold a node -/

/-- Two optional values are both absent, or both present and related. -/
def optAgree {α : Type} (r : α → α → Prop) : Option α → Option α → Prop
  | none, none => True
  | some a, some b => r a b
  | _, _ => False

/-- Two runs fail both, or end both, with related results. -/
def Run.agree {α : Type} (r : α → α → Prop) : Run α → Run α → Prop
  | .done a, .done b => r a b
  | .panic, .panic => True
  | _, _ => False

/-- Two documents answer alike on every context that holds a node; on the
empty context they may differ in any way. -/
def Dom.agree (D D' : Dom) : Prop :=
  ∀ sel : Selection, sel ≠ [] →
    (∀ s, D.find sel s = D'.find sel s) ∧
    (∀ s, D.matchesSel sel s = D'.matchesSel sel s) ∧
    D.text sel = D'.text sel ∧
    D.html sel = D'.html sel ∧
    ∀ name, D.attr sel name = D'.attr sel name

/-- Two terminals build alike on every context that holds a node. -/
def loader.agree (l l' : loader) : Prop :=
  ∀ sel : Selection, sel ≠ [] → ∀ s, l.load sel s = l'.load sel s

/-- Two plans with the same selector, accessor and pipeline, whose terminals
build alike on every context that holds a node. -/
def path.agree (p p' : path) : Prop :=
  p.selector = p'.selector ∧ p.acc = p'.acc ∧ p.parsers = p'.parsers ∧
    optAgree loader.agree p.loader p'.loader

/-- Two registered terminal functions are both nil, or answer alike on every
context that holds a node. -/
def loadFuncAgree (f f' : LoadFunc) : Prop :=
  optAgree (fun g g' => ∀ sel : Selection, sel ≠ [] → ∀ s a, g sel s a = g' sel s a) f f'

/-- Two type loaders accept the same types and build alike on every context
that holds a node. -/
def TypeLoader.agree (tl tl' : TypeLoader) : Prop :=
  (∀ t, tl.isType t = tl'.isType t) ∧
    ∀ sel : Selection, sel ≠ [] → ∀ s, tl.load sel s = tl'.load sel s

/-- Two name-indexed registries with the same transforms, whose terminals
answer alike on every context that holds a node. -/
def FuncRegistry.agree (R R' : FuncRegistry) : Prop :=
  (∀ name, R.parseFuncs name = R'.parseFuncs name) ∧
    ∀ name, optAgree loadFuncAgree (R.loadFuncs name) (R'.loadFuncs name)

/-- Two registries that differ at most in what their terminals and type
loaders do on the empty context. -/
def Registry.agree (R R' : Registry) : Prop :=
  R.toFuncRegistry.agree R'.toFuncRegistry ∧
    List.Forall₂ TypeLoader.agree R.typeLoaders R'.typeLoaders

/-- Two states of a hydration with the same slots and the same errors, and
plans that agree. -/
def outcomeAgree {α : Type} (h h' : α × List Err × Option path) : Prop :=
  h.1 = h'.1 ∧ h.2.1 = h'.2.1 ∧ optAgree path.agree h.2.2 h'.2.2

/-- Two results of `parseTag`: the same error, or plans that agree. -/
def compiledAgree : Except Err path → Except Err path → Prop
  | .ok p, .ok p' => path.agree p p'
  | .error e, .error e' => e = e'
  | _, _ => False

/-- The steps of `hydrateValue` on a slot that is not a pointer, up to the
switch on the kind (lines 57 to 90); `kindSwitch` is the switch, given the
narrowed context. -/
def beforeKindSwitch (L : Lib) (D : Dom) (R : Registry) (t : Ty) (canSet : Bool) (v : Val)
    (sel0 : Selection) (p : Option path) (kindSwitch : Selection → Run Hydrated) :
    Run Hydrated :=
  if !canSet then .done (v, [], p)
  else
    match narrow D sel0 p with
    | .error err => .done (v, [err], p)
    | .ok sel =>
      match planWithLoader p with
      | some pp => leafResult p (setValueFromSel L D t v sel pp)
      | none =>
        match findTypeLoader R.typeLoaders t with
        | some tl =>
          match p with
          | none => .panic
          | some pp =>
            let pp1 : path := { pp with loader := some (typeLoaderAsLoader tl) }
            leafResult (some pp1) (setValueFromSel L D t v sel pp1)
        | none => kindSwitch sel

/-- A document that answers as `D` on every context that holds a node, and
with the given text, and the given node found, on the empty context. -/
def Dom.withEmpty (D : Dom) (text : Str) (found : Node) : Dom where
  find sel s := if sel = [] then [found] else D.find sel s
  matchesSel sel s := if sel = [] then true else D.matchesSel sel s
  text sel := if sel = [] then text else D.text sel
  html sel := if sel = [] then (text, none) else D.html sel
  attr sel name := if sel = [] then some text else D.attr sel name

/-- The entry "html" of `typeLoaders` with the access to the first node
replaced by a check: on the empty context it returns an error. -/
def htmlTypeLoaderChecked : TypeLoader where
  isType := htmlTypeLoader.isType
  load sel _ :=
    match sel with
    | n :: _ => .ok (Dyn.node n)
    | [] => .err Err.nodeNotFound

/-- The built-in registries with the checked "html" type loader, over a
document that may answer otherwise on the empty context. -/
def checkedRegistry (X : Ext) (F : ExtFuncs) (D : Dom) : Registry where
  parseFuncs := builtinParseFuncs F
  loadFuncs := builtinLoadFuncs F
  typeLoaders :=
    [urlTypeLoader X, goqueryTypeLoader, htmlTypeLoaderChecked, ottoTypeLoader X D,
     cssTypeLoader X D]

/-- The struct type `html.Node` of the package `golang.org/x/net/html`; its
fields carry no tag. -/
def tyNode : Ty :=
  .struct ⟨"golang.org/x/net/html".toList, "Node".toList⟩
    [⟨"Data".toList, [], tyString⟩, ⟨"Namespace".toList, [], tyString⟩]

/-- A composite with a node field and a field that is a sequence of nodes,
both annotated "div", and a text field annotated "a | text". -/
def nodeFields : Ty :=
  .struct {}
    [⟨"First".toList, "sq:\"div\"".toList, .ptr {} tyNode⟩,
     ⟨"All".toList, "sq:\"div\"".toList, .slice {} (.ptr {} tyNode)⟩,
     ⟨"Link".toList, "sq:\"a | text\"".toList, tyString⟩]

/-! ## Further examples for the sequence cases and the selector step -/

/-- An array of two sequences of goquery selections:
`[2][]*goquery.Selection`. -/
def tySelectionPair : Ty := .array {} 2 (.slice {} (.ptr {} tySelection))

/-- A composite whose only field is such an array, annotated "div". -/
def pairStruct : Ty :=
  .struct {} [⟨"Pair".toList, "sq:\"div\"".toList, tySelectionPair⟩]

/-- A named type of kind Uint8: `type MyByte uint8` in the package `main`. -/
def tyMyByte : Ty := .scalar ⟨"main".toList, "MyByte".toList⟩ (.uint 8)

/-- A document with root node 0 and two `div` elements, nodes 1 and 2, with the
texts "x" and "y".  Node 1 has the class `a`; node 2 has not, and no node below
it has.  The set of both nodes satisfies the selector "div.a", as `Is` holds
of a set when one of its nodes matches. -/
def mixedDivs : DocTable where
  finds := [(([0], "div".toList), [1, 2]), (([0], "div.a".toList), [1])]
  matching :=
    [([1], "div".toList), ([2], "div".toList), ([1, 2], "div".toList),
     ([1], "div.a".toList), ([1, 2], "div.a".toList)]
  texts := [([1], "x".toList), ([2], "y".toList), ([1, 2], "xy".toList)]

/-- The plan compiled from the annotation "div.a | text". -/
def planDivA : path := { selector := "div.a".toList, acc := "text".toList }

/-- A composite with the field `Inner`, annotated "div", itself a composite
with the field `Items []string`, annotated "div.a | text". -/
def itemsStruct : Ty :=
  .struct {}
    [⟨"Inner".toList, "sq:\"div\"".toList,
      .struct {} [⟨"Items".toList, "sq:\"div.a | text\"".toList, .slice {} tyString⟩]⟩]

/-- What of a plan hydration never writes: the selector, the accessor and
the pipeline. -/
def planText (p : Option path) : Option (Str × Str × List parser) :=
  p.map (fun x => (x.selector, x.acc, x.parsers))

/-! ## Properties -/

@[simp] theorem Run.map_done {α β : Type} (f : α → β) (a : α) :
    (Run.done a).map f = Run.done (f a) := rfl

@[simp] theorem Run.map_panic {α β : Type} (f : α → β) :
    (Run.panic : Run α).map f = Run.panic := rfl

@[simp] theorem Run.bind_done {α β : Type} (f : α → Run β) (a : α) :
    (Run.done a).bind f = f a := rfl

@[simp] theorem Run.bind_panic {α β : Type} (f : α → Run β) :
    (Run.panic : Run α).bind f = Run.panic := rfl

theorem Run.map_map {α β γ : Type} (f : α → β) (g : β → γ) (r : Run α) :
    (r.map f).map g = r.map (fun a => g (f a)) := by
  cases r <;> rfl

/-- The struct loop is the field-by-field contribution, the errors appended to
those collected before. -/
theorem hydrateFields_eq_all (L : Lib) (D : Dom) (R : Registry) (sel : Selection) :
    ∀ (fs : List (Field Ty)) (vs : List Val) (errs : List Err), vs.length = fs.length →
      hydrateFields L D R fs vs sel errs =
        (Run.all (List.zipWith (fieldContribution L D R sel) fs vs)).map
          (fun rs => (rs.map Prod.fst, errs ++ (rs.map Prod.snd).flatten))
  | [], vs, errs, h => by
    simp [hydrateFields, Run.all]
  | ft :: fs, [], errs, h => by simp at h
  | ft :: fs, v :: vs, errs, h => by
    have hlen : vs.length = fs.length := by simpa using h
    simp only [hydrateFields, List.zipWith_cons_cons, Run.all, fieldContribution,
      List.headD_cons, List.tail_cons]
    cases hp : parseTag R.toFuncRegistry ft.tag with
    | error err =>
      simp only
      rw [hydrateFields_eq_all L D R sel fs vs _ hlen]
      by_cases he : err = ErrTagNotFound
      · simp [he, Run.map_map]
      · simp [he, Run.map_map]
    | ok p =>
      simp only
      by_cases hx : exported L ft.name
      · simp only [hx, Bool.not_true, Bool.false_eq_true, if_false, if_true]
        cases hh : hydrateValue L D R ft.type true v sel (some p) with
        | panic => simp
        | done r =>
          simp only [Run.map_done, Run.bind_done]
          rw [hydrateFields_eq_all L D R sel fs vs _ hlen]
          simp [Run.map_map]
      · simp only [hx, Bool.not_false, if_true, Bool.false_eq_true, if_false, Run.bind_done]
        rw [hydrateFields_eq_all L D R sel fs vs _ hlen]
        simp [Run.map_map]


/-- C1: a composite value that reaches the struct case (no terminal in its
plan, no type loader for its type, selector narrowed to `sel`) is hydrated field
by field in declaration order against `sel`; the returned errors are the
concatenation of the contributions of the fields, and a failing field does not
stop the fields after it. -/
theorem hydrateValue_struct_errors (L : Lib) (D : Dom) (R : Registry) (id : TypeId)
    (fs : List (Field Ty)) (vs : List Val) (sel0 sel : Selection) (p : Option path)
    (hlen : vs.length = fs.length)
    (hnarrow : narrow D sel0 p = .ok sel)
    (hload : planWithLoader p = none)
    (htl : findTypeLoader R.typeLoaders (.struct id fs) = none) :
    hydrateValue L D R (.struct id fs) true (.struct vs) sel0 p =
      (Run.all (List.zipWith (fieldContribution L D R sel) fs vs)).map
        (fun rs => (Val.struct (rs.map Prod.fst), (rs.map Prod.snd).flatten, p)) := by
  simp only [hydrateValue, Bool.not_true, Bool.false_eq_true, if_false, hnarrow, hload, htl,
    Val.fields]
  rw [hydrateFields_eq_all L D R sel fs vs [] hlen]
  simp [Run.map_map]

/-- C1 at the six-field composite on the two-div document: four errors, in
field order. -/
theorem hydrateValue_struct_errors_witness :
    hydrateValue exampleLib twoDivs.dom (exampleRegistry twoDivs.dom) (.struct {} sixFields) true
        (.struct (zeroFields sixFields)) [0] none =
      (Run.all (List.zipWith
        (fieldContribution exampleLib twoDivs.dom (exampleRegistry twoDivs.dom) [0])
        sixFields (zeroFields sixFields))).map
        (fun rs => (Val.struct (rs.map Prod.fst), (rs.map Prod.snd).flatten, none)) ∧
    (hydrateValue exampleLib twoDivs.dom (exampleRegistry twoDivs.dom) (.struct {} sixFields) true
        (.struct (zeroFields sixFields)) [0] none).map (fun h => h.2.1) =
      .done [Err.privateField "hidden".toList,
        Err.coerce "div".toList (Err.num "ParseInt".toList "xx".toList .invalidSyntax),
        Err.didNotMatch "blink".toList,
        Err.badAccessor "fuzzy".toList] :=
  ⟨hydrateValue_struct_errors _ _ _ _ _ _ _ _ _ rfl rfl rfl rfl, rfl⟩


/-- A loop whose callback does nothing from index `len` on does nothing once
the index has reached `len`. -/
theorem eachIndexed_past_end {σ : Type} (body : Nat → Node → σ → Run σ) (len : Nat)
    (hbody : ∀ i n s, len ≤ i → body i n s = .done s) :
    ∀ (ns : List Node) (i : Nat) (s : σ), len ≤ i → eachIndexed body i ns s = .done s
  | [], i, s, _ => rfl
  | n :: ns, i, s, h => by
    simp only [eachIndexed, hbody i n s h]
    exact eachIndexed_past_end body len hbody ns (i + 1) s (Nat.le_succ_of_le h)

/-- The loop of the array case visits slot `i` with node `i`: it is
`hydratePairs` on the slots and nodes that are left. -/
theorem eachIndexed_array (L : Lib) (D : Dom) (R : Registry) (e : Ty) (len : Nat) :
    ∀ (ns : List Node) (pre rest : List Val) (errs : List Err) (p : Option path),
      (pre ++ rest).length = len →
      eachIndexed (fun i n (st : List Val × List Err × Option path) =>
          if i < len then
            match hydrateValue L D R e true (st.1.getD i (zero e)) [n] st.2.2 with
            | .panic => .panic
            | .done h => .done (st.1.set i h.1, st.2.1 ++ h.2.1, h.2.2)
          else .done st) pre.length ns (pre ++ rest, errs, p) =
        (hydratePairs L D R e rest ns p).map
          (fun r => (pre ++ r.1, errs ++ r.2.1, r.2.2))
  | [], pre, rest, errs, p, _ => by
    cases rest <;> simp [eachIndexed, hydratePairs]
  | n :: ns, pre, [], errs, p, h => by
    have hle : len ≤ pre.length := by simp at h; omega
    rw [eachIndexed_past_end _ len (fun i n s hi => by simp [Nat.not_lt.mpr hi]) _ _ _ hle]
    simp [hydratePairs]
  | n :: ns, pre, v :: rest, errs, p, h => by
    have hlt : pre.length < len := by simp at h; omega
    simp only [eachIndexed, hlt, if_true, hydratePairs]
    have hget : (pre ++ v :: rest).getD pre.length (zero e) = v := by
      rw [List.getD_eq_getElem?_getD, List.getElem?_append_right (Nat.le_refl _)]
      simp
    rw [hget]
    cases hh : hydrateValue L D R e true v [n] p with
    | panic => simp
    | done r =>
      simp only [Run.bind_done]
      have hset : (pre ++ v :: rest).set pre.length r.1 = (pre ++ [r.1]) ++ rest := by
        simp [List.set_append]
      rw [hset]
      have hl2 : ((pre ++ [r.1]) ++ rest).length = len := by simpa using h
      have := eachIndexed_array L D R e len ns (pre ++ [r.1]) rest (errs ++ r.2.1) r.2.2 hl2
      simp only [List.length_append, List.length_singleton] at this
      rw [this]
      simp [Run.map_map]


/-- Nodes beyond the last slot are not looked at. -/
theorem hydratePairs_take (L : Lib) (D : Dom) (R : Registry) (e : Ty) :
    ∀ (vs : List Val) (ns : List Node) (p : Option path),
      hydratePairs L D R e vs ns p = hydratePairs L D R e vs (ns.take vs.length) p
  | [], [], p => rfl
  | [], n :: ns, p => by simp [hydratePairs]
  | v :: vs, [], p => rfl
  | v :: vs, n :: ns, p => by
    simp only [hydratePairs, List.length_cons, List.take_succ_cons]
    congr 1
    funext h
    rw [hydratePairs_take L D R e vs ns h.2.2]

/-- When the pairwise hydration completes there are as many slots as before,
and the slots beyond the last node are untouched. -/
theorem hydratePairs_done (L : Lib) (D : Dom) (R : Registry) (e : Ty) :
    ∀ (vs : List Val) (ns : List Node) (p : Option path)
      (out : List Val × List Err × Option path),
      hydratePairs L D R e vs ns p = .done out →
      out.1.length = vs.length ∧ ∀ i, ns.length ≤ i → out.1[i]? = vs[i]?
  | [], [], p, out, h => by
    simp [hydratePairs] at h
    subst h
    simp
  | [], n :: ns, p, out, h => by
    simp [hydratePairs] at h
    subst h
    simp
  | v :: vs, [], p, out, h => by
    simp [hydratePairs] at h
    subst h
    simp
  | v :: vs, n :: ns, p, out, h => by
    simp only [hydratePairs] at h
    cases hh : hydrateValue L D R e true v [n] p with
    | panic => simp [hh] at h
    | done r =>
      simp only [hh, Run.bind_done] at h
      cases hr : hydratePairs L D R e vs ns r.2.2 with
      | panic => simp [hr] at h
      | done out1 =>
        simp only [hr, Run.map_done, Run.done.injEq] at h
        subst h
        have ih := hydratePairs_done L D R e vs ns r.2.2 out1 hr
        refine ⟨by simp [ih.1], ?_⟩
        intro i hi
        cases i with
        | zero => simp at hi
        | succ j =>
          simp only [List.getElem?_cons_succ]
          exact ih.2 j (by simpa using hi)

/-- The array case as the code runs it: a fixed-length non-byte sequence that
reaches the array case is visited slot by slot, slot `i` with the `i`-th node
of the narrowed selection `sel` and with the plan as the slot before left it;
the nodes with index at least the declared length are not consumed, and when
the run completes the slots with index at least the number of nodes are as
they were. -/
theorem hydrateValue_array_slots (L : Lib) (D : Dom) (R : Registry) (id : TypeId)
    (len : Nat) (e : Ty) (elems : List Val) (sel0 sel : Selection) (p : Option path)
    (hlen : elems.length = len)
    (hbyte : e.isUint8 = false)
    (hnarrow : narrow D sel0 p = .ok sel)
    (hload : planWithLoader p = none)
    (htl : findTypeLoader R.typeLoaders (.array id len e) = none) :
    hydrateValue L D R (.array id len e) true (.array elems) sel0 p =
        (hydratePairs L D R e elems sel p).map (fun r => (Val.array r.1, r.2)) ∧
      hydratePairs L D R e elems sel p = hydratePairs L D R e elems (sel.take len) p ∧
      ∀ out, hydratePairs L D R e elems sel p = .done out →
        out.1.length = len ∧ ∀ i, sel.length ≤ i → out.1[i]? = elems[i]? := by
  refine ⟨?_, ?_, ?_⟩
  · simp only [hydrateValue, Bool.not_true, Bool.false_eq_true, if_false, hnarrow, hload, htl,
      hbyte, Val.elems]
    have h := eachIndexed_array L D R e len sel [] elems [] p (by simpa using hlen)
    simp only [List.length_nil, List.nil_append] at h
    rw [h]
    simp [Run.map_map]
  · have h := hydratePairs_take L D R e elems sel p
    rw [hlen] at h
    exact h
  · intro out hout
    have h := hydratePairs_done L D R e elems sel p out hout
    exact ⟨by rw [h.1, hlen], h.2⟩

/-- The array case on the three-paragraph document: an array of two integers
takes the first two nodes and ignores the third; an array of four keeps its
last slot. -/
theorem hydrateValue_array_slots_example :
    (hydrateValue exampleLib threePs.dom (exampleRegistry threePs.dom) (.array {} 2 tyInt) true
        (.array [.int 0, .int 0]) [0] (some planPText) =
        (hydratePairs exampleLib threePs.dom (exampleRegistry threePs.dom) tyInt
          [.int 0, .int 0] [1, 2, 3] (some planPText)).map (fun r => (Val.array r.1, r.2)) ∧
      hydratePairs exampleLib threePs.dom (exampleRegistry threePs.dom) tyInt
          [.int 0, .int 0] [1, 2, 3] (some planPText) =
        hydratePairs exampleLib threePs.dom (exampleRegistry threePs.dom) tyInt
          [.int 0, .int 0] ([1, 2, 3].take 2) (some planPText) ∧
      ∀ out, hydratePairs exampleLib threePs.dom (exampleRegistry threePs.dom) tyInt
          [.int 0, .int 0] [1, 2, 3] (some planPText) = .done out →
        out.1.length = 2 ∧ ∀ i, [1, 2, 3].length ≤ i → out.1[i]? = [Val.int 0, Val.int 0][i]?) ∧
    (hydrateValue exampleLib threePs.dom (exampleRegistry threePs.dom) (.array {} 2 tyInt) true
        (.array [.int 0, .int 0]) [0] (some planPText)).map (fun h => (h.1, h.2.1)) =
      .done (.array [.int 10, .int 20], []) ∧
    (hydrateValue exampleLib threePs.dom (exampleRegistry threePs.dom) (.array {} 4 tyInt) true
        (.array [.int 0, .int 0, .int 0, .int 7]) [0] (some planPText)).map
        (fun h => (h.1, h.2.1)) =
      .done (.array [.int 10, .int 20, .int 30, .int 7], []) :=
  ⟨hydrateValue_array_slots exampleLib threePs.dom (exampleRegistry threePs.dom) {} 2 tyInt
      [.int 0, .int 0] [0] [1, 2, 3] (some planPText) rfl rfl rfl rfl rfl, rfl, rfl⟩


/-- The loop of the slice case visits slot `i` with node `i`, for as many slots
as there are nodes. -/
theorem eachIndexed_slice (L : Lib) (D : Dom) (R : Registry) (e : Ty) :
    ∀ (ns : List Node) (pre rest : List Val) (errs : List Err) (p : Option path),
      rest.length = ns.length →
      eachIndexed (fun i n (st : List Val × List Err × Option path) =>
          match hydrateValue L D R e true (st.1.getD i (zero e)) [n] st.2.2 with
          | .panic => .panic
          | .done h => .done (st.1.set i h.1, st.2.1 ++ h.2.1, h.2.2))
          pre.length ns (pre ++ rest, errs, p) =
        (hydratePairs L D R e rest ns p).map
          (fun r => (pre ++ r.1, errs ++ r.2.1, r.2.2))
  | [], pre, rest, errs, p, h => by
    cases rest <;> simp [eachIndexed, hydratePairs]
  | n :: ns, pre, [], errs, p, h => by simp at h
  | n :: ns, pre, v :: rest, errs, p, h => by
    simp only [eachIndexed, hydratePairs]
    have hget : (pre ++ v :: rest).getD pre.length (zero e) = v := by
      rw [List.getD_eq_getElem?_getD, List.getElem?_append_right (Nat.le_refl _)]
      simp
    rw [hget]
    cases hh : hydrateValue L D R e true v [n] p with
    | panic => simp
    | done r =>
      simp only [Run.bind_done]
      have hset : (pre ++ v :: rest).set pre.length r.1 = (pre ++ [r.1]) ++ rest := by
        simp [List.set_append]
      rw [hset]
      have := eachIndexed_slice L D R e ns (pre ++ [r.1]) rest (errs ++ r.2.1) r.2.2
        (by simpa using h)
      simp only [List.length_append, List.length_singleton] at this
      rw [this]
      simp [Run.map_map]

/-- The slice case of `hydrateValue`, once reached: as many fresh slots as the
narrowed selection has nodes, slot `i` hydrated from node `i`, the plan carried
from one slot to the next. -/
theorem hydrateValue_slice_eq (L : Lib) (D : Dom) (R : Registry) (id : TypeId) (e : Ty)
    (v : Val) (sel0 sel : Selection) (p : Option path)
    (hbyte : e.isUint8 = false)
    (hnarrow : narrow D sel0 p = .ok sel)
    (hload : planWithLoader p = none)
    (htl : findTypeLoader R.typeLoaders (.slice id e) = none) :
    hydrateValue L D R (.slice id e) true v sel0 p =
      (hydratePairs L D R e (List.replicate sel.length (zero e)) sel p).map
        (fun r => (Val.slice r.1, r.2)) := by
  simp only [hydrateValue, Bool.not_true, Bool.false_eq_true, if_false, hnarrow, hload, htl,
    hbyte]
  have h := eachIndexed_slice L D R e sel [] (List.replicate sel.length (zero e)) [] p
    (by simp)
  simp only [List.length_nil, List.nil_append] at h
  rw [h]
  simp [Run.map_map]

/-- C2: the slice case does not hydrate every element with the compiled plan.
For a field of type `[][]*goquery.Selection` annotated "div", on a document
with two `div` elements, each of the two elements hydrated on its own with the
compiled plan becomes a one-element sequence without error; but the loop of the
slice case fails at run time on the second element, because hydrating the
first one has stored the goquery type loader in the plan that the elements
share, and so does `Scrape` on a composite with that field. -/
theorem hydrateValue_nested_slice_fails :
    parseTag (exampleRegistry twoDivs.dom).toFuncRegistry "sq:\"div\"".toList = .ok planDiv ∧
    hydrateValue exampleLib twoDivs.dom (exampleRegistry twoDivs.dom) tySelectionRows true
        (zero tySelectionRows) [0] (some planDiv) = .panic ∧
    (hydrateValue exampleLib twoDivs.dom (exampleRegistry twoDivs.dom)
        (.slice {} (.ptr {} tySelection)) true (.slice []) [1] (some planDiv)).map
        (fun h => (h.1, h.2.1)) =
      .done (.slice [.ptr (some (.loaded (.selection [1])))], []) ∧
    (hydrateValue exampleLib twoDivs.dom (exampleRegistry twoDivs.dom)
        (.slice {} (.ptr {} tySelection)) true (.slice []) [2] (some planDiv)).map
        (fun h => (h.1, h.2.1)) =
      .done (.slice [.ptr (some (.loaded (.selection [2])))], []) ∧
    Scrape exampleLib (exampleRegistry twoDivs.dom)
        (some (.ptr {} rowsStruct, .ptr (some (zero rowsStruct)))) twoDivsReader = .panic :=
  ⟨rfl, rfl, rfl, rfl, rfl⟩

/-- C3 (failing input): the array case does not hydrate slot `i` from node
`i` with the compiled plan.  For a field of type `[2][]*goquery.Selection`
annotated "div", on a document with two `div` elements, each of the two slots
hydrated on its own from its node with the compiled plan becomes a one-element
sequence without error; but the loop of the array case fails at run time on
slot 1, because hydrating slot 0 has stored the goquery type loader in the
plan that the slots share, and so does `Scrape` on a composite with that
field. -/
theorem hydrateValue_nested_array_fails :
    parseTag (exampleRegistry twoDivs.dom).toFuncRegistry "sq:\"div\"".toList = .ok planDiv ∧
    narrow twoDivs.dom [0] (some planDiv) = .ok [1, 2] ∧
    hydrateValue exampleLib twoDivs.dom (exampleRegistry twoDivs.dom) tySelectionPair true
        (zero tySelectionPair) [0] (some planDiv) = .panic ∧
    (hydrateValue exampleLib twoDivs.dom (exampleRegistry twoDivs.dom)
        (.slice {} (.ptr {} tySelection)) true (.slice []) [1] (some planDiv)).map
        (fun h => (h.1, h.2.1)) =
      .done (.slice [.ptr (some (.loaded (.selection [1])))], []) ∧
    (hydrateValue exampleLib twoDivs.dom (exampleRegistry twoDivs.dom)
        (.slice {} (.ptr {} tySelection)) true (.slice []) [2] (some planDiv)).map
        (fun h => (h.1, h.2.1)) =
      .done (.slice [.ptr (some (.loaded (.selection [2])))], []) ∧
    Scrape exampleLib (exampleRegistry twoDivs.dom)
        (some (.ptr {} pairStruct, .ptr (some (zero pairStruct)))) twoDivsReader = .panic :=
  ⟨rfl, rfl, rfl, rfl, rfl, rfl⟩

/-- C4: the `optional` flag is not honoured.  The annotation
"(optional) blink" compiles to a plan whose selector is the whole text, and a
field that carries it gets the did-not-match error just as the field annotated
"blink" does. -/
theorem hydrateValue_optional_not_suppressed :
    parseTag (exampleRegistry twoDivs.dom).toFuncRegistry "sq:\"(optional) blink\"".toList =
      .ok { selector := "(optional) blink".toList } ∧
    (hydrateValue exampleLib twoDivs.dom (exampleRegistry twoDivs.dom)
        (.struct {} optionalFields) true (.struct (zeroFields optionalFields)) [0] none).map
        (fun h => h.2.1) =
      .done [Err.didNotMatch "(optional) blink".toList, Err.didNotMatch "blink".toList] :=
  ⟨rfl, rfl⟩

/-- C5: a parenthesised list of flags before the selector is not stripped; it
stays in the selector of the plan, which has no field for flags. -/
theorem parseTag_keeps_flag_text :
    parseTag (exampleRegistry twoDivs.dom).toFuncRegistry "sq:\"(opt1) p\"".toList =
      .ok { selector := "(opt1) p".toList } ∧
    parseTag (exampleRegistry twoDivs.dom).toFuncRegistry "sq:\"() p\"".toList =
      .ok { selector := "() p".toList } ∧
    parseTag (exampleRegistry twoDivs.dom).toFuncRegistry
        "sq:\"(    opt1 ,opt2, opt3    )    p\"".toList =
      .ok { selector := "(    opt1 ,opt2, opt3    )    p".toList } :=
  ⟨rfl, rfl, rfl⟩

/-- C6: for a target that is not a pointer to a struct, `Scrape` returns the
single error `ErrNonStructPtrValue` and leaves the target as it is, whatever
the reader: the document is not read. -/
theorem Scrape_rejects_non_struct_pointer (L : Lib) (R : Registry)
    (structPtr : Option (Ty × Val)) (r : Unit → Except Err Document)
    (h : ∀ v id sid fs, structPtr ≠ some (Ty.ptr id (Ty.struct sid fs), v)) :
    Scrape L R structPtr r = .done (structPtr, [ErrNonStructPtrValue]) := by
  unfold Scrape
  cases structPtr with
  | none => rfl
  | some tv =>
    obtain ⟨t, v⟩ := tv
    have hs : isStructPtr t = false := by
      cases t with
      | ptr id e =>
        cases e with
        | struct sid fs => exact absurd rfl (h v id sid fs)
        | _ => rfl
      | _ => rfl
    simp [hs]

/-- C6 at a nil interface, a struct passed by value and a pointer to a
string. -/
theorem Scrape_rejects_non_struct_pointer_witness :
    Scrape exampleLib (exampleRegistry twoDivs.dom) none twoDivsReader =
      .done (none, [ErrNonStructPtrValue]) ∧
    Scrape exampleLib (exampleRegistry twoDivs.dom)
        (some (.struct {} sixFields, .struct (zeroFields sixFields))) twoDivsReader =
      .done (some (.struct {} sixFields, .struct (zeroFields sixFields)),
        [ErrNonStructPtrValue]) ∧
    Scrape exampleLib (exampleRegistry twoDivs.dom)
        (some (.ptr {} tyString, .ptr none)) twoDivsReader =
      .done (some (.ptr {} tyString, .ptr none), [ErrNonStructPtrValue]) :=
  ⟨Scrape_rejects_non_struct_pointer _ _ none _ (fun _ _ _ _ h => by cases h),
   Scrape_rejects_non_struct_pointer _ _ _ _ (fun _ _ _ _ h => by cases h),
   Scrape_rejects_non_struct_pointer _ _ _ _ (fun _ _ _ _ h => by simp [tyString] at h)⟩


/-- Running two lists of computations one after the other. -/
theorem Run.all_append {α : Type} (xs ys : List (Run α)) :
    Run.all (xs ++ ys) = (Run.all xs).bind (fun a => (Run.all ys).map (fun b => a ++ b)) := by
  induction xs with
  | nil =>
    simp only [List.nil_append, Run.all, Run.bind_done]
    cases Run.all ys <;> simp
  | cons x xs ih =>
    rw [List.cons_append, Run.all, ih]
    cases x with
    | panic => simp [Run.all]
    | done a =>
      simp only [Run.bind_done, Run.all]
      cases Run.all xs with
      | panic => simp
      | done as =>
        simp only [Run.bind_done, Run.map_done]
        cases Run.all ys <;> simp

/-- The struct case of `hydrateValue`, once reached, in terms of the
contributions of the fields. -/
theorem hydrateValue_struct_eq (L : Lib) (D : Dom) (R : Registry) (id : TypeId)
    (fs : List (Field Ty)) (vs : List Val) (sel0 sel : Selection) (p : Option path)
    (hnarrow : narrow D sel0 p = .ok sel)
    (hload : planWithLoader p = none)
    (htl : findTypeLoader R.typeLoaders (.struct id fs) = none) :
    hydrateValue L D R (.struct id fs) true (.struct vs) sel0 p =
      (hydrateFields L D R fs vs sel []).map (fun r => (Val.struct r.1, r.2, p)) := by
  simp only [hydrateValue, Bool.not_true, Bool.false_eq_true, if_false, hnarrow, hload, htl,
    Val.fields]

/-- C7 (counterexample): an unexported field whose annotation does not
compile yields the compile error, not the visibility error. -/
theorem private_field_compile_error_first :
    (hydrateValue exampleLib twoDivs.dom (exampleRegistry twoDivs.dom)
        (.struct {} hiddenFuzzy) true (.struct (zeroFields hiddenFuzzy)) [0] none).map
        (fun h => h.2.1) = .done [Err.badAccessor "fuzzy".toList] ∧
    [Err.badAccessor "fuzzy".toList] ≠ [Err.privateField "hidden".toList] :=
  ⟨rfl, by decide⟩

/-- C7 (amended): an unexported field whose annotation compiles contributes
its slot unchanged and exactly the visibility error; the composite with the
field is hydrated as the fields before it, then that contribution, then the
fields after it, and the composite without the field as the fields before it
followed by the fields after it, with the same values and errors. -/
theorem private_field_visibility (L : Lib) (D : Dom) (R : Registry) (id id1 : TypeId)
    (pre post : List (Field Ty)) (vpre vpost : List Val) (ft : Field Ty) (fv : Val)
    (sel0 sel : Selection) (p0 : Option path) (p : path)
    (hpre : vpre.length = pre.length) (hpost : vpost.length = post.length)
    (hp : parseTag R.toFuncRegistry ft.tag = .ok p)
    (hx : exported L ft.name = false)
    (hnarrow : narrow D sel0 p0 = .ok sel)
    (hload : planWithLoader p0 = none)
    (htl : findTypeLoader R.typeLoaders (.struct id (pre ++ ft :: post)) = none)
    (htl1 : findTypeLoader R.typeLoaders (.struct id1 (pre ++ post)) = none) :
    fieldContribution L D R sel ft fv = .done (fv, [Err.privateField ft.name]) ∧
    hydrateValue L D R (.struct id (pre ++ ft :: post)) true
        (.struct (vpre ++ fv :: vpost)) sel0 p0 =
      (Run.all (List.zipWith (fieldContribution L D R sel) pre vpre)).bind (fun a =>
        (Run.all (List.zipWith (fieldContribution L D R sel) post vpost)).map (fun b =>
          (Val.struct (a.map Prod.fst ++ fv :: b.map Prod.fst),
            (a.map Prod.snd).flatten ++ Err.privateField ft.name :: (b.map Prod.snd).flatten,
            p0))) ∧
    hydrateValue L D R (.struct id1 (pre ++ post)) true (.struct (vpre ++ vpost)) sel0 p0 =
      (Run.all (List.zipWith (fieldContribution L D R sel) pre vpre)).bind (fun a =>
        (Run.all (List.zipWith (fieldContribution L D R sel) post vpost)).map (fun b =>
          (Val.struct (a.map Prod.fst ++ b.map Prod.fst),
            (a.map Prod.snd).flatten ++ (b.map Prod.snd).flatten, p0))) := by
  have hc : fieldContribution L D R sel ft fv = .done (fv, [Err.privateField ft.name]) := by
    simp [fieldContribution, hp, hx]
  refine ⟨hc, ?_, ?_⟩
  · rw [hydrateValue_struct_eq L D R id _ _ sel0 sel p0 hnarrow hload htl,
      hydrateFields_eq_all L D R sel _ _ [] (by simp [hpre, hpost]),
      List.zipWith_append _ _ _ _ _ hpre.symm, List.zipWith_cons_cons, Run.all_append,
      Run.all, hc]
    cases Run.all (List.zipWith (fieldContribution L D R sel) pre vpre) with
    | panic => simp
    | done a =>
      cases Run.all (List.zipWith (fieldContribution L D R sel) post vpost) with
      | panic => simp
      | done b => simp
  · rw [hydrateValue_struct_eq L D R id1 _ _ sel0 sel p0 hnarrow hload htl1,
      hydrateFields_eq_all L D R sel _ _ [] (by simp [hpre, hpost]),
      List.zipWith_append _ _ _ _ _ hpre.symm, Run.all_append]
    cases Run.all (List.zipWith (fieldContribution L D R sel) pre vpre) with
    | panic => simp
    | done a =>
      cases Run.all (List.zipWith (fieldContribution L D R sel) post vpost) with
      | panic => simp
      | done b => simp


/-- C7 (amended) on the six-field composite, whose second field is unexported
and annotated "a". -/
theorem private_field_visibility_witness :
    fieldContribution exampleLib twoDivs.dom (exampleRegistry twoDivs.dom) [0]
        ⟨"hidden".toList, "sq:\"a\"".toList, tyString⟩ (.string []) =
      .done (.string [], [Err.privateField "hidden".toList]) ∧
    (hydrateValue exampleLib twoDivs.dom (exampleRegistry twoDivs.dom)
        (.struct {} sixFields) true (.struct (zeroFields sixFields)) [0] none).map
        (fun h => (h.1, h.2.1)) =
      .done (.struct [.string "7".toList, .string [], .int 0, .string [], .string [],
          .string []],
        [Err.privateField "hidden".toList,
         Err.coerce "div".toList (Err.num "ParseInt".toList "xx".toList .invalidSyntax),
         Err.didNotMatch "blink".toList, Err.badAccessor "fuzzy".toList]) ∧
    (hydrateValue exampleLib twoDivs.dom (exampleRegistry twoDivs.dom)
        (.struct {} (sixFields.take 1 ++ sixFields.drop 2)) true
        (.struct (zeroFields (sixFields.take 1) ++ zeroFields (sixFields.drop 2))) [0] none).map
        (fun h => (h.1, h.2.1)) =
      .done (.struct [.string "7".toList, .int 0, .string [], .string [], .string []],
        [Err.coerce "div".toList (Err.num "ParseInt".toList "xx".toList .invalidSyntax),
         Err.didNotMatch "blink".toList, Err.badAccessor "fuzzy".toList]) := by
  have h := private_field_visibility exampleLib twoDivs.dom (exampleRegistry twoDivs.dom) {} {}
    (sixFields.take 1) (sixFields.drop 2) (zeroFields (sixFields.take 1))
    (zeroFields (sixFields.drop 2)) ⟨"hidden".toList, "sq:\"a\"".toList, tyString⟩ (.string [])
    [0] [0] none { selector := "a".toList } rfl rfl rfl rfl rfl rfl rfl rfl
  refine ⟨h.1, ?_, ?_⟩
  · exact (congrArg (Run.map (fun h => (h.1, h.2.1))) h.2.1).trans rfl
  · exact (congrArg (Run.map (fun h => (h.1, h.2.1))) h.2.2).trans rfl

/-- Hydrating through a pointer is hydrating its target, allocated when nil. -/
theorem hydrateValue_ptr (L : Lib) (D : Dom) (R : Registry) (id : TypeId) (e : Ty) (v : Val)
    (sel : Selection) (p : Option path) :
    hydrateValue L D R (.ptr id e) true v sel p =
      underPointer (hydrateValue L D R e true (pointee e v) sel p) := by
  cases v with
  | ptr t => cases t <;> simp [hydrateValue, pointee]
  | _ => simp [hydrateValue, pointee]

/-- Allocation by `resolvePointer` does not change the value behind the
pointers. -/
theorem targetOf_resolvePointer : ∀ (t : Ty) (v : Val),
    targetOf t (resolvePointer t v) = targetOf t v
  | .ptr _ e, v => by
    cases v with
    | ptr t =>
      cases t with
      | none => simp [resolvePointer, targetOf, targetOf_resolvePointer e]
      | some w => simp [resolvePointer, targetOf, targetOf_resolvePointer e]
    | _ => simp [resolvePointer, targetOf, targetOf_resolvePointer e]
  | .scalar _ _, v => by simp [resolvePointer]
  | .array _ _ _, v => by simp [resolvePointer]
  | .slice _ _, v => by simp [resolvePointer]
  | .struct _ _, v => by simp [resolvePointer]
  | .unsupported _ _, v => by simp [resolvePointer]


/-- A failed accessor makes `setValueFromSel` return its error with the slot
as it was. -/
theorem setValueFromSel_extract_error (L : Lib) (D : Dom) (t : Ty) (v : Val) (sel : Selection)
    (p : path) (s : Str) (err : Err) (h : extractString D sel p.acc = (s, some err)) :
    setValueFromSel L D t v sel p = .done (v, some err) := by
  simp [setValueFromSel, h]

/-- C8 (counterexample): a nil pointer field whose selector matches nothing is
allocated, and a sequence of integers whose accessor fails on each of its two
nodes becomes a sequence of two zeros. -/
theorem nil_pointer_allocated_on_miss :
    (hydrateValue exampleLib twoDivs.dom (exampleRegistry twoDivs.dom) (.ptr {} tyString) true
        (.ptr none) [0] (some planBlink)).map (fun h => (h.1, h.2.1)) =
      .done (.ptr (some (.string [])), [Err.didNotMatch "blink".toList]) ∧
    Val.ptr (some (.string [])) ≠ Val.ptr none ∧
    (hydrateValue exampleLib twoDivs.dom (exampleRegistry twoDivs.dom) (.slice {} tyInt) true
        (.slice []) [0] (some planDivMissing)).map (fun h => (h.1, h.2.1)) =
      .done (.slice [.int 0, .int 0],
        [Err.attributeNotFound "attr(missing)".toList,
         Err.attributeNotFound "attr(missing)".toList]) ∧
    Val.slice [.int 0, .int 0] ≠ Val.slice [] :=
  ⟨rfl, (by intro h; cases h), rfl, (by intro h; cases h)⟩

/-- C8 (amended): when the selector of the plan matches no node, or when the
slot pulls text through the accessor (a scalar, a constructor-built value or a
byte sequence) and the extraction fails, hydration returns that one error and
the slot is as `resolvePointer` left it: the value behind the pointers is the
value from before the call, a slot that is not a pointer is unchanged, and the
nil pointers on the way have been allocated. -/
theorem hydrateValue_failed_keeps_target (L : Lib) (D : Dom) (R : Registry) (sel0 : Selection)
    (p : path) (err : Err) : ∀ (t : Ty) (v : Val),
    (narrow D sel0 (some p) = .error err ∨
      ∃ sel s, narrow D sel0 (some p) = .ok sel ∧ usesAccessor R p t.base = true ∧
        extractString D sel p.acc = (s, some err)) →
    (hydrateValue L D R t true v sel0 (some p)).map (fun h => (h.1, h.2.1)) =
        .done (resolvePointer t v, [err]) ∧
      targetOf t (resolvePointer t v) = targetOf t v ∧
      ((∀ id e, t ≠ .ptr id e) → resolvePointer t v = v)
  | .ptr id e, v, h => by
    have ih := hydrateValue_failed_keeps_target L D R sel0 p err e (pointee e v)
      (by simpa [Ty.base] using h)
    refine ⟨?_, targetOf_resolvePointer _ _, fun hne => absurd rfl (hne id e)⟩
    rw [hydrateValue_ptr]
    have h1 := ih.1
    have hr : resolvePointer (.ptr id e) v = .ptr (some (resolvePointer e (pointee e v))) := by
      cases v with
      | ptr t => cases t <;> simp [resolvePointer, pointee]
      | _ => simp [resolvePointer, pointee]
    rw [hr]
    cases hh : hydrateValue L D R e true (pointee e v) sel0 (some p) with
    | panic => simp [hh] at h1
    | done r =>
      simp only [hh, Run.map_done, Run.done.injEq, Prod.mk.injEq] at h1
      simp [underPointer, h1.1, h1.2]
  | .scalar id k, v, h => by
    refine ⟨?_, targetOf_resolvePointer _ _, fun _ => by simp [resolvePointer]⟩
    rcases h with h | ⟨sel, s, hn, hu, hx⟩
    · simp [hydrateValue, h, resolvePointer]
    · simp only [hydrateValue, Bool.not_true, Bool.false_eq_true, if_false, hn, resolvePointer]
      cases hl : planWithLoader (some p) with
      | some pp =>
        have hpp : pp = p := by
          simp only [planWithLoader, Option.filter] at hl
          split at hl <;> simp_all
        subst hpp
        simp [leafResult, setValueFromSel_extract_error L D _ v sel pp s err hx]
      | none =>
        simp only
        cases ht : findTypeLoader R.typeLoaders (.scalar id k) with
        | some tl =>
          simp [leafResult, setValueFromSel_extract_error L D _ v sel
            { p with loader := some (typeLoaderAsLoader tl) } s err hx]
        | none =>
          simp [leafResult, setValueFromSel_extract_error L D _ v sel p s err hx]
  | .array id len e, v, h => by
    refine ⟨?_, targetOf_resolvePointer _ _, fun _ => by simp [resolvePointer]⟩
    rcases h with h | ⟨sel, s, hn, hu, hx⟩
    · simp [hydrateValue, h, resolvePointer]
    · simp only [hydrateValue, Bool.not_true, Bool.false_eq_true, if_false, hn, resolvePointer]
      cases hl : planWithLoader (some p) with
      | some pp =>
        have hpp : pp = p := by
          simp only [planWithLoader, Option.filter] at hl
          split at hl <;> simp_all
        subst hpp
        simp [leafResult, setValueFromSel_extract_error L D _ v sel pp s err hx]
      | none =>
        simp only
        cases ht : findTypeLoader R.typeLoaders (.array id len e) with
        | some tl =>
          simp [leafResult, setValueFromSel_extract_error L D _ v sel
            { p with loader := some (typeLoaderAsLoader tl) } s err hx]
        | none =>
          have hlo : p.loader = none := by
            simp only [planWithLoader, Option.filter] at hl
            split at hl <;> simp_all
          have hb : e.isUint8 = true := by
            simpa [usesAccessor, Ty.base, hlo, ht] using hu
          simp [hb, hx]
  | .slice id e, v, h => by
    refine ⟨?_, targetOf_resolvePointer _ _, fun _ => by simp [resolvePointer]⟩
    rcases h with h | ⟨sel, s, hn, hu, hx⟩
    · simp [hydrateValue, h, resolvePointer]
    · simp only [hydrateValue, Bool.not_true, Bool.false_eq_true, if_false, hn, resolvePointer]
      cases hl : planWithLoader (some p) with
      | some pp =>
        have hpp : pp = p := by
          simp only [planWithLoader, Option.filter] at hl
          split at hl <;> simp_all
        subst hpp
        simp [leafResult, setValueFromSel_extract_error L D _ v sel pp s err hx]
      | none =>
        simp only
        cases ht : findTypeLoader R.typeLoaders (.slice id e) with
        | some tl =>
          simp [leafResult, setValueFromSel_extract_error L D _ v sel
            { p with loader := some (typeLoaderAsLoader tl) } s err hx]
        | none =>
          have hlo : p.loader = none := by
            simp only [planWithLoader, Option.filter] at hl
            split at hl <;> simp_all
          have hb : e.isUint8 = true := by
            simpa [usesAccessor, Ty.base, hlo, ht] using hu
          simp [hb, hx]
  | .struct id fs, v, h => by
    refine ⟨?_, targetOf_resolvePointer _ _, fun _ => by simp [resolvePointer]⟩
    rcases h with h | ⟨sel, s, hn, hu, hx⟩
    · simp [hydrateValue, h, resolvePointer]
    · simp only [hydrateValue, Bool.not_true, Bool.false_eq_true, if_false, hn, resolvePointer]
      cases hl : planWithLoader (some p) with
      | some pp =>
        have hpp : pp = p := by
          simp only [planWithLoader, Option.filter] at hl
          split at hl <;> simp_all
        subst hpp
        simp [leafResult, setValueFromSel_extract_error L D _ v sel pp s err hx]
      | none =>
        simp only
        cases ht : findTypeLoader R.typeLoaders (.struct id fs) with
        | some tl =>
          simp [leafResult, setValueFromSel_extract_error L D _ v sel
            { p with loader := some (typeLoaderAsLoader tl) } s err hx]
        | none =>
          have hlo : p.loader = none := by
            simp only [planWithLoader, Option.filter] at hl
            split at hl <;> simp_all
          simp [usesAccessor, Ty.base, hlo, ht] at hu
  | .unsupported id kind, v, h => by
    refine ⟨?_, targetOf_resolvePointer _ _, fun _ => by simp [resolvePointer]⟩
    rcases h with h | ⟨sel, s, hn, hu, hx⟩
    · simp [hydrateValue, h, resolvePointer]
    · simp only [hydrateValue, Bool.not_true, Bool.false_eq_true, if_false, hn, resolvePointer]
      cases hl : planWithLoader (some p) with
      | some pp =>
        have hpp : pp = p := by
          simp only [planWithLoader, Option.filter] at hl
          split at hl <;> simp_all
        subst hpp
        simp [leafResult, setValueFromSel_extract_error L D _ v sel pp s err hx]
      | none =>
        simp only
        cases ht : findTypeLoader R.typeLoaders (.unsupported id kind) with
        | some tl =>
          simp [leafResult, setValueFromSel_extract_error L D _ v sel
            { p with loader := some (typeLoaderAsLoader tl) } s err hx]
        | none =>
          have hlo : p.loader = none := by
            simp only [planWithLoader, Option.filter] at hl
            split at hl <;> simp_all
          simp [usesAccessor, Ty.base, hlo, ht] at hu


/-- C8 (amended) at a nil pointer to a string whose selector matches nothing,
and at an integer whose accessor names a missing attribute. -/
theorem hydrateValue_failed_keeps_target_witness :
    ((hydrateValue exampleLib twoDivs.dom (exampleRegistry twoDivs.dom) (.ptr {} tyString) true
          (.ptr none) [0] (some planBlink)).map (fun h => (h.1, h.2.1)) =
        .done (resolvePointer (.ptr {} tyString) (.ptr none), [Err.didNotMatch "blink".toList]) ∧
      targetOf (.ptr {} tyString) (resolvePointer (.ptr {} tyString) (.ptr none)) =
        targetOf (.ptr {} tyString) (.ptr none) ∧
      ((∀ id e, Ty.ptr {} tyString ≠ .ptr id e) →
        resolvePointer (.ptr {} tyString) (.ptr none) = .ptr none)) ∧
    ((hydrateValue exampleLib twoDivs.dom (exampleRegistry twoDivs.dom) tyInt true
          (.int 5) [0] (some planDivMissing)).map (fun h => (h.1, h.2.1)) =
        .done (resolvePointer tyInt (.int 5), [Err.attributeNotFound "attr(missing)".toList]) ∧
      targetOf tyInt (resolvePointer tyInt (.int 5)) = targetOf tyInt (.int 5) ∧
      ((∀ id e, tyInt ≠ .ptr id e) → resolvePointer tyInt (.int 5) = .int 5)) :=
  ⟨hydrateValue_failed_keeps_target exampleLib twoDivs.dom (exampleRegistry twoDivs.dom) [0]
      planBlink (Err.didNotMatch "blink".toList) (.ptr {} tyString) (.ptr none) (Or.inl rfl),
   hydrateValue_failed_keeps_target exampleLib twoDivs.dom (exampleRegistry twoDivs.dom) [0]
      planDivMissing (Err.attributeNotFound "attr(missing)".toList) tyInt (.int 5)
      (Or.inr ⟨[1, 2], [], rfl, rfl, rfl⟩)⟩

/-- `Contains` is the sublist-of-consecutive-characters relation. -/
theorem Contains_iff (s sub : Str) : Contains s sub = true ↔ sub <:+: s := by
  simp only [Contains, List.any_eq_true, List.mem_tails, List.isPrefixOf_iff_prefix]
  constructor
  · rintro ⟨t, ht, hp⟩
    exact List.infix_iff_prefix_suffix.mpr ⟨t, hp, ht⟩
  · intro h
    obtain ⟨t, hp, ht⟩ := List.infix_iff_prefix_suffix.mp h
    exact ⟨t, ht, hp⟩

/-- What `scanQuoted` leaves is the end of what it was given. -/
theorem scanQuoted_suffix : ∀ (s body after : Str),
    scanQuoted s = some (body, after) → after <:+ s
  | [], body, after, h => by simp [scanQuoted] at h
  | c :: rest, body, after, h => by
    unfold scanQuoted at h
    split at h
    · simp only [Option.some.injEq, Prod.mk.injEq] at h
      rw [← h.2]
      exact List.suffix_cons c rest
    · split at h
      · cases rest with
        | nil => simp at h
        | cons e r1 =>
          simp only [Option.map_eq_some'] at h
          obtain ⟨⟨b1, a1⟩, h1, h2⟩ := h
          simp only [Prod.mk.injEq] at h2
          have := scanQuoted_suffix r1 b1 a1 h1
          rw [← h2.2]
          exact (this.trans (List.suffix_cons e r1)).trans (List.suffix_cons c (e :: r1))
      · simp only [Option.map_eq_some'] at h
        obtain ⟨⟨b1, a1⟩, h1, h2⟩ := h
        simp only [Prod.mk.injEq] at h2
        have := scanQuoted_suffix rest b1 a1 h1
        rw [← h2.2]
        exact this.trans (List.suffix_cons c rest)

/-- A tag in which `Lookup` finds the key contains the key followed by a
colon. -/
theorem findKey_contains (key : Str) : ∀ (fuel : Nat) (tag q : Str),
    findKey key fuel tag = some q → (key ++ [':']) <:+: tag
  | 0, tag, q, h => by simp [findKey] at h
  | fuel + 1, tag, q, h => by
    simp only [findKey] at h
    split at h
    · simp at h
    · split at h
      · rename_i c1 c2 rest hd
        split at h
        · simp at h
        · rename_i hc
          simp only [Bool.or_eq_true, not_or, Bool.not_eq_true] at hc
          have hc1 : c1 = ':' := by
            have := hc.1.2
            simpa using this
          have htag1 : tag.dropWhile (· = ' ') =
              (tag.dropWhile (· = ' ')).takeWhile isKeyChar ++ c1 :: c2 :: rest := by
            rw [← hd]
            exact (List.takeWhile_append_dropWhile _ _).symm
          have hsuf : (tag.dropWhile (· = ' ')) <:+ tag := List.dropWhile_suffix _
          split at h
          · simp at h
          · rename_i body after hs
            split at h
            · rename_i hk
              have hpre : (key ++ [':']) <+: (tag.dropWhile (· = ' ')) := by
                rw [htag1, ← hk, hc1]
                exact ⟨c2 :: rest, by simp⟩
              exact List.infix_iff_prefix_suffix.mpr ⟨_, hpre, hsuf⟩
            · have ih := findKey_contains key fuel after q h
              have h1 : after <:+ rest := scanQuoted_suffix rest body after hs
              have h2 : rest <:+ (tag.dropWhile (· = ' ')) := by
                rw [htag1]
                exact ⟨(tag.dropWhile (· = ' ')).takeWhile isKeyChar ++ [c1, c2], by simp⟩
              exact ih.trans ((h1.trans (h2.trans hsuf)).isInfix)
      · simp at h


/-- The length of the tag is fuel enough for `findKey`: with at least that
much fuel the result does not depend on the fuel. -/
theorem findKey_fuel (key : Str) : ∀ (n m : Nat) (tag : Str),
    tag.length ≤ n → tag.length ≤ m → findKey key n tag = findKey key m tag
  | 0, 0, _, _, _ => rfl
  | 0, m + 1, tag, hn, _ => by
    have : tag = [] := List.eq_nil_of_length_eq_zero (Nat.le_zero.mp hn)
    subst this
    simp [findKey]
  | n + 1, 0, tag, _, hm => by
    have : tag = [] := List.eq_nil_of_length_eq_zero (Nat.le_zero.mp hm)
    subst this
    simp [findKey]
  | n + 1, m + 1, tag, hn, hm => by
    simp only [findKey]
    split
    · rfl
    · split
      · rename_i c1 c2 rest hd
        split
        · rfl
        · split
          · rfl
          · rename_i body after hs
            split
            · rfl
            · have h1 : after.length ≤ rest.length :=
                (scanQuoted_suffix rest body after hs).length_le
              have h2 : (c1 :: c2 :: rest).length ≤ (tag.dropWhile (· = ' ')).length := by
                rw [← hd]
                exact (List.dropWhile_suffix _).length_le
              have h3 : (tag.dropWhile (· = ' ')).length ≤ tag.length :=
                (List.dropWhile_suffix _).length_le
              simp only [List.length_cons] at h2
              exact findKey_fuel key n m after (by omega) (by omega)
      · rfl

/-- C9 (counterexample): the second segment `attr(x` is not `text`, not
`html` and not of the form `attr(name)`, yet the annotation compiles, with
that segment as accessor. -/
theorem parseTag_accepts_unclosed_attr :
    segmentsOf "sq:\"a | attr(x\"".toList = ["a".toList, "attr(x".toList] ∧
    TrimSpace "attr(x".toList = "attr(x".toList ∧
    "attr(x".toList ≠ accessorText ∧ "attr(x".toList ≠ accessorHTML ∧
    attrForm "attr(x".toList = false ∧
    parseTag noFuncs "sq:\"a | attr(x\"".toList =
      .ok { selector := "a".toList, acc := "attr(x".toList } :=
  ⟨by decide, by decide, by decide, by decide, by decide, rfl⟩

/-- C9 (amended): when the annotation has a second segment that, trimmed, is
not `text`, not `html` and does not start with `attr(`, `parseTag` fails with
the bad-accessor error naming the trimmed segment, and returns no plan. -/
theorem parseTag_bad_accessor (R : FuncRegistry) (tag s0 s1 : Str) (rest : List Str)
    (hsplit : segmentsOf tag = s0 :: s1 :: rest)
    (hattr : startsWith (TrimSpace s1) (accessorAttr ++ ['(']) = false)
    (hhtml : TrimSpace s1 ≠ accessorHTML)
    (htext : TrimSpace s1 ≠ accessorText) :
    parseTag R tag = .error (Err.badAccessor (TrimSpace s1)) := by
  have h1 : ¬ accessorHTML = TrimSpace s1 := fun h => hhtml h.symm
  have h2 : ¬ accessorText = TrimSpace s1 := fun h => htext h.symm
  simp [parseTag, hsplit, parseParts, hattr, h1, h2]

/-- C9 (amended) at the annotation "p.last | fuzzy". -/
theorem parseTag_bad_accessor_witness :
    segmentsOf "sq:\"p.last | fuzzy\"".toList = ["p.last".toList, "fuzzy".toList] ∧
    parseTag noFuncs "sq:\"p.last | fuzzy\"".toList =
      .error (Err.badAccessor (TrimSpace "fuzzy".toList)) :=
  ⟨by decide,
   parseTag_bad_accessor noFuncs "sq:\"p.last | fuzzy\"".toList "p.last".toList "fuzzy".toList []
    (by decide) (by decide) (by decide) (by decide)⟩

/-- C10 (counterexample): the tag has an `sq` value whose first segment is
empty, and `parseTag` returns the bad-accessor error for the second segment,
not the bad-tag error. -/
theorem parseTag_empty_selector_other_error :
    findKey tagKey "sq:\" | fuzzy\"".toList.length "sq:\" | fuzzy\"".toList =
      some "\" | fuzzy\"".toList ∧
    segmentsOf "sq:\" | fuzzy\"".toList = [[], "fuzzy".toList] ∧
    parseTag noFuncs "sq:\" | fuzzy\"".toList = .error (Err.badAccessor "fuzzy".toList) ∧
    Err.badAccessor "fuzzy".toList ≠ Err.badTag "sq:\" | fuzzy\"".toList :=
  ⟨by decide, by decide, rfl, by decide⟩

/-- C10 (amended): the empty tag gives the sentinel `ErrTagNotFound`; a tag in
which `Lookup` finds the key `sq`, whose segments raise no accessor or function
error and whose selector comes out empty, gives the bad-tag error quoting the
whole tag, which is not the sentinel. -/
theorem parseTag_empty_selector (R : FuncRegistry) :
    parseTag R [] = .error ErrTagNotFound ∧
    ∀ (tag q : Str) (p : path),
      findKey tagKey tag.length tag = some q →
      parseParts R 0 (segmentsOf tag) {} = .ok p →
      p.selector = [] →
      parseTag R tag = .error (Err.badTag tag) ∧ Err.badTag tag ≠ ErrTagNotFound := by
  refine ⟨?_, ?_⟩
  · have hseg : segmentsOf [] = [[]] := by decide
    have htrim : TrimSpace [] = [] := by decide
    have hc : Contains [] tagMarker = false := by decide
    simp [parseTag, hseg, parseParts, htrim, hc]
  · intro tag q p hfind hparts hsel
    have hinf : (tagKey ++ [':']) <:+: tag := findKey_contains _ _ _ _ hfind
    have hm : tagMarker = tagKey ++ [':'] := by decide
    have hc : Contains tag tagMarker = true := by
      rw [hm]
      exact (Contains_iff _ _).mpr hinf
    refine ⟨?_, by simp [ErrTagNotFound]⟩
    simp [parseTag, hparts, hsel, hc]

/-- C10 (amended) at the tag with an empty `sq` value and at the tag of the
test whose value does not unquote. -/
theorem parseTag_empty_selector_witness :
    parseTag noFuncs [] = .error ErrTagNotFound ∧
    (parseTag noFuncs "sq:\"\"".toList = .error (Err.badTag "sq:\"\"".toList) ∧
      Err.badTag "sq:\"\"".toList ≠ ErrTagNotFound) ∧
    (parseTag noFuncs "sq:\"p.last\\d\"".toList =
        .error (Err.badTag "sq:\"p.last\\d\"".toList) ∧
      Err.badTag "sq:\"p.last\\d\"".toList ≠ ErrTagNotFound) :=
  ⟨(parseTag_empty_selector noFuncs).1,
   (parseTag_empty_selector noFuncs).2 "sq:\"\"".toList "\"\"".toList {} (by decide) rfl rfl,
   (parseTag_empty_selector noFuncs).2 "sq:\"p.last\\d\"".toList "\"p.last\\d\"".toList {}
     (by decide) rfl rfl⟩

/-- `setValueFromSel` is extraction, then the pipeline, then `storeText`. -/
theorem setValueFromSel_eq (L : Lib) (D : Dom) (t : Ty) (v : Val) (sel : Selection) (p : path) :
    setValueFromSel L D t v sel p =
      match extractString D sel p.acc with
      | (_, some err) => .done (v, some err)
      | (s0, none) =>
        match runPipeline p.parsers s0 with
        | .error err => .done (v, some (Err.parserFail p.selector err))
        | .ok s => storeText L t v sel p s := by
  unfold setValueFromSel storeText runPipeline
  rfl

/-- The pipeline over two lists of transforms one after the other. -/
theorem runPipeline_append (ps qs : List parser) (s : Str) :
    runPipeline (ps ++ qs) s =
      match runPipeline ps s with
      | .error err => .error err
      | .ok s1 => runPipeline qs s1 := by
  unfold runPipeline
  rw [List.foldlM_append]
  cases List.foldlM (fun s (pp : parser) => pp.parse s) s ps <;> rfl

/-- The pipeline from a transform on: that transform, then the rest. -/
theorem runPipeline_cons (t : parser) (qs : List parser) (s : Str) :
    runPipeline (t :: qs) s =
      match t.parse s with
      | .error err => .error err
      | .ok s1 => runPipeline qs s1 := by
  unfold runPipeline
  rw [List.foldlM_cons]
  cases t.parse s <;> rfl

/-- C13: in `setValueFromSel`, once the accessor has given the text `s0`, the
text that reaches the terminal constructor (named in the plan or built around
a type loader) or the scalar coercion is the result of the transforms of the
plan applied in order; and when a transform fails on the result of the
transforms before it, whatever the transforms after it and the terminal are,
the slot is unchanged and the one error returned is the parser-fail error with
the selector of the plan and the error of that transform. -/
theorem setValueFromSel_pipeline (L : Lib) (D : Dom) (t : Ty) (v : Val) (sel : Selection)
    (p : path) (s0 : Str) (hx : extractString D sel p.acc = (s0, none)) :
    (∀ s, runPipeline p.parsers s0 = .ok s →
      setValueFromSel L D t v sel p = storeText L t v sel p s) ∧
    (∀ (pre post : List parser) (ti : parser) (s1 : Str) (err : Err),
      p.parsers = pre ++ ti :: post → runPipeline pre s0 = .ok s1 → ti.parse s1 = .error err →
      setValueFromSel L D t v sel p = .done (v, some (Err.parserFail p.selector err))) := by
  refine ⟨?_, ?_⟩
  · intro s hs
    rw [setValueFromSel_eq, hx]
    simp only [hs]
  · intro pre post ti s1 err hps hpre hti
    rw [setValueFromSel_eq, hx]
    simp only [hps, runPipeline_append, hpre, runPipeline_cons, hti]

/-- C13 on the node with the text "7": the pipeline prepend(1), prepend(2)
hands "217" to the scalar coercion, and the pipeline prepend(1), parsefail,
prepend(2) stops at its second transform. -/
theorem setValueFromSel_pipeline_witness :
    (setValueFromSel exampleLib twoDivs.dom tyInt (.int 0) [3] planTwoPrepends =
        storeText exampleLib tyInt (.int 0) [3] planTwoPrepends "217".toList ∧
      setValueFromSel exampleLib twoDivs.dom tyInt (.int 0) [3] planTwoPrepends =
        .done (.int 217, none)) ∧
    setValueFromSel exampleLib twoDivs.dom tyInt (.int 5) [3] planFailsSecond =
      .done (.int 5, some (Err.parserFail "a".toList (Err.external "parse fail".toList))) :=
  ⟨⟨(setValueFromSel_pipeline exampleLib twoDivs.dom tyInt (.int 0) [3] planTwoPrepends
        "7".toList rfl).1 "217".toList rfl, rfl⟩,
   (setValueFromSel_pipeline exampleLib twoDivs.dom tyInt (.int 5) [3] planFailsSecond
        "7".toList rfl).2 [prependParser "1".toList] [prependParser "2".toList] failingParser
        "17".toList (Err.external "parse fail".toList) rfl rfl rfl⟩

/-- C14: for a slot of kind boolean, signed integer, unsigned integer or float
and a plan without terminal, when the pipelined text does not parse for the
kind, `setValueFromSel` completes, returns the error of the parse prefixed by
the selector of the plan, and leaves the slot as it was. -/
theorem setValueFromSel_coerce_error (L : Lib) (D : Dom) (id : TypeId) (k : ScalarKind)
    (v : Val) (sel : Selection) (p : path) (s0 s : Str) (err : Err)
    (hx : extractString D sel p.acc = (s0, none))
    (hpipe : runPipeline p.parsers s0 = .ok s)
    (hload : p.loader = none)
    (hfail : (k = .bool ∧ ParseBool s = .error err) ∨
      (∃ bits, k = .int bits ∧ ParseInt s bits = .error err) ∨
      (∃ bits, k = .uint bits ∧ ParseUint s bits = .error err) ∨
      (∃ bits, k = .float bits ∧ L.parseFloat s bits = .error err)) :
    setValueFromSel L D (.scalar id k) v sel p =
      .done (v, some (Err.coerce p.selector err)) := by
  rw [setValueFromSel_eq, hx]
  simp only [hpipe]
  rcases hfail with ⟨hk, h⟩ | ⟨bits, hk, h⟩ | ⟨bits, hk, h⟩ | ⟨bits, hk, h⟩ <;>
    subst hk <;> simp [storeText, hload, h]

/-- C14 at the text "true" for a signed integer, and at the text "-48" for a
boolean. -/
theorem setValueFromSel_coerce_error_witness :
    setValueFromSel exampleLib boolAndInt.dom tyInt (.int 5) [1]
        { selector := "p.bool".toList, acc := "text".toList } =
      .done (.int 5, some (Err.coerce "p.bool".toList
        (Err.num "ParseInt".toList "true".toList .invalidSyntax))) ∧
    setValueFromSel exampleLib boolAndInt.dom (.scalar ⟨[], "bool".toList⟩ .bool) (.bool false)
        [2] { selector := "p.int".toList, acc := "text".toList } =
      .done (.bool false, some (Err.coerce "p.int".toList
        (Err.num "ParseBool".toList "-48".toList .invalidSyntax))) :=
  ⟨setValueFromSel_coerce_error exampleLib boolAndInt.dom _ _ (.int 5) [1]
      { selector := "p.bool".toList, acc := "text".toList } "true".toList "true".toList _
      rfl rfl rfl (Or.inr (Or.inl ⟨64, rfl, rfl⟩)),
   setValueFromSel_coerce_error exampleLib boolAndInt.dom _ _ (.bool false) [2]
      { selector := "p.int".toList, acc := "text".toList } "-48".toList "-48".toList _
      rfl rfl rfl (Or.inl ⟨rfl, rfl⟩)⟩

/-- Reading further digits does not make the number smaller. -/
theorem le_digitsFrom : ∀ (ds : Str) (n : Nat), n ≤ digitsFrom n ds
  | [], n => Nat.le_refl n
  | c :: cs, n => by
    have h := le_digitsFrom cs (n * 10 + (c.toNat - 48))
    simp only [digitsFrom, List.foldl_cons] at h ⊢
    omega

/-- The digit loop on a string of digits: the number read, unless it exceeds
the largest value. -/
theorem parseUintLoop_digits (maxVal : Nat) (hmax : maxVal < 2 ^ 64) :
    ∀ (ds : Str) (n : Nat), (∀ c ∈ ds, c.isDigit = true) → n ≤ maxVal →
      parseUintLoop maxVal ds n =
        if digitsFrom n ds ≤ maxVal then .ok (digitsFrom n ds) else .error .outOfRange
  | [], n, _, hn => by simp [parseUintLoop, digitsFrom, hn]
  | c :: cs, n, hd, hn => by
    have hc : c.isDigit = true := hd c (List.mem_cons_self _ _)
    have hcs : ∀ x ∈ cs, x.isDigit = true := fun x hx => hd x (List.mem_cons_of_mem _ hx)
    have h64 : (2 : Nat) ^ 64 = 18446744073709551616 := by norm_num
    have hcut : uintCutoff = 1844674407370955162 := by
      simp only [uintCutoff, h64]
    have hdig : c.toNat - 48 ≤ 9 := by
      simp only [Char.isDigit, Bool.and_eq_true, decide_eq_true_eq] at hc
      have h1 := hc.2
      have : c.val ≤ 57 := h1
      have h2 : c.toNat = c.val.toNat := rfl
      have h3 : c.val.toNat ≤ 57 := by
        exact this
      omega
    have hmono := le_digitsFrom cs (n * 10 + (c.toNat - 48))
    have hstep : digitsFrom n (c :: cs) = digitsFrom (n * 10 + (c.toNat - 48)) cs := rfl
    rw [hstep]
    simp only [parseUintLoop, hc, if_true]
    by_cases h1 : n ≥ uintCutoff
    · rw [if_pos h1, if_neg]
      rw [hcut] at h1
      omega
    · rw [if_neg h1]
      rw [hcut] at h1
      by_cases h2 : n * 10 + (c.toNat - 48) < 2 ^ 64
      · rw [Nat.mod_eq_of_lt h2]
        by_cases h3 : n * 10 + (c.toNat - 48) > maxVal
        · have hn : ¬ digitsFrom (n * 10 + (c.toNat - 48)) cs ≤ maxVal := by omega
          have hcond : (decide (n * 10 + (c.toNat - 48) < n * 10) ||
              decide (n * 10 + (c.toNat - 48) > maxVal)) = true := by simp [h3]
          rw [if_pos hcond, if_neg hn]
        · have hcond : ¬ (decide (n * 10 + (c.toNat - 48) < n * 10) ||
              decide (n * 10 + (c.toNat - 48) > maxVal)) = true := by
            simp only [Bool.or_eq_true, decide_eq_true_eq, not_or]
            exact ⟨by omega, h3⟩
          rw [if_neg hcond]
          exact parseUintLoop_digits maxVal hmax cs _ hcs (by omega)
      · have hwrap : (n * 10 + (c.toNat - 48)) % 2 ^ 64 < n * 10 := by
          rw [h64] at h2 ⊢
          omega
        have hn : ¬ digitsFrom (n * 10 + (c.toNat - 48)) cs ≤ maxVal := by
          rw [h64] at h2 hmax
          omega
        have hcond : (decide ((n * 10 + (c.toNat - 48)) % 2 ^ 64 < n * 10) ||
            decide ((n * 10 + (c.toNat - 48)) % 2 ^ 64 > maxVal)) = true := by
          simp only [Bool.or_eq_true, decide_eq_true_eq]
          exact Or.inl hwrap
        rw [if_pos hcond, if_neg hn]

/-- The digit loop succeeds on strings of digits only. -/
theorem parseUintLoop_ok_digits (maxVal : Nat) :
    ∀ (ds : Str) (n m : Nat), parseUintLoop maxVal ds n = .ok m → ∀ c ∈ ds, c.isDigit = true
  | [], _, _, _ => by simp
  | c :: cs, n, m, h => by
    unfold parseUintLoop at h
    split at h
    · rename_i hc
      split at h
      · simp at h
      · dsimp only at h
        split at h
        · simp at h
        · intro x hx
          rcases List.mem_cons.mp hx with rfl | hx
          · exact hc
          · exact parseUintLoop_ok_digits maxVal cs _ m h x hx
    · simp at h
/-- The unsigned core succeeds exactly on non-empty strings of digits whose
number fits the width. -/
theorem parseUintCore_ok_iff (ds : Str) (bits un : Nat) (hb : bits ≤ 64) :
    parseUintCore ds bits = .ok un ↔
      ds ≠ [] ∧ (∀ c ∈ ds, c.isDigit = true) ∧ decimalValue ds = un ∧ un < 2 ^ bits := by
  have hpos : 0 < 2 ^ bits := Nat.pow_pos (by norm_num)
  have hmax : 2 ^ bits - 1 < 2 ^ 64 := by
    have : 2 ^ bits ≤ 2 ^ 64 := Nat.pow_le_pow_right (by norm_num) hb
    omega
  unfold parseUintCore
  cases ds with
  | nil => simp
  | cons c cs =>
    simp only [List.isEmpty_cons, Bool.false_eq_true, if_false, ne_eq, not_false_eq_true,
      true_and, reduceCtorEq]
    constructor
    · intro h
      have hd := parseUintLoop_ok_digits _ _ _ _ h
      rw [parseUintLoop_digits _ hmax _ _ hd (Nat.zero_le _)] at h
      split at h
      · rename_i hle
        simp only [Except.ok.injEq] at h
        exact ⟨hd, h, by omega⟩
      · simp at h
    · rintro ⟨hd, hv, hlt⟩
      rw [parseUintLoop_digits _ hmax _ _ hd (Nat.zero_le _)]
      unfold decimalValue at hv
      rw [if_pos (by omega), hv]

/-- `ParseInt` is the sign picked off, then `parseIntMagnitude`. -/
theorem ParseInt_eq (s : Str) (w : Nat) :
    ParseInt s w =
      if s.isEmpty then .error (Err.num "ParseInt".toList s .invalidSyntax)
      else parseIntMagnitude s w (s.head? = some '-')
        (if s.head? = some '+' || s.head? = some '-' then s.tail else s) := rfl

/-- The part of `ParseInt` after the sign succeeds exactly on a non-empty
string of digits whose number, with the sign, fits the width. -/
theorem parseIntMagnitude_ok_iff (s : Str) (w : Nat) (n : Int) (hw2 : 2 ≤ w) (hw : w ≤ 64)
    (neg : Prop) [Decidable neg] (ds : Str) :
    parseIntMagnitude s w neg ds = .ok n ↔
      (ds ≠ [] ∧ (∀ c ∈ ds, c.isDigit = true) ∧
        n = (if neg then -(decimalValue ds : Int) else (decimalValue ds : Int)) ∧
        -(2 ^ (w - 1) : Int) ≤ n ∧ n ≤ 2 ^ (w - 1) - 1) := by
  have hdouble : (2 : Nat) ^ w = 2 * 2 ^ (w - 1) := by
    have hw' : w = (w - 1) + 1 := by omega
    conv_lhs => rw [hw']
    rw [pow_succ]
    ring
  have hcut2 : 2 ≤ (2 : Nat) ^ (w - 1) := by
    have h := Nat.pow_le_pow_right (show 0 < 2 by norm_num) (show 1 ≤ w - 1 by omega)
    simpa using h
  have hI : ((2 : Int) ^ (w - 1)) = (((2 : Nat) ^ (w - 1) : Nat) : Int) := by push_cast; rfl
  have hIw : ((2 : Int) ^ w) = (((2 : Nat) ^ w : Nat) : Int) := by push_cast; rfl
  unfold parseIntMagnitude
  cases hcore : parseUintCore ds w with
  | error r =>
    have hno : ¬ (ds ≠ [] ∧ (∀ c ∈ ds, c.isDigit = true) ∧ decimalValue ds < 2 ^ w) := by
      intro h
      have := (parseUintCore_ok_iff ds w (decimalValue ds) hw).mpr
        ⟨h.1, h.2.1, rfl, h.2.2⟩
      rw [hcore] at this
      cases this
    have hfalse : ¬ (ds ≠ [] ∧ (∀ c ∈ ds, c.isDigit = true) ∧
        n = (if neg then -(decimalValue ds : Int) else (decimalValue ds : Int)) ∧
        -(2 ^ (w - 1) : Int) ≤ n ∧ n ≤ 2 ^ (w - 1) - 1) := by
      rintro ⟨h1, h2, h3, h4, h5⟩
      apply hno
      refine ⟨h1, h2, ?_⟩
      rw [hI] at h4 h5
      by_cases hneg : neg
      · simp only [hneg, if_true] at h3
        omega
      · simp only [hneg, if_false] at h3
        omega
    cases r with
    | invalidSyntax => simp only [reduceCtorEq, false_iff]; exact hfalse
    | outOfRange =>
      simp only [hIw, hI]
      by_cases hneg : neg
      · simp only [hneg, decide_True, Bool.not_true, Bool.false_and, Bool.false_eq_true,
          if_false, Bool.true_and, decide_eq_true_eq, if_true]
        rw [if_pos (by omega)]
        simp only [reduceCtorEq, false_iff]
        rw [hI] at hfalse
        simpa [hneg] using hfalse
      · simp only [hneg, decide_False, Bool.not_false, Bool.true_and, decide_eq_true_eq,
          Bool.false_and, Bool.false_eq_true, if_false]
        rw [if_pos (by omega)]
        simp only [reduceCtorEq, false_iff]
        rw [hI] at hfalse
        simpa [hneg] using hfalse
  | ok un =>
    obtain ⟨h1, h2, h3, h4⟩ := (parseUintCore_ok_iff ds w un hw).mp hcore
    subst h3
    simp only [hI]
    by_cases hneg : neg
    · simp only [hneg, decide_True, Bool.not_true, Bool.false_and, Bool.false_eq_true,
        if_false, Bool.true_and, decide_eq_true_eq, if_true]
      by_cases hgt : (decimalValue ds : Int) > ((2 ^ (w - 1) : Nat) : Int)
      · rw [if_pos hgt]
        simp only [reduceCtorEq, false_iff]
        rintro ⟨_, _, h3, h4, h5⟩
        omega
      · rw [if_neg hgt]
        simp only [Except.ok.injEq]
        constructor
        · intro h
          subst h
          exact ⟨h1, h2, rfl, by omega, by omega⟩
        · rintro ⟨_, _, h3, _, _⟩
          exact h3.symm
    · simp only [hneg, decide_False, Bool.not_false, Bool.true_and, decide_eq_true_eq,
        Bool.false_and, Bool.false_eq_true, if_false]
      by_cases hge : (decimalValue ds : Int) ≥ ((2 ^ (w - 1) : Nat) : Int)
      · rw [if_pos hge]
        simp only [reduceCtorEq, false_iff]
        rintro ⟨_, _, h3, h4, h5⟩
        omega
      · rw [if_neg hge]
        simp only [Except.ok.injEq]
        constructor
        · intro h
          subst h
          exact ⟨h1, h2, rfl, by omega, by omega⟩
        · rintro ⟨_, _, h3, _, _⟩
          exact h3.symm

/-- C15: for a signed-integer slot of width `w` between 2 and 64 (so for 8,
16, 32 and 64), the coercion `ParseInt` succeeds exactly on an optional sign
followed by one or more decimal digits that denote a number `n` of the width,
and then gives `n`; with a plan without terminal the slot then holds `n`, and
on every other text the coercion fails and the slot is unchanged. -/
theorem ParseInt_ok_iff (s : Str) (w : Nat) (n : Int) (hw2 : 2 ≤ w) (hw : w ≤ 64) :
    (ParseInt s w = .ok n ↔
      ∃ sign ds, s = sign ++ ds ∧ (sign = [] ∨ sign = ['+'] ∨ sign = ['-']) ∧
        ds ≠ [] ∧ (∀ c ∈ ds, c.isDigit = true) ∧
        n = (if sign = ['-'] then -(decimalValue ds : Int) else (decimalValue ds : Int)) ∧
        -(2 ^ (w - 1) : Int) ≤ n ∧ n ≤ 2 ^ (w - 1) - 1) ∧
    ∀ (L : Lib) (id : TypeId) (v : Val) (sel : Selection) (p : path), p.loader = none →
      storeText L (.scalar id (.int w)) v sel p s =
        match ParseInt s w with
        | .ok m => .done (.int m, none)
        | .error err => .done (v, some (Err.coerce p.selector err)) := by
  refine ⟨?_, ?_⟩
  · rw [ParseInt_eq]
    have hminus : ('-' : Char).isDigit = false := by decide
    have hplus : ('+' : Char).isDigit = false := by decide
    cases s with
    | nil =>
      simp only [List.isEmpty_nil, if_true, reduceCtorEq, false_iff]
      rintro ⟨sign, ds, h, _, hds, _⟩
      have := List.append_eq_nil.mp h.symm
      exact hds this.2
    | cons c cs =>
      simp only [List.isEmpty_cons, Bool.false_eq_true, if_false, List.head?_cons,
        List.tail_cons, Option.some.injEq]
      rw [parseIntMagnitude_ok_iff _ _ _ hw2 hw]
      by_cases hm : c = '-'
      · subst hm
        simp only [decide_True, Bool.or_true, if_true]
        constructor
        · rintro ⟨h1, h2, h3, h4⟩
          exact ⟨['-'], cs, rfl, Or.inr (Or.inr rfl), h1, h2, by simpa using h3, h4⟩
        · rintro ⟨sign, ds, h, hs, h1, h2, h3, h4⟩
          rcases hs with rfl | rfl | rfl
          · simp only [List.nil_append] at h
            subst h
            have := h2 '-' (List.mem_cons_self _ _)
            rw [hminus] at this
            cases this
          · simp only [List.singleton_append, List.cons.injEq] at h
            exact absurd h.1 (by decide)
          · simp only [List.singleton_append, List.cons.injEq, true_and] at h
            subst h
            exact ⟨h1, h2, by simpa using h3, h4⟩
      · by_cases hp : c = '+'
        · subst hp
          simp only [decide_True, Bool.true_or, if_true]
          have hne : ¬ ('+' : Char) = '-' := by decide
          simp only [hne, if_false]
          constructor
          · rintro ⟨h1, h2, h3, h4⟩
            exact ⟨['+'], cs, rfl, Or.inr (Or.inl rfl), h1, h2, by simpa using h3, h4⟩
          · rintro ⟨sign, ds, h, hs, h1, h2, h3, h4⟩
            rcases hs with rfl | rfl | rfl
            · simp only [List.nil_append] at h
              subst h
              have := h2 '+' (List.mem_cons_self _ _)
              rw [hplus] at this
              cases this
            · simp only [List.singleton_append, List.cons.injEq, true_and] at h
              subst h
              exact ⟨h1, h2, by simpa using h3, h4⟩
            · simp only [List.singleton_append, List.cons.injEq] at h
              exact absurd h.1 (by decide)
        · simp only [hm, hp, decide_False, Bool.or_self, Bool.false_eq_true, if_false]
          constructor
          · rintro ⟨h1, h2, h3, h4⟩
            exact ⟨[], c :: cs, rfl, Or.inl rfl, h1, h2, by simpa using h3, h4⟩
          · rintro ⟨sign, ds, h, hs, h1, h2, h3, h4⟩
            rcases hs with rfl | rfl | rfl
            · simp only [List.nil_append] at h
              subst h
              exact ⟨h1, h2, by simpa using h3, h4⟩
            · simp only [List.singleton_append, List.cons.injEq] at h
              exact absurd h.1 hp
            · simp only [List.singleton_append, List.cons.injEq] at h
              exact absurd h.1 hm
  · intro L id v sel p hl
    simp only [storeText, hl]
    cases ParseInt s w <;> rfl
/-- C15 at the text "-128" for a slot of 8 bits; the texts "128" and "999a"
are out of the range of the width, the text "12a" is not a number. -/
theorem ParseInt_ok_iff_witness :
    ParseInt "128".toList 8 = .error (Err.num "ParseInt".toList "128".toList .outOfRange) ∧
    ParseInt "999a".toList 8 = .error (Err.num "ParseInt".toList "999a".toList .outOfRange) ∧
    ParseInt "12a".toList 8 = .error (Err.num "ParseInt".toList "12a".toList .invalidSyntax) ∧
    ParseInt "-128".toList 8 = .ok (-128) ∧
    storeText exampleLib (.scalar {} (.int 8)) (.int 0) [1] planPText "-128".toList =
      match ParseInt "-128".toList 8 with
      | .ok m => .done (.int m, none)
      | .error err => .done (.int 0, some (Err.coerce planPText.selector err)) :=
  ⟨rfl, rfl, rfl,
   (ParseInt_ok_iff "-128".toList 8 (-128) (by decide) (by decide)).1.mpr
      ⟨['-'], "128".toList, rfl, Or.inr (Or.inr rfl), by decide, by decide, by decide,
        by decide, by decide⟩,
   (ParseInt_ok_iff "-128".toList 8 (-128) (by decide) (by decide)).2 exampleLib {} (.int 0)
      [1] planPText rfl⟩

/-- C16 (counterexample): the numeric texts "1" and "0" are accepted for a
boolean slot. -/
theorem ParseBool_accepts_one_and_zero :
    ("1".toList.all Char.isDigit = true ∧ ParseBool "1".toList = .ok true) ∧
    ("0".toList.all Char.isDigit = true ∧ ParseBool "0".toList = .ok false) ∧
    storeText exampleLib tyBool (.bool false) [1] planPText "1".toList =
      .done (.bool true, none) :=
  ⟨⟨by decide, rfl⟩, ⟨by decide, rfl⟩, rfl⟩

/-- C16 (amended): for a boolean slot the coercion accepts exactly the texts
1, t, T, TRUE, true, True, read as true, and 0, f, F, FALSE, false, False, read
as false; every other text, so every numeric text other than 1 and 0, fails
with the syntax error of `ParseBool`, which a plan without terminal returns
prefixed by its selector, the slot unchanged. -/
theorem ParseBool_literals (s : Str) :
    (s ∈ trueLiterals → ParseBool s = .ok true) ∧
    (s ∈ falseLiterals → ParseBool s = .ok false) ∧
    (s ∉ trueLiterals → s ∉ falseLiterals →
      ParseBool s = .error (Err.num "ParseBool".toList s .invalidSyntax) ∧
      ∀ (L : Lib) (id : TypeId) (v : Val) (sel : Selection) (p : path), p.loader = none →
        storeText L (.scalar id .bool) v sel p s =
          .done (v, some (Err.coerce p.selector
            (Err.num "ParseBool".toList s .invalidSyntax)))) := by
  refine ⟨?_, ?_, ?_⟩
  · intro h
    simp only [trueLiterals, List.mem_cons, List.mem_singleton, List.not_mem_nil,
      or_false] at h
    rcases h with rfl | rfl | rfl | rfl | rfl | rfl <;> rfl
  · intro h
    simp only [falseLiterals, List.mem_cons, List.mem_singleton, List.not_mem_nil,
      or_false] at h
    rcases h with rfl | rfl | rfl | rfl | rfl | rfl <;> rfl
  · intro ht hf
    have hb : ParseBool s = .error (Err.num "ParseBool".toList s .invalidSyntax) := by
      simp only [trueLiterals, falseLiterals, List.mem_cons, List.mem_singleton,
        List.not_mem_nil, or_false, not_or] at ht hf
      unfold ParseBool
      rw [if_neg, if_neg]
      · simp only [Bool.or_eq_true, decide_eq_true_eq, not_or]
        exact ⟨⟨⟨⟨⟨hf.1, hf.2.1⟩, hf.2.2.1⟩, hf.2.2.2.1⟩, hf.2.2.2.2.1⟩, hf.2.2.2.2.2⟩
      · simp only [Bool.or_eq_true, decide_eq_true_eq, not_or]
        exact ⟨⟨⟨⟨⟨ht.1, ht.2.1⟩, ht.2.2.1⟩, ht.2.2.2.1⟩, ht.2.2.2.2.1⟩, ht.2.2.2.2.2⟩
    refine ⟨hb, ?_⟩
    intro L id v sel p hl
    simp only [storeText, hl, hb]

/-- C16 (amended) at the texts "true", "0" and "-48". -/
theorem ParseBool_literals_witness :
    ParseBool "true".toList = .ok true ∧ ParseBool "0".toList = .ok false ∧
    ParseBool "-48".toList = .error (Err.num "ParseBool".toList "-48".toList .invalidSyntax) :=
  ⟨(ParseBool_literals "true".toList).1 (by decide),
   (ParseBool_literals "0".toList).2.1 (by decide),
   ((ParseBool_literals "-48".toList).2.2 (by decide) (by decide)).1⟩

/-- What `trimAccessor` makes of the accessor `attr(name)`: the name without
the white space around it. -/
theorem trimAccessor_attr (name : Str) :
    trimAccessor (attrAccessor name) accessorAttr = TrimSpace name := by
  have h1 : trimStart (attrAccessor name) accessorAttr = '(' :: name ++ [')'] := by
    have hp : startsWith (attrAccessor name) accessorAttr = true := by
      simp [startsWith, attrAccessor, List.isPrefixOf_iff_prefix]
    unfold trimStart
    rw [if_pos hp]
    simp [attrAccessor]
  have h2 : trimStart ('(' :: name ++ [')']) ['('] = name ++ [')'] := by
    simp [trimStart, startsWith]
  have h3 : trimEnd (name ++ [')']) [')'] = name := by
    have hs : endsWith (name ++ [')']) [')'] = true := by
      simp [endsWith, List.isSuffixOf_iff_suffix]
    simp [trimEnd, hs]
  simp only [trimAccessor, h1, h2, h3]

/-- C17: with the accessor `attr(name)`, `extractString` asks the context for
the attribute `name` (taken without white space around it): when the context
does not carry it, the result is the empty string with the attribute-not-found
error naming the accessor, and when it does, the result is the value of the
attribute without the white space around it, and no error. -/
theorem extractString_attr (D : Dom) (sel : Selection) (name : Str) :
    (D.attr sel (TrimSpace name) = none →
      extractString D sel (attrAccessor name) =
        ([], some (Err.attributeNotFound (attrAccessor name)))) ∧
    (∀ value, D.attr sel (TrimSpace name) = some value →
      extractString D sel (attrAccessor name) = (TrimSpace value, none)) := by
  have hh : attrAccessor name ≠ accessorHTML := by
    simp [attrAccessor, accessorAttr, accessorHTML]
  have ht : attrAccessor name ≠ accessorText := by
    simp [attrAccessor, accessorAttr, accessorText]
  have hp : startsWith (attrAccessor name) accessorAttr = true := by
    simp [startsWith, attrAccessor, List.isPrefixOf_iff_prefix]
  refine ⟨?_, ?_⟩
  · intro h
    simp only [extractString, hh, ht, hp, if_false, if_true, trimAccessor_attr, h]
  · intro value h
    simp only [extractString, hh, ht, hp, if_false, if_true, trimAccessor_attr, h]

/-- C17 on the link whose only attribute is `href`: the accessor
`attr(missing)` gives the error, the accessor `attr(href)` the trimmed
value. -/
theorem extractString_attr_witness :
    extractString oneLink.dom [1] (attrAccessor "missing".toList) =
      ([], some (Err.attributeNotFound "attr(missing)".toList)) ∧
    extractString oneLink.dom [1] (attrAccessor "href".toList) = ("/home".toList, none) :=
  ⟨(extractString_attr oneLink.dom [1] "missing".toList).1 (by decide),
   (extractString_attr oneLink.dom [1] "href".toList).2 " /home ".toList (by decide)⟩

/-- C18 (counterexample): the accessor `attribute` is not empty, not `text`,
not `html` and not of the form `attr(name)`, yet `extractString` does not
return the bad-accessor error: it consults the context for the attribute
`ibute`, and returns its value when the context carries it. -/
theorem extractString_attr_like_accessor :
    attrForm "attribute".toList = false ∧
    "attribute".toList ≠ accessorText ∧ "attribute".toList ≠ accessorHTML ∧
    extractString oneLink.dom [1] "attribute".toList =
      ([], some (Err.attributeNotFound "attribute".toList)) ∧
    extractString
        ({ attrs := [(([1], "ibute".toList), "x".toList)] } : DocTable).dom [1]
        "attribute".toList = ("x".toList, none) :=
  ⟨by decide, by decide, by decide, by decide, by decide⟩

/-- C18 (amended): for an accessor that is not empty, not `text`, not `html`
and does not start with `attr`, `extractString` returns the empty string and
the bad-accessor error naming the accessor, whatever the document and the
context are. -/
theorem extractString_bad_accessor (D : Dom) (sel : Selection) (acc : Str)
    (hne : acc ≠ []) (ht : acc ≠ accessorText) (hh : acc ≠ accessorHTML)
    (ha : startsWith acc accessorAttr = false) :
    extractString D sel acc = ([], some (Err.badAccessor acc)) := by
  simp [extractString, hne, ht, hh, ha]

/-- C18 (amended) at the accessor of the test. -/
theorem extractString_bad_accessor_witness :
    extractString oneLink.dom [1] "madeupaccessor".toList =
      ([], some (Err.badAccessor "madeupaccessor".toList)) :=
  extractString_bad_accessor oneLink.dom [1] "madeupaccessor".toList (by decide) (by decide)
    (by decide) (by decide)

/-- C20: the built-in transforms "prepend" and "append" never fail; the
result of prepend starts with the token and that of append ends with it,
applying the transform again to the result changes nothing, and a text that
already has the affix is returned as it is. -/
theorem prepend_append_idempotent (F : ExtFuncs) (s t : Str) :
    builtinParseFuncs F "prepend".toList = some (some prependFunc) ∧
    builtinParseFuncs F "append".toList = some (some appendFunc) ∧
    (∃ r, prependFunc s t = .ok r ∧ startsWith r t = true ∧ prependFunc r t = .ok r ∧
      (startsWith s t = true → r = s)) ∧
    (∃ r, appendFunc s t = .ok r ∧ endsWith r t = true ∧ appendFunc r t = .ok r ∧
      (endsWith s t = true → r = s)) := by
  refine ⟨rfl, rfl, ?_, ?_⟩
  · by_cases h : startsWith s t = true
    · exact ⟨s, by simp [prependFunc, h], h, by simp [prependFunc, h], fun _ => rfl⟩
    · have h2 : startsWith (t ++ s) t = true := by
        simp [startsWith, List.isPrefixOf_iff_prefix]
      exact ⟨t ++ s, by simp [prependFunc, h], h2, by simp [prependFunc, h2],
        fun h3 => absurd h3 h⟩
  · by_cases h : endsWith s t = true
    · exact ⟨s, by simp [appendFunc, h], h, by simp [appendFunc, h], fun _ => rfl⟩
    · have h2 : endsWith (s ++ t) t = true := by
        simp [endsWith, List.isSuffixOf_iff_suffix]
      exact ⟨s ++ t, by simp [appendFunc, h], h2, by simp [appendFunc, h2],
        fun h3 => absurd h3 h⟩

/-- The last element of a list with one more element in front. -/
theorem getLast?_cons_or {α : Type} (a : α) (l : List α) :
    (a :: l).getLast? = l.getLast?.or (some a) := by
  have h : a :: l = [a] ++ l := rfl
  rw [h, List.getLast?_append]
  rfl

/-- The loop of `parseTag` over function segments (from index 2 on) keeps the
selector and the accessor, appends the transforms that the segments name, and
leaves as terminal the last one that a segment names. -/
theorem parseParts_funcs (R : FuncRegistry) :
    ∀ (segs : List Str) (i : Nat) (p0 p : path), 2 ≤ i → parseParts R i segs p0 = .ok p →
      p.selector = p0.selector ∧ p.acc = p0.acc ∧
      p.parsers = p0.parsers ++ segmentParsers R segs ∧
      p.loader = (segmentLoader R segs).or p0.loader
  | [], i, p0, p, _, h => by
    simp only [parseParts, Except.ok.injEq] at h
    subst h
    simp [segmentParsers, segmentLoader]
  | seg :: rest, i, p0, p, hi, h => by
    have h0 : ¬ i = 0 := by omega
    have h1 : ¬ i = 1 := by omega
    simp only [parseParts, h0, h1, if_false] at h
    cases hpf : R.parseFuncs (parseFunctionSignature (TrimSpace seg)).1 with
    | some pf =>
      simp only [hpf] at h
      have ih := parseParts_funcs R rest (i + 1) _ p (by omega) h
      refine ⟨ih.1, ih.2.1, ?_, ?_⟩
      · rw [ih.2.2.1]
        simp [segmentParsers, segmentParser, hpf]
      · rw [ih.2.2.2]
        simp [segmentLoader, segmentTerminal, hpf]
    | none =>
      simp only [hpf] at h
      cases hlf : R.loadFuncs (parseFunctionSignature (TrimSpace seg)).1 with
      | none => simp [hlf] at h
      | some lf =>
        simp only [hlf] at h
        have ih := parseParts_funcs R rest (i + 1) _ p (by omega) h
        refine ⟨ih.1, ih.2.1, ?_, ?_⟩
        · rw [ih.2.2.1]
          simp [segmentParsers, segmentParser, hpf]
        · rw [ih.2.2.2]
          simp only [segmentLoader, List.filterMap_cons, segmentTerminal, hpf, hlf,
            Option.map_some', getLast?_cons_or]
          cases (List.filterMap (segmentTerminal R) rest).getLast? <;> rfl

/-- C11 (counterexample): in the annotation "p | text | time(01) | prepend(x)"
the segment that names the terminal is followed by a transform segment, and
the annotation compiles to a plan that keeps both. -/
theorem parseTag_terminal_then_transform :
    segmentsOf "sq:\"p | text | time(01) | prepend(x)\"".toList =
      ["p".toList, "text".toList, "time(01)".toList, "prepend(x)".toList] ∧
    parseTag exampleBuiltins "sq:\"p | text | time(01) | prepend(x)\"".toList =
      .ok { selector := "p".toList, acc := "text".toList,
            parsers := [⟨some prependFunc, "x".toList⟩],
            loader := some ⟨some (timeFunc exampleFuncs), "01".toList⟩ } :=
  ⟨by decide, rfl⟩

/-- C11 (amended): a plan that `parseTag` returns has at most one terminal,
the one named by the last segment that names a terminal constructor (an earlier
one is replaced), and its pipeline holds, in the order written, the transforms
named by the segments after the accessor, whether they stand before or after a
segment that names a terminal. -/
theorem parseTag_terminal_is_last_named (R : FuncRegistry) (tag : Str) (p : path)
    (h : parseTag R tag = .ok p) :
    p.parsers = segmentParsers R ((segmentsOf tag).drop 2) ∧
    p.loader = segmentLoader R ((segmentsOf tag).drop 2) := by
  unfold parseTag at h
  cases hp : parseParts R 0 (segmentsOf tag) {} with
  | error e => simp [hp] at h
  | ok q =>
    simp only [hp] at h
    have hq : q = p := by
      split at h
      · split at h <;> simp at h
      · simpa using h
    subst hq
    cases hs : segmentsOf tag with
    | nil =>
      simp only [hs, parseParts, Except.ok.injEq] at hp
      subst hp
      simp [segmentParsers, segmentLoader]
    | cons s0 rest =>
      cases rest with
      | nil =>
        simp only [hs, parseParts, if_true, Except.ok.injEq] at hp
        subst hp
        simp [segmentParsers, segmentLoader]
      | cons s1 funcs =>
        simp only [hs, parseParts, if_true, Nat.zero_add, one_ne_zero, if_false] at hp
        split at hp
        · have := parseParts_funcs R funcs 2 _ q (Nat.le_refl _) hp
          simp only [List.drop_succ_cons, List.drop_zero]
          exact ⟨by simpa using this.2.2.1, by simpa using this.2.2.2⟩
        · simp at hp

/-- C11 (amended) at an annotation with two terminal segments and a transform
after them: the second terminal is kept, and so is the transform. -/
theorem parseTag_terminal_is_last_named_witness :
    segmentsOf "sq:\"p | text | time(01) | ago() | prepend(x)\"".toList =
      ["p".toList, "text".toList, "time(01)".toList, "ago()".toList, "prepend(x)".toList] ∧
    parseTag exampleBuiltins "sq:\"p | text | time(01) | ago() | prepend(x)\"".toList =
      .ok { selector := "p".toList, acc := "text".toList,
            parsers := [⟨some prependFunc, "x".toList⟩],
            loader := some ⟨some (agoFunc exampleFuncs), []⟩ } ∧
    ({ selector := "p".toList, acc := "text".toList,
       parsers := [⟨some prependFunc, "x".toList⟩],
       loader := some ⟨some (agoFunc exampleFuncs), []⟩ } : path).parsers =
      segmentParsers exampleBuiltins
        ((segmentsOf "sq:\"p | text | time(01) | ago() | prepend(x)\"".toList).drop 2) ∧
    ({ selector := "p".toList, acc := "text".toList,
       parsers := [⟨some prependFunc, "x".toList⟩],
       loader := some ⟨some (agoFunc exampleFuncs), []⟩ } : path).loader =
      segmentLoader exampleBuiltins
        ((segmentsOf "sq:\"p | text | time(01) | ago() | prepend(x)\"".toList).drop 2) :=
  ⟨by decide, rfl,
   (parseTag_terminal_is_last_named exampleBuiltins
      "sq:\"p | text | time(01) | ago() | prepend(x)\"".toList _ rfl).1,
   (parseTag_terminal_is_last_named exampleBuiltins
      "sq:\"p | text | time(01) | ago() | prepend(x)\"".toList _ rfl).2⟩

/-- `parseFunctionSignature` takes a call apart into its name and its
argument text, when the name has no opening parenthesis. -/
theorem parseFunctionSignature_callText (name args : Str) (h : '(' ∉ name) :
    parseFunctionSignature (callText name args) = (name, args) := by
  have hi : IndexByte (callText name args) '(' = some name.length := by
    unfold IndexByte callText
    have : List.indexOf '(' (name ++ '(' :: args ++ [')']) = name.length := by
      rw [List.append_assoc, List.indexOf_append_of_not_mem h, List.cons_append,
        List.indexOf_cons_self]
      simp
    simp only [this]
    rw [if_pos (by simp)]
  have hj : LastIndexByte (callText name args) ')' =
      some ((callText name args).length - 1) := by
    unfold LastIndexByte callText
    have : List.indexOf ')' (name ++ '(' :: args ++ [')']).reverse = 0 := by
      simp [List.indexOf_cons_self]
    simp only [this]
    rw [if_pos (by simp)]
    simp
  unfold parseFunctionSignature
  simp only [hi, hj]
  have hlen : (callText name args).length = name.length + args.length + 2 := by
    simp [callText]
    omega
  rw [if_pos (by omega)]
  have h1 : List.take name.length (callText name args) = name := by
    simp [callText, List.take_append_eq_append_take]
  have h2 : List.drop (name.length + 1)
      (List.take ((callText name args).length - 1) (callText name args)) = args := by
    have ht : List.take ((callText name args).length - 1) (callText name args) =
        name ++ '(' :: args := by
      have hc : callText name args = (name ++ '(' :: args) ++ [')'] := by
        simp [callText]
      have hl : (callText name args).length - 1 = (name ++ '(' :: args).length := by
        simp [callText]
      rw [hl, hc, List.take_left']
      rfl
    rw [ht]
    have : name ++ '(' :: args = (name ++ ['(']) ++ args := by simp
    rw [this, List.drop_left']
    simp
  rw [h1, h2]

/-- The loop of `parseTag` over segments that are calls of registered
transforms appends these transforms, with their argument texts, in order. -/
theorem parseParts_transforms (R : FuncRegistry) :
    ∀ (fs : List Str) (calls : List (Str × Str × ParseFunc)) (i : Nat) (p : path), 2 ≤ i →
      fs.map TrimSpace = calls.map (fun c => callText c.1 c.2.1) →
      (∀ c ∈ calls, '(' ∉ c.1 ∧ R.parseFuncs c.1 = some c.2.2) →
      parseParts R i fs p =
        .ok { p with parsers := p.parsers ++ calls.map (fun c => ⟨c.2.2, c.2.1⟩) }
  | [], [], i, p, _, _, _ => by simp [parseParts]
  | [], _ :: _, i, p, _, h, _ => by simp at h
  | _ :: _, [], i, p, _, h, _ => by simp at h
  | f :: fs, c :: calls, i, p, hi, h, hreg => by
    have h0 : ¬ i = 0 := by omega
    have h1 : ¬ i = 1 := by omega
    simp only [List.map_cons, List.cons.injEq] at h
    have hc := hreg c (List.mem_cons_self _ _)
    have hsig := parseFunctionSignature_callText c.1 c.2.1 hc.1
    simp only [parseParts, h0, h1, if_false, h.1, hsig, hc.2]
    rw [parseParts_transforms R fs calls (i + 1) _ (by omega) h.2
      (fun x hx => hreg x (List.mem_cons_of_mem _ hx))]
    simp

/-- C12: for an annotation whose segments are a selector `sel`, an accessor
`acc` and then `k` calls `n(a)` of registered transforms whose names have no
opening parenthesis (white space around a segment does not count), `parseTag`
returns the plan with selector `sel`, accessor `acc`, no terminal, and the
pipeline of the `k` registered functions with their argument texts, in the
order written. -/
theorem parseTag_pipeline (R : FuncRegistry) (tag s0 s1 sel acc : Str) (fs : List Str)
    (calls : List (Str × Str × ParseFunc))
    (hseg : segmentsOf tag = s0 :: s1 :: fs)
    (hsel : TrimSpace s0 = sel) (hne : sel ≠ [])
    (hacc : TrimSpace s1 = acc)
    (hval : startsWith acc (accessorAttr ++ ['(']) = true ∨ acc = accessorHTML ∨
      acc = accessorText)
    (hfs : fs.map TrimSpace = calls.map (fun c => callText c.1 c.2.1))
    (hreg : ∀ c ∈ calls, '(' ∉ c.1 ∧ R.parseFuncs c.1 = some c.2.2) :
    parseTag R tag =
      .ok { selector := sel, acc := acc,
            parsers := calls.map (fun c => ⟨c.2.2, c.2.1⟩), loader := none } ∧
    (calls.map (fun c => (⟨c.2.2, c.2.1⟩ : parser))).length = fs.length := by
  have hcond : (startsWith acc (accessorAttr ++ ['(']) || decide (accessorHTML = acc) ||
      decide (accessorText = acc)) = true := by
    rcases hval with h | h | h
    · simp [h]
    · simp [h]
    · simp [h]
  refine ⟨?_, ?_⟩
  · unfold parseTag
    simp only [hseg, parseParts, if_true, Nat.zero_add, one_ne_zero, if_false, hsel, hacc,
      hcond]
    rw [parseParts_transforms R fs calls 2 _ (Nat.le_refl _) hfs hreg]
    simp [hne]
  · have := congrArg List.length hfs
    simpa using this.symm

/-- C12 at the annotation of the test with two `regexp` segments. -/
theorem parseTag_pipeline_witness :
    segmentsOf "sq:\"p.last | text | regexp(\\\\d+) | regexp(\\\\d)\"".toList =
      ["p.last".toList, "text".toList, "regexp(\\d+)".toList, "regexp(\\d)".toList] ∧
    parseTag exampleBuiltins "sq:\"p.last | text | regexp(\\\\d+) | regexp(\\\\d)\"".toList =
      .ok { selector := "p.last".toList, acc := "text".toList,
            parsers := [⟨some (regexpFunc exampleFuncs), "\\d+".toList⟩,
              ⟨some (regexpFunc exampleFuncs), "\\d".toList⟩],
            loader := none } :=
  ⟨by decide,
   (parseTag_pipeline exampleBuiltins
      "sq:\"p.last | text | regexp(\\\\d+) | regexp(\\\\d)\"".toList
      "p.last".toList "text".toList "p.last".toList "text".toList
      ["regexp(\\d+)".toList, "regexp(\\d)".toList]
      [("regexp".toList, "\\d+".toList, some (regexpFunc exampleFuncs)),
       ("regexp".toList, "\\d".toList, some (regexpFunc exampleFuncs))]
      (by decide) (by decide) (by decide) (by decide) (Or.inr (Or.inr rfl)) (by decide)
      (by
        intro c hc
        simp only [List.mem_cons, List.mem_singleton, List.not_mem_nil, or_false] at hc
        rcases hc with rfl | rfl <;> exact ⟨by decide, rfl⟩)).1⟩

/-- C29: `parseFunctionSignature` inverts the `name(args)` convention.  For a
name without an opening parenthesis and any argument text (which may hold
parentheses itself), the call text `name(args)` is taken apart into
`(name, args)`; a text without an opening parenthesis is returned whole, with
the empty argument text. -/
theorem parseFunctionSignature_inverts (name args s : Str) (hname : '(' ∉ name)
    (hs : '(' ∉ s) :
    parseFunctionSignature (callText name args) = (name, args) ∧
    callText name args = name ++ "(".toList ++ args ++ ")".toList ∧
    parseFunctionSignature s = (s, []) := by
  refine ⟨parseFunctionSignature_callText name args hname, by simp [callText], ?_⟩
  have hi : IndexByte s '(' = none := by
    unfold IndexByte
    have : List.indexOf '(' s = s.length := List.indexOf_eq_length.mpr hs
    simp [this]
  simp [parseFunctionSignature, hi]

/-- C29 at the segment `regexp(a(b)c)`, whose argument text holds parentheses,
and at the segment `ago`. -/
theorem parseFunctionSignature_inverts_witness :
    '(' ∉ "regexp".toList ∧ '(' ∉ "ago".toList ∧
    parseFunctionSignature "regexp(a(b)c)".toList = ("regexp".toList, "a(b)c".toList) ∧
    parseFunctionSignature "ago".toList = ("ago".toList, []) :=
  ⟨by decide, by decide,
   (parseFunctionSignature_inverts "regexp".toList "a(b)c".toList "ago".toList
      (by decide) (by decide)).1,
   (parseFunctionSignature_inverts "regexp".toList "a(b)c".toList "ago".toList
      (by decide) (by decide)).2.2⟩

/-- The loop of `parseTag` leaves a valid accessor in the plan when it starts
from one. -/
theorem parseParts_accessor (R : FuncRegistry) :
    ∀ (segs : List Str) (i : Nat) (p0 p : path), parseParts R i segs p0 = .ok p →
      validAccessor p0.acc → validAccessor p.acc
  | [], i, p0, p, h, hv => by
    simp only [parseParts, Except.ok.injEq] at h
    subst h
    exact hv
  | seg :: rest, i, p0, p, h, hv => by
    by_cases h0 : i = 0
    · subst h0
      simp only [parseParts, if_true] at h
      exact parseParts_accessor R rest _ _ p h hv
    · by_cases h1 : i = 1
      · subst h1
        simp only [parseParts, OfNat.one_ne_ofNat, if_false, if_true] at h
        by_cases hc : (startsWith (TrimSpace seg) (accessorAttr ++ ['(']) ||
            decide (accessorHTML = TrimSpace seg) || decide (accessorText = TrimSpace seg)) = true
        · rw [if_pos hc] at h
          refine parseParts_accessor R rest _ _ p h ?_
          simp only [Bool.or_eq_true, decide_eq_true_eq] at hc
          rcases hc with (hc | hc) | hc
          · exact Or.inr (Or.inr (Or.inr hc))
          · exact Or.inr (Or.inr (Or.inl hc.symm))
          · exact Or.inr (Or.inl hc.symm)
        · rw [if_neg hc] at h
          cases h
      · simp only [parseParts, h0, h1, if_false] at h
        cases hpf : R.parseFuncs (parseFunctionSignature (TrimSpace seg)).1 with
        | some pf =>
          simp only [hpf] at h
          exact parseParts_accessor R rest _ _ p h hv
        | none =>
          simp only [hpf] at h
          cases hlf : R.loadFuncs (parseFunctionSignature (TrimSpace seg)).1 with
          | none => simp [hlf] at h
          | some lf =>
            simp only [hlf] at h
            exact parseParts_accessor R rest _ _ p h hv

/-- C28: compile-time and run-time accessor validation agree.  The accessor
of a plan that `parseTag` returns is empty, `text`, `html`, or starts with
`attr(`; on every context `extractString` then takes one of its four accessor
branches, so the error it returns is never the bad-accessor error (the error of
the markup serialiser, the only one it passes on, not being that one). -/
theorem parseTag_accessor_valid (R : FuncRegistry) (D : Dom) (tag : Str) (p : path)
    (sel : Selection) (h : parseTag R tag = .ok p)
    (hhtml : ∀ part, (D.html sel).2 ≠ some (Err.badAccessor part)) :
    validAccessor p.acc ∧
    (extractString D sel p.acc = (TrimSpace (D.html sel).1, (D.html sel).2) ∨
      extractString D sel p.acc = (TrimSpace (D.text sel), none) ∨
      extractString D sel p.acc = ([], some (Err.attributeNotFound p.acc)) ∨
      (∃ s, extractString D sel p.acc = (TrimSpace s, none)) ∨
      extractString D sel p.acc = ([], none)) ∧
    ∀ part, (extractString D sel p.acc).2 ≠ some (Err.badAccessor part) := by
  have hv : validAccessor p.acc := by
    unfold parseTag at h
    cases hp : parseParts R 0 (segmentsOf tag) {} with
    | error e => simp [hp] at h
    | ok q =>
      simp only [hp] at h
      by_cases hsel : q.selector = []
      · rw [if_pos hsel] at h
        split at h <;> cases h
      · rw [if_neg hsel] at h
        cases h
        exact parseParts_accessor R _ 0 {} _ hp (Or.inl rfl)
  have hx : (extractString D sel p.acc = (TrimSpace (D.html sel).1, (D.html sel).2) ∧
        p.acc = accessorHTML) ∨
      extractString D sel p.acc = (TrimSpace (D.text sel), none) ∨
      extractString D sel p.acc = ([], some (Err.attributeNotFound p.acc)) ∨
      (∃ s, extractString D sel p.acc = (TrimSpace s, none)) ∨
      extractString D sel p.acc = ([], none) := by
    rcases hv with hv | hv | hv | hv
    · right; right; right; right
      simp [extractString, hv, accessorHTML, accessorText, accessorAttr, startsWith]
    · right; left
      simp [extractString, hv, accessorHTML, accessorText]
    · left
      exact ⟨by simp [extractString, hv], hv⟩
    · have h1 : p.acc ≠ accessorHTML := by
        intro he
        rw [he] at hv
        revert hv
        decide
      have h2 : p.acc ≠ accessorText := by
        intro he
        rw [he] at hv
        revert hv
        decide
      have h3 : startsWith p.acc accessorAttr = true := by
        unfold startsWith at hv ⊢
        rw [List.isPrefixOf_iff_prefix] at hv ⊢
        exact (List.prefix_append _ _).trans hv
      unfold extractString
      rw [if_neg h1, if_neg h2, if_pos h3]
      cases D.attr sel (trimAccessor p.acc accessorAttr) with
      | none => right; right; left; rfl
      | some s => right; right; right; left; exact ⟨s, rfl⟩
  refine ⟨hv, ?_, ?_⟩
  · rcases hx with hx | hx | hx | hx | hx
    · exact Or.inl hx.1
    · exact Or.inr (Or.inl hx)
    · exact Or.inr (Or.inr (Or.inl hx))
    · exact Or.inr (Or.inr (Or.inr (Or.inl hx)))
    · exact Or.inr (Or.inr (Or.inr (Or.inr hx)))
  · intro part
    rcases hx with hx | hx | hx | ⟨s, hx⟩ | hx
    · rw [hx.1]
      exact hhtml part
    · rw [hx]; simp
    · rw [hx]; simp
    · rw [hx]; simp
    · rw [hx]; simp

/-- C28 at the annotation "a | attr(href)" on the one-link document. -/
theorem parseTag_accessor_valid_witness :
    parseTag noFuncs "sq:\"a | attr(href)\"".toList =
      .ok { selector := "a".toList, acc := "attr(href)".toList } ∧
    validAccessor "attr(href)".toList ∧
    extractString oneLink.dom [1] "attr(href)".toList = ("/home".toList, none) ∧
    ∀ part, (extractString oneLink.dom [1] "attr(href)".toList).2 ≠
      some (Err.badAccessor part) :=
  ⟨rfl,
   (parseTag_accessor_valid noFuncs oneLink.dom "sq:\"a | attr(href)\"".toList
      { selector := "a".toList, acc := "attr(href)".toList } [1] rfl
      (by intro part h; cases h)).1,
   rfl,
   (parseTag_accessor_valid noFuncs oneLink.dom "sq:\"a | attr(href)\"".toList
      { selector := "a".toList, acc := "attr(href)".toList } [1] rfl
      (by intro part h; cases h)).2.2⟩

/-- C22: the `regexp` transform on a text `s`.  A pattern that does not
compile fails with the compile error.  For a pattern that compiles, with `m`
the leftmost submatch list of the pattern in `s`: when nothing matches (`m` is
empty) the transform fails with `ErrNoRegexpMatch`; when the pattern has no
capture group (`m` has the whole match only) it returns the whole match; and
when there is a first capture group it returns that group, or fails with
`ErrNoRegexpMatch` when the group is empty, whatever the whole match is. -/
theorem regexpFunc_submatch (F : ExtFuncs) (s pattern : Str) :
    match F.regexpCompile pattern with
    | .error err => regexpFunc F s pattern = .error err
    | .ok r =>
      (r.findStringSubmatch s = [] → regexpFunc F s pattern = .error ErrNoRegexpMatch) ∧
      (∀ m0, r.findStringSubmatch s = [m0] → regexpFunc F s pattern = .ok m0) ∧
      (∀ m0 m1 rest, r.findStringSubmatch s = m0 :: m1 :: rest →
        regexpFunc F s pattern = if m1 = [] then .error ErrNoRegexpMatch else .ok m1) := by
  cases hc : F.regexpCompile pattern with
  | error err => simp [regexpFunc, hc]
  | ok r =>
    refine ⟨?_, ?_, ?_⟩
    · intro hm
      simp [regexpFunc, hc, hm]
    · intro m0 hm
      simp [regexpFunc, hc, hm]
    · intro m0 m1 rest hm
      simp [regexpFunc, hc, hm]

/-- C22 on the rows of `TestRegexp`: a pattern without group, a pattern whose
group matches "spain", a pattern whose group matches the empty text inside a
non-empty whole match, a pattern that matches nothing, and a pattern that does
not compile. -/
theorem regexpFunc_submatch_witness :
    regexpFunc testRegexpFuncs "test".toList "s".toList = .ok "s".toList ∧
    regexpFunc testRegexpFuncs rainInSpain " in (\\w+)".toList = .ok "spain".toList ∧
    regexpFunc testRegexpFuncs rainInSpain " rain(\\S?) ".toList = .error ErrNoRegexpMatch ∧
    regexpFunc testRegexpFuncs rainInSpain " dogs ".toList = .error ErrNoRegexpMatch ∧
    regexpFunc testRegexpFuncs rainInSpain "(".toList =
      .error (Err.external "error parsing regexp: missing closing ): `(`".toList) :=
  ⟨(regexpFunc_submatch testRegexpFuncs "test".toList "s".toList).2.1 _ rfl,
   (regexpFunc_submatch testRegexpFuncs rainInSpain " in (\\w+)".toList).2.2 _ _ _ rfl,
   (regexpFunc_submatch testRegexpFuncs rainInSpain " rain(\\S?) ".toList).2.2 _ _ _ rfl,
   (regexpFunc_submatch testRegexpFuncs rainInSpain " dogs ".toList).1 rfl,
   regexpFunc_submatch testRegexpFuncs rainInSpain "(".toList⟩

/-- The first element that satisfies a predicate is the head of the list of
those that do. -/
theorem find?_eq_head?_filter {α : Type} (p : α → Bool) :
    ∀ l : List α, l.find? p = (l.filter p).head?
  | [] => rfl
  | a :: l => by
    by_cases h : p a = true
    · rw [List.find?_cons_of_pos _ h, List.filter_cons_of_pos h]
      rfl
    · rw [List.find?_cons_of_neg _ h, List.filter_cons_of_neg h]
      exact find?_eq_head?_filter p l

/-- The first element that satisfies a predicate does not depend on the order
of the list when at most one element satisfies it. -/
theorem find?_perm_of_unique {α : Type} (p : α → Bool) (l1 l2 : List α) (h : l1.Perm l2)
    (hu : (l2.filter p).length ≤ 1) : l1.find? p = l2.find? p := by
  have hf : (l1.filter p).Perm (l2.filter p) := h.filter p
  have he : l1.filter p = l2.filter p := by
    cases h2 : l2.filter p with
    | nil =>
      rw [h2] at hf
      exact List.Perm.eq_nil hf
    | cons a t =>
      cases t with
      | nil =>
        rw [h2] at hf
        exact List.perm_singleton.mp hf
      | cons b t => simp [h2] at hu
  rw [find?_eq_head?_filter, find?_eq_head?_filter, he]

/-- C24: no type satisfies more than one of the built-in type loader
predicates (url, goquery, html, otto, css), so that the type loader found for a
type is the same in whatever order the built-in table is visited. -/
theorem builtin_isType_exclusive (X : Ext) (D : Dom) (t : Ty) :
    ((builtinTypeLoaders X D).filter (fun tl => tl.isType t)).length ≤ 1 ∧
    ∀ tls : List TypeLoader, tls.Perm (builtinTypeLoaders X D) →
      findTypeLoader tls t = findTypeLoader (builtinTypeLoaders X D) t := by
  have hu : ((builtinTypeLoaders X D).filter (fun tl => tl.isType t)).length ≤ 1 := by
    have e1 : (urlTypeLoader X).isType t = true → t.id.name = "URL".toList := by
      simp only [urlTypeLoader, Bool.and_eq_true, decide_eq_true_eq]
      exact fun h => h.2
    have e2 : goqueryTypeLoader.isType t = true → t.id.name = "Selection".toList := by
      simp only [goqueryTypeLoader, Bool.and_eq_true, decide_eq_true_eq]
      exact fun h => h.2
    have e3 : htmlTypeLoader.isType t = true → t.id.name = "Node".toList := by
      simp only [htmlTypeLoader, Bool.and_eq_true, decide_eq_true_eq]
      exact fun h => h.2
    have e4 : (ottoTypeLoader X D).isType t = true → t.id.name = "Program".toList := by
      simp only [ottoTypeLoader, Bool.and_eq_true, decide_eq_true_eq]
      exact fun h => h.2
    have e5 : (cssTypeLoader X D).isType t = true → t.id.name = "Stylesheet".toList := by
      simp only [cssTypeLoader, Bool.and_eq_true, decide_eq_true_eq]
      exact fun h => h.2
    rw [← List.countP_eq_length_filter]
    simp only [builtinTypeLoaders, List.countP_cons, List.countP_nil]
    generalize t.id.name = n at e1 e2 e3 e4 e5
    cases h1 : (urlTypeLoader X).isType t <;> cases h2 : goqueryTypeLoader.isType t <;>
      cases h3 : htmlTypeLoader.isType t <;> cases h4 : (ottoTypeLoader X D).isType t <;>
      cases h5 : (cssTypeLoader X D).isType t <;>
      simp only [h1, h2, h3, h4, h5, true_implies, Bool.false_eq_true, false_implies]
        at e1 e2 e3 e4 e5 <;>
      first
        | (simp; done)
        | (exfalso; subst e1; revert e2; decide)
        | (exfalso; subst e1; revert e3; decide)
        | (exfalso; subst e1; revert e4; decide)
        | (exfalso; subst e1; revert e5; decide)
        | (exfalso; subst e2; revert e3; decide)
        | (exfalso; subst e2; revert e4; decide)
        | (exfalso; subst e2; revert e5; decide)
        | (exfalso; subst e3; revert e4; decide)
        | (exfalso; subst e3; revert e5; decide)
        | (exfalso; subst e4; revert e5; decide)
  exact ⟨hu, fun tls hp => find?_perm_of_unique _ tls _ hp hu⟩

/-- C24 at the goquery selection type: it satisfies one built-in predicate, and
the table visited in reverse order finds the same type loader for it. -/
theorem builtin_isType_exclusive_witness :
    ((builtinTypeLoaders exampleExt twoDivs.dom).filter
        (fun tl => tl.isType tySelection)).length = 1 ∧
    findTypeLoader (builtinTypeLoaders exampleExt twoDivs.dom).reverse tySelection =
      findTypeLoader (builtinTypeLoaders exampleExt twoDivs.dom) tySelection :=
  ⟨by decide,
   (builtin_isType_exclusive exampleExt twoDivs.dom tySelection).2 _ (List.reverse_perm _)⟩

/-- C27 (failing inputs): the tag with the single key `xsq`, and the tag with
the single key `json` whose value holds "sq:", have no key named `sq`, and
`parseTag` answers both with the bad-tag error, not with `ErrTagNotFound`. -/
theorem parseTag_bad_tag_without_sq_key :
    StructTagLookup tagXsq tagKey = none ∧
    StructTagLookup tagXsq "xsq".toList = some "a".toList ∧
    parseTag noFuncs tagXsq = .error (Err.badTag tagXsq) ∧
    StructTagLookup tagJsonSq tagKey = none ∧
    StructTagLookup tagJsonSq "json".toList = some "sq:a".toList ∧
    parseTag noFuncs tagJsonSq = .error (Err.badTag tagJsonSq) ∧
    Err.badTag tagXsq ≠ ErrTagNotFound :=
  ⟨by decide, by decide, rfl, by decide, by decide, rfl, by decide⟩

/-- C25 (failing input): `Scrape` on a non-nil pointer to a `url.URL`, with
the built-in type loaders and a readable document, fails at run time: the type
loader "url" accepts the type, and the nil plan of the top-level call is
written to. -/
theorem Scrape_url_target_fails :
    isStructPtr (.ptr {} tyURL) = true ∧
    (∃ doc, twoDivsReader () = .ok doc) ∧
    Scrape exampleLib (exampleRegistry twoDivs.dom)
      (some (.ptr {} tyURL, .ptr (some (zero tyURL)))) twoDivsReader = .panic :=
  ⟨rfl, ⟨_, rfl⟩, rfl⟩

/-- A fixed-length sequence whose element type is a named type of kind Uint8
is taken for a byte array, and the copy from the `[]byte` of the text fails at
run time. -/
theorem hydrateValue_named_byte_array_fails :
    tyMyByte.isUint8 = true ∧ tyMyByte.isByte = false ∧
    hydrateValue exampleLib eightByteDoc.dom (exampleRegistry eightByteDoc.dom)
        (.array {} 4 tyMyByte) true (.array (List.replicate 4 (.uint 0))) [0]
        (some planEightBytes) = .panic :=
  ⟨rfl, rfl, rfl⟩

/-- C23: a byte array of length `N` (element type `byte`, that is `uint8`
itself) that reaches the array case (its plan has
no terminal, no type loader accepts its type, the selector is narrowed to
`sel`), when the accessor yields the trimmed text `s` on `sel`: hydration
returns no error and leaves the plan as it was; the array has length `N` still;
its first `min N |s|` bytes are the first bytes of `s`, and the bytes from `|s|`
on are unchanged.  The pipeline of the plan plays no part, and `sel` is read as
a whole, whatever the number of its nodes. -/
theorem hydrateValue_byte_array (L : Lib) (D : Dom) (R : Registry) (id : TypeId) (N : Nat)
    (e : Ty) (elems : List Val) (sel0 sel : Selection) (p : path) (s : Str)
    (he : e.isByte = true) (hlen : elems.length = N)
    (hnarrow : narrow D sel0 (some p) = .ok sel)
    (hload : p.loader = none)
    (htl : findTypeLoader R.typeLoaders (.array id N e) = none)
    (hx : extractString D sel p.acc = (s, none)) :
    ∃ bs : List Val,
      hydrateValue L D R (.array id N e) true (.array elems) sel0 (some p) =
        .done (.array bs, [], some p) ∧
      bs.length = N ∧
      (∀ i, i < min N (bytesOf s).length →
        bs.get? i = ((bytesOf s).get? i).map Val.uint) ∧
      (∀ i, (bytesOf s).length ≤ i → bs.get? i = elems.get? i) := by
  refine ⟨copyInto elems ((bytesOf s).map Val.uint), ?_, ?_, ?_, ?_⟩
  · have hl : planWithLoader (some p) = none := by
      simp [planWithLoader, Option.filter, hload]
    have hk : e.isUint8 = true := by
      cases e with
      | scalar eid k =>
        cases k with
        | uint bits =>
          by_cases hb : bits = 8
          · subst hb
            rfl
          · simp [Ty.isByte, hb] at he
        | _ => simp [Ty.isByte] at he
      | _ => simp [Ty.isByte] at he
    simp only [hydrateValue, Bool.not_true, Bool.false_eq_true, if_false, hnarrow, hl, htl, hk,
      he, if_true, hx, Val.elems]
  · simp only [copyInto, List.length_append, List.length_take, List.length_drop,
      List.length_map]
    omega
  · intro i hi
    have h1 : i < (List.take elems.length ((bytesOf s).map Val.uint)).length := by
      simp only [List.length_take, List.length_map]
      omega
    simp only [copyInto, List.get?_eq_getElem?]
    rw [List.getElem?_append_left h1, List.getElem?_take_of_lt (by omega), List.getElem?_map]
  · intro i hi
    simp only [copyInto, List.get?_eq_getElem?]
    by_cases hc : (bytesOf s).length ≤ elems.length
    · have h1 : (List.take elems.length ((bytesOf s).map Val.uint)).length ≤ i := by
        simp only [List.length_take, List.length_map]
        omega
      rw [List.getElem?_append_right h1, List.getElem?_drop]
      simp only [List.length_take, List.length_map]
      congr 1
      omega
    · have h1 : (List.take elems.length ((bytesOf s).map Val.uint)).length ≤ i := by
        simp only [List.length_take, List.length_map]
        omega
      rw [List.getElem?_append_right h1, List.getElem?_drop]
      simp only [List.length_take, List.length_map]
      rw [List.getElem?_eq_none (by omega), List.getElem?_eq_none (by omega)]

/-- C23 at the field `EightByteArray` of the tests, with a transform in the
pipeline of its plan: the eight bytes are those of "EightByt", the transform
has not been applied. -/
theorem hydrateValue_byte_array_witness :
    hydrateValue exampleLib eightByteDoc.dom (exampleRegistry eightByteDoc.dom)
        (.array {} 8 tyByte) true (.array (List.replicate 8 (.uint 0))) [0]
        (some planEightBytes) =
      .done (.array ((bytesOf "EightByt".toList).map Val.uint), [], some planEightBytes) ∧
    ∃ bs : List Val,
      hydrateValue exampleLib eightByteDoc.dom (exampleRegistry eightByteDoc.dom)
          (.array {} 8 tyByte) true (.array (List.replicate 8 (.uint 0))) [0]
          (some planEightBytes) = .done (.array bs, [], some planEightBytes) ∧
      bs.length = 8 ∧
      (∀ i, i < min 8 (bytesOf "EightByteArray".toList).length →
        bs.get? i = ((bytesOf "EightByteArray".toList).get? i).map Val.uint) ∧
      (∀ i, (bytesOf "EightByteArray".toList).length ≤ i →
        bs.get? i = (List.replicate 8 (Val.uint 0)).get? i) :=
  ⟨rfl,
   hydrateValue_byte_array exampleLib eightByteDoc.dom (exampleRegistry eightByteDoc.dom) {} 8
     tyByte (List.replicate 8 (.uint 0)) [0] [1] planEightBytes "EightByteArray".toList
     rfl rfl rfl rfl rfl rfl⟩

/-- C21 (counterexample): with the `path.Join` of the Go library,
"path.prepend" with the token "./a" turns "b" into "a/b" and "a/b" into
"a/a/b", and "path.append" with the token "a/" turns "b" into "b/a" and "b/a"
into "b/a/a": the second application changes the result of the first. -/
theorem path_prepend_append_not_idempotent :
    pathPrependFunc cleanPathFuncs "b".toList "./a".toList = .ok "a/b".toList ∧
    pathPrependFunc cleanPathFuncs "a/b".toList "./a".toList = .ok "a/a/b".toList ∧
    pathAppendFunc cleanPathFuncs "b".toList "a/".toList = .ok "b/a".toList ∧
    pathAppendFunc cleanPathFuncs "b/a".toList "a/".toList = .ok "b/a/a".toList ∧
    "a/a/b".toList ≠ "a/b".toList ∧ "b/a/a".toList ≠ "b/a".toList :=
  ⟨rfl, rfl, rfl, rfl, by decide, by decide⟩

/-- C21 (amended): the built-in transforms "path.prepend" and "path.append"
never fail.  A text that already has the token as affix is returned as it is,
any other text is joined with the token by `path.Join`; and applying the
transform again to the result changes nothing exactly when the result has the
token as affix or is left as it is by the join. -/
theorem path_prepend_append_affixed (F : ExtFuncs) (s t : Str) :
    builtinParseFuncs F "path.prepend".toList = some (some (pathPrependFunc F)) ∧
    builtinParseFuncs F "path.append".toList = some (some (pathAppendFunc F)) ∧
    (∃ r, pathPrependFunc F s t = .ok r ∧
      (startsWith s t = true → r = s) ∧
      (startsWith s t = false → r = F.pathJoin t s) ∧
      (pathPrependFunc F r t = .ok r ↔ (startsWith r t = true ∨ F.pathJoin t r = r))) ∧
    (∃ r, pathAppendFunc F s t = .ok r ∧
      (endsWith s t = true → r = s) ∧
      (endsWith s t = false → r = F.pathJoin s t) ∧
      (pathAppendFunc F r t = .ok r ↔ (endsWith r t = true ∨ F.pathJoin r t = r))) := by
  have hp : ∀ r, (pathPrependFunc F r t = .ok r ↔
      (startsWith r t = true ∨ F.pathJoin t r = r)) := by
    intro r
    unfold pathPrependFunc
    by_cases h : startsWith r t = true
    · simp [h]
    · simp [h]
  have ha : ∀ r, (pathAppendFunc F r t = .ok r ↔
      (endsWith r t = true ∨ F.pathJoin r t = r)) := by
    intro r
    unfold pathAppendFunc
    by_cases h : endsWith r t = true
    · simp [h]
    · simp [h]
  refine ⟨rfl, rfl, ?_, ?_⟩
  · by_cases h : startsWith s t = true
    · exact ⟨s, by simp [pathPrependFunc, h], fun _ => rfl, fun h2 => by simp [h] at h2, hp s⟩
    · exact ⟨F.pathJoin t s, by simp [pathPrependFunc, h], fun h2 => absurd h2 h,
        fun _ => rfl, hp _⟩
  · by_cases h : endsWith s t = true
    · exact ⟨s, by simp [pathAppendFunc, h], fun _ => rfl, fun h2 => by simp [h] at h2, ha s⟩
    · exact ⟨F.pathJoin s t, by simp [pathAppendFunc, h], fun h2 => absurd h2 h,
        fun _ => rfl, ha _⟩

/-- C21 (amended) with the `path.Join` of the Go library: "path.prepend" with
the token "a" turns "b" into "a/b", which has the token in front and is
returned as it is by a second application. -/
theorem path_prepend_append_affixed_witness :
    pathPrependFunc cleanPathFuncs "b".toList "a".toList = .ok "a/b".toList ∧
    (pathPrependFunc cleanPathFuncs "a/b".toList "a".toList = .ok "a/b".toList ↔
      (startsWith "a/b".toList "a".toList = true ∨
        cleanPathFuncs.pathJoin "a".toList "a/b".toList = "a/b".toList)) ∧
    pathPrependFunc cleanPathFuncs "a/b".toList "a".toList = .ok "a/b".toList := by
  obtain ⟨r, h1, _, h3, h4⟩ :=
    (path_prepend_append_affixed cleanPathFuncs "b".toList "a".toList).2.2.1
  have hr : r = "a/b".toList := h3 rfl
  subst hr
  exact ⟨h1, h4, h4.mpr (Or.inl rfl)⟩

/-- An optional value agrees with itself. -/
theorem optAgree_refl {α : Type} (r : α → α → Prop) (hr : ∀ a, r a a) :
    ∀ o : Option α, optAgree r o o
  | none => trivial
  | some a => hr a

/-- A terminal agrees with itself. -/
theorem loader_agree_refl (l : loader) : loader.agree l l := fun _ _ _ => rfl

/-- A plan agrees with itself. -/
theorem path_agree_refl (p : path) : path.agree p p :=
  ⟨rfl, rfl, rfl, optAgree_refl _ loader_agree_refl _⟩

/-- Runs that agree still agree after functions that keep the relation. -/
theorem Run.agree_map {α β : Type} (r : α → α → Prop) (q : β → β → Prop) (f g : α → β)
    (h : ∀ a b, r a b → q (f a) (g b)) :
    ∀ x y : Run α, Run.agree r x y → Run.agree q (x.map f) (y.map g)
  | .done a, .done b, hxy => h a b hxy
  | .panic, .panic, _ => trivial
  | .done _, .panic, hxy => hxy.elim
  | .panic, .done _, hxy => hxy.elim

/-- Extraction reads a context that holds a node alike in two documents that
agree. -/
theorem extractString_agree (D D' : Dom) (hD : Dom.agree D D') (sel : Selection)
    (hs : sel ≠ []) (acc : Str) : extractString D sel acc = extractString D' sel acc := by
  obtain ⟨_, _, ht, hh, ha⟩ := hD sel hs
  simp only [extractString, ht, hh, ha]

/-- The selector step narrows a context that holds a node alike in two
documents that agree, and to a context that holds a node. -/
theorem narrow_agree (D D' : Dom) (hD : Dom.agree D D') (sel : Selection) (hs : sel ≠ []) :
    ∀ p p' : Option path, optAgree path.agree p p' →
      narrow D sel p = narrow D' sel p' ∧ ∀ s1, narrow D sel p = .ok s1 → s1 ≠ []
  | none, none, _ => ⟨rfl, fun s1 h => by
      simp only [narrow, Except.ok.injEq] at h
      exact h ▸ hs⟩
  | some a, some b, h => by
    obtain ⟨hf, hm, _, _, _⟩ := hD sel hs
    have hsel : a.selector = b.selector := h.1
    refine ⟨by simp only [narrow, hsel, hf, hm], fun s1 h1 => ?_⟩
    simp only [narrow] at h1
    split at h1
    · split at h1
      · cases h1
      · rename_i hne
        simp only [Except.ok.injEq] at h1
        subst h1
        intro he
        exact hne (by simp [he])
    · simp only [Except.ok.injEq] at h1
      exact h1 ▸ hs
  | none, some _, h => h.elim
  | some _, none, h => h.elim

/-- The text goes through two plans that agree alike, on a context that holds
a node. -/
theorem setValueFromSel_agree (L : Lib) (D D' : Dom) (hD : Dom.agree D D') (t : Ty) (v : Val)
    (sel : Selection) (hs : sel ≠ []) (p p' : path) (hp : path.agree p p') :
    setValueFromSel L D t v sel p = setValueFromSel L D' t v sel p' := by
  obtain ⟨h1, h2, h3, h4⟩ := hp
  simp only [setValueFromSel, ← extractString_agree D D' hD sel hs, ← h1, ← h2, ← h3]
  cases hl : p.loader with
  | none =>
    cases hl' : p'.loader with
    | none => rfl
    | some l' => simp [hl, hl', optAgree] at h4
  | some l =>
    cases hl' : p'.loader with
    | none => simp [hl, hl', optAgree] at h4
    | some l' =>
      rw [hl, hl'] at h4
      have hload : ∀ s, l.load sel s = l'.load sel s := h4 sel hs
      simp only [hload]

/-- Plans that agree carry a terminal together. -/
theorem planWithLoader_agree :
    ∀ p p' : Option path, optAgree path.agree p p' →
      optAgree path.agree (planWithLoader p) (planWithLoader p')
  | none, none, _ => trivial
  | some a, some b, h => by
    have h4 : optAgree loader.agree a.loader b.loader := h.2.2.2
    cases hl : a.loader with
    | none =>
      cases hl' : b.loader with
      | none => simp [planWithLoader, Option.filter, hl, hl', optAgree]
      | some l' => simp [hl, hl', optAgree] at h4
    | some l =>
      cases hl' : b.loader with
      | none => simp [hl, hl', optAgree] at h4
      | some l' =>
        simp only [planWithLoader, Option.filter, hl, hl', Option.isSome_some, if_true]
        exact h
  | none, some _, h => h.elim
  | some _, none, h => h.elim

/-- Tables of type loaders that agree find type loaders that agree. -/
theorem findTypeLoader_agree (t : Ty) :
    ∀ tls tls' : List TypeLoader, List.Forall₂ TypeLoader.agree tls tls' →
      optAgree TypeLoader.agree (findTypeLoader tls t) (findTypeLoader tls' t)
  | [], [], _ => trivial
  | a :: l, b :: l', h => by
    obtain ⟨hab, hl⟩ := List.forall₂_cons.mp h
    have ht : a.isType t = b.isType t := hab.1 t
    cases hb : b.isType t with
    | true =>
      simp only [findTypeLoader, List.find?, ht, hb]
      exact hab
    | false =>
      simp only [findTypeLoader, List.find?, ht, hb]
      exact findTypeLoader_agree t l l' hl
  | [], _ :: _, h => by cases h
  | _ :: _, [], h => by cases h

/-- The result of `setValueFromSel`, returned with plans that agree. -/
theorem leafResult_agree (p p' : Option path) (h : optAgree path.agree p p')
    (x : Run (Val × Option Err)) : Run.agree outcomeAgree (leafResult p x) (leafResult p' x) := by
  cases x with
  | panic => trivial
  | done a => exact ⟨rfl, rfl, h⟩

/-- Type loaders that agree are wrapped into terminals that agree. -/
theorem typeLoaderAsLoader_agree (tl tl' : TypeLoader) (h : TypeLoader.agree tl tl') :
    loader.agree (typeLoaderAsLoader tl) (typeLoaderAsLoader tl') := by
  intro sel hs s
  simp only [typeLoaderAsLoader, loader.load]
  exact h.2 sel hs s

/-- The steps before the switch on the kind run alike in two environments
that agree, when the switches do on every context that holds a node. -/
theorem beforeKindSwitch_agree (L : Lib) (D D' : Dom) (R R' : Registry) (hD : Dom.agree D D')
    (hR : Registry.agree R R') (t : Ty) (canSet : Bool) (v : Val) (sel0 : Selection)
    (hs : sel0 ≠ []) (p p' : Option path) (hp : optAgree path.agree p p')
    (k k' : Selection → Run Hydrated)
    (hk : ∀ sel, sel ≠ [] → Run.agree outcomeAgree (k sel) (k' sel)) :
    Run.agree outcomeAgree (beforeKindSwitch L D R t canSet v sel0 p k)
      (beforeKindSwitch L D' R' t canSet v sel0 p' k') := by
  unfold beforeKindSwitch
  cases canSet with
  | false => exact ⟨rfl, rfl, hp⟩
  | true =>
    simp only [Bool.not_true, Bool.false_eq_true, if_false]
    obtain ⟨hn, hne⟩ := narrow_agree D D' hD sel0 hs p p' hp
    rw [← hn]
    cases hnr : narrow D sel0 p with
    | error err => exact ⟨rfl, rfl, hp⟩
    | ok sel =>
      have hsel : sel ≠ [] := hne sel hnr
      simp only
      have hpl := planWithLoader_agree p p' hp
      cases hl : planWithLoader p with
      | some pp =>
        cases hl' : planWithLoader p' with
        | none => simp [hl, hl', optAgree] at hpl
        | some pp' =>
          rw [hl, hl'] at hpl
          simp only
          rw [setValueFromSel_agree L D D' hD t v sel hsel pp pp' hpl]
          exact leafResult_agree p p' hp _
      | none =>
        cases hl' : planWithLoader p' with
        | some pp' => simp [hl, hl', optAgree] at hpl
        | none =>
          simp only
          have htl := findTypeLoader_agree t R.typeLoaders R'.typeLoaders hR.2
          cases ht : findTypeLoader R.typeLoaders t with
          | none =>
            cases ht' : findTypeLoader R'.typeLoaders t with
            | some tl' => simp [ht, ht', optAgree] at htl
            | none => exact hk sel hsel
          | some tl =>
            cases ht' : findTypeLoader R'.typeLoaders t with
            | none => simp [ht, ht', optAgree] at htl
            | some tl' =>
              rw [ht, ht'] at htl
              simp only
              cases p with
              | none =>
                cases p' with
                | none => trivial
                | some _ => exact hp.elim
              | some pp =>
                cases p' with
                | none => exact hp.elim
                | some pp' =>
                  simp only
                  have hpp1 : path.agree { pp with loader := some (typeLoaderAsLoader tl) }
                      { pp' with loader := some (typeLoaderAsLoader tl') } :=
                    ⟨hp.1, hp.2.1, hp.2.2.1, typeLoaderAsLoader_agree tl tl' htl⟩
                  rw [setValueFromSel_agree L D D' hD t v sel hsel _ _ hpp1]
                  exact leafResult_agree (some _) (some _) hpp1 _

/-- The loop of `parseTag` runs alike over two registries that agree. -/
theorem parseParts_agree (R R' : FuncRegistry) (hR : FuncRegistry.agree R R') :
    ∀ (segs : List Str) (i : Nat) (p p' : path), path.agree p p' →
      compiledAgree (parseParts R i segs p) (parseParts R' i segs p')
  | [], i, p, p', h => by
    simp only [parseParts]
    exact h
  | seg :: rest, i, p, p', h => by
    obtain ⟨h1, h2, h3, h4⟩ := h
    by_cases h0 : i = 0
    · subst h0
      simp only [parseParts, if_true]
      exact parseParts_agree R R' hR rest _ _ _ ⟨rfl, h2, h3, h4⟩
    · by_cases hi : i = 1
      · subst hi
        simp only [parseParts, OfNat.one_ne_ofNat, if_false, if_true]
        by_cases hc : (startsWith (TrimSpace seg) (accessorAttr ++ ['(']) ||
            decide (accessorHTML = TrimSpace seg) || decide (accessorText = TrimSpace seg)) = true
        · rw [if_pos hc, if_pos hc]
          exact parseParts_agree R R' hR rest _ _ _ ⟨h1, rfl, h3, h4⟩
        · rw [if_neg hc, if_neg hc]
          exact rfl
      · simp only [parseParts, h0, hi, if_false]
        rw [← hR.1]
        cases hpf : R.parseFuncs (parseFunctionSignature (TrimSpace seg)).1 with
        | some pf =>
          simp only
          exact parseParts_agree R R' hR rest _ _ _ ⟨h1, h2, by simp [h3], h4⟩
        | none =>
          simp only
          have hl := hR.2 (parseFunctionSignature (TrimSpace seg)).1
          cases hlf : R.loadFuncs (parseFunctionSignature (TrimSpace seg)).1 with
          | none =>
            cases hlf' : R'.loadFuncs (parseFunctionSignature (TrimSpace seg)).1 with
            | none => exact rfl
            | some lf' => simp [hlf, hlf', optAgree] at hl
          | some lf =>
            cases hlf' : R'.loadFuncs (parseFunctionSignature (TrimSpace seg)).1 with
            | none => simp [hlf, hlf', optAgree] at hl
            | some lf' =>
              rw [hlf, hlf'] at hl
              simp only
              refine parseParts_agree R R' hR rest _ _ _ ⟨h1, h2, h3, ?_⟩
              intro sel hs s
              cases lf with
              | none =>
                cases lf' with
                | none => rfl
                | some g' => exact hl.elim
              | some g =>
                cases lf' with
                | none => exact hl.elim
                | some g' => exact hl sel hs s _

/-- Two registries that agree compile every tag alike. -/
theorem parseTag_agree (R R' : FuncRegistry) (hR : FuncRegistry.agree R R') (tag : Str) :
    compiledAgree (parseTag R tag) (parseTag R' tag) := by
  have h := parseParts_agree R R' hR (segmentsOf tag) 0 {} {} (path_agree_refl _)
  unfold parseTag
  cases hp : parseParts R 0 (segmentsOf tag) {} with
  | error e =>
    cases hp' : parseParts R' 0 (segmentsOf tag) {} with
    | error e' =>
      rw [hp, hp'] at h
      exact h
    | ok q' => simp [hp, hp', compiledAgree] at h
  | ok q =>
    cases hp' : parseParts R' 0 (segmentsOf tag) {} with
    | error e' => simp [hp, hp', compiledAgree] at h
    | ok q' =>
      rw [hp, hp'] at h
      have hs : q.selector = q'.selector := h.1
      simp only [← hs]
      by_cases hsel : q.selector = []
      · rw [if_pos hsel, if_pos hsel]
        split <;> exact rfl
      · rw [if_neg hsel, if_neg hsel]
        exact h

/-- The loop of `Each` keeps a relation between two states that each step
keeps. -/
theorem eachIndexed_agree {σ : Type} (rel : σ → σ → Prop) (body body' : Nat → Node → σ → Run σ)
    (hb : ∀ i n s s', rel s s' → Run.agree rel (body i n s) (body' i n s')) :
    ∀ (ns : List Node) (i : Nat) (s s' : σ), rel s s' →
      Run.agree rel (eachIndexed body i ns s) (eachIndexed body' i ns s')
  | [], i, s, s', h => h
  | n :: ns, i, s, s', h => by
    have h1 := hb i n s s' h
    simp only [eachIndexed]
    cases hx : body i n s with
    | panic =>
      cases hy : body' i n s' with
      | panic => trivial
      | done b => simp [hx, hy, Run.agree] at h1
    | done a =>
      cases hy : body' i n s' with
      | panic => simp [hx, hy, Run.agree] at h1
      | done b =>
        rw [hx, hy] at h1
        exact eachIndexed_agree rel body body' hb ns (i + 1) a b h1
/-- Runs that agree fail both or end both. -/
theorem Run.agree_cases {α : Type} {r : α → α → Prop} :
    ∀ {x y : Run α}, Run.agree r x y →
      (x = .panic ∧ y = .panic) ∨ ∃ a b, x = .done a ∧ y = .done b ∧ r a b
  | .done a, .done b, h => Or.inr ⟨a, b, rfl, rfl, h⟩
  | .panic, .panic, _ => Or.inl ⟨rfl, rfl⟩
  | .done _, .panic, h => h.elim
  | .panic, .done _, h => h.elim

/-- Outcomes that agree still agree behind a pointer. -/
theorem underPointer_agree (x y : Run Hydrated) (h : Run.agree outcomeAgree x y) :
    Run.agree outcomeAgree (underPointer x) (underPointer y) := by
  rcases Run.agree_cases h with ⟨h1, h2⟩ | ⟨a, b, h1, h2, hab⟩
  · rw [h1, h2]
    trivial
  · rw [h1, h2]
    exact ⟨congrArg (fun w => Val.ptr (some w)) hab.1, hab.2.1, hab.2.2⟩

mutual
/-- Hydration from a context that holds a node runs alike in two environments
that agree on the contexts that hold a node: same slot, same errors, and plans
that agree. -/
theorem hydrateValue_agree (L : Lib) (D D' : Dom) (R R' : Registry) (hD : Dom.agree D D')
    (hR : Registry.agree R R') :
    ∀ (t : Ty) (canSet : Bool) (v : Val) (sel : Selection) (p p' : Option path),
      sel ≠ [] → optAgree path.agree p p' →
      Run.agree outcomeAgree (hydrateValue L D R t canSet v sel p)
        (hydrateValue L D' R' t canSet v sel p')
  | .ptr id e, c, v, sel, p, p', hs, hp => by
    cases v with
    | ptr tgt =>
      cases tgt with
      | some w =>
        simp only [hydrateValue]
        exact underPointer_agree _ _ (hydrateValue_agree L D D' R R' hD hR e true w sel p p' hs hp)
      | none =>
        simp only [hydrateValue]
        cases c with
        | true =>
          simp only [if_true]
          exact underPointer_agree _ _
            (hydrateValue_agree L D D' R R' hD hR e true (zero e) sel p p' hs hp)
        | false => trivial
    | _ =>
      simp only [hydrateValue]
      cases c with
      | true =>
        simp only [if_true]
        exact underPointer_agree _ _
          (hydrateValue_agree L D D' R R' hD hR e true (zero e) sel p p' hs hp)
      | false => trivial
  | .struct id fs, c, v, sel, p, p', hs, hp => by
    have e1 : ∀ (D : Dom) (R : Registry) (p : Option path),
        hydrateValue L D R (.struct id fs) c v sel p =
          beforeKindSwitch L D R (.struct id fs) c v sel p (fun sel1 =>
            (hydrateFields L D R fs v.fields sel1 []).map (fun r => (Val.struct r.1, r.2, p))) := by
      intro D R p
      simp only [hydrateValue, beforeKindSwitch]
    rw [e1, e1]
    refine beforeKindSwitch_agree L D D' R R' hD hR _ c v sel hs p p' hp _ _ ?_
    intro sel1 hs1
    rw [hydrateFields_agree L D D' R R' hD hR fs v.fields sel1 [] hs1]
    cases hydrateFields L D' R' fs v.fields sel1 [] with
    | panic => trivial
    | done r => exact ⟨rfl, rfl, hp⟩
  | .scalar id k, c, v, sel, p, p', hs, hp => by
    have e1 : ∀ (D : Dom) (R : Registry) (p : Option path),
        hydrateValue L D R (.scalar id k) c v sel p =
          beforeKindSwitch L D R (.scalar id k) c v sel p (fun sel1 =>
            match p with
            | none => .panic
            | some pp => leafResult p (setValueFromSel L D (.scalar id k) v sel1 pp)) := by
      intro D R p
      simp only [hydrateValue, beforeKindSwitch]
    rw [e1, e1]
    refine beforeKindSwitch_agree L D D' R R' hD hR _ c v sel hs p p' hp _ _ ?_
    intro sel1 hs1
    cases p with
    | none =>
      cases p' with
      | none => trivial
      | some _ => exact hp.elim
    | some pp =>
      cases p' with
      | none => exact hp.elim
      | some pp' =>
        simp only
        rw [setValueFromSel_agree L D D' hD _ v sel1 hs1 pp pp' hp]
        exact leafResult_agree _ _ hp _
  | .array id len e, c, v, sel, p, p', hs, hp => by
    have e1 : ∀ (D : Dom) (R : Registry) (p : Option path),
        hydrateValue L D R (.array id len e) c v sel p =
          beforeKindSwitch L D R (.array id len e) c v sel p (fun sel1 =>
            if e.isUint8 then
              match p with
              | none => .panic
              | some pp =>
                match extractString D sel1 pp.acc with
                | (_, some err) => .done (v, [err], p)
                | (s, none) =>
                  if e.isByte then
                    .done (.array (copyInto v.elems ((bytesOf s).map Val.uint)), [], p)
                  else .panic
            else
              (eachIndexed (fun i n (st : List Val × List Err × Option path) =>
                  if i < len then
                    match hydrateValue L D R e true (st.1.getD i (zero e)) [n] st.2.2 with
                    | .panic => .panic
                    | .done h => .done (st.1.set i h.1, st.2.1 ++ h.2.1, h.2.2)
                  else .done st) 0 sel1 (v.elems, [], p)).map
                (fun st => (Val.array st.1, st.2.1, st.2.2))) := by
      intro D R p
      simp only [hydrateValue, beforeKindSwitch]
    rw [e1, e1]
    refine beforeKindSwitch_agree L D D' R R' hD hR _ c v sel hs p p' hp _ _ ?_
    intro sel1 hs1
    cases hb : e.isUint8 with
    | true =>
      simp only [if_true]
      cases p with
      | none =>
        cases p' with
        | none => trivial
        | some _ => exact hp.elim
      | some pp =>
        cases p' with
        | none => exact hp.elim
        | some pp' =>
          have hacc : pp.acc = pp'.acc := hp.2.1
          simp only [← extractString_agree D D' hD sel1 hs1, ← hacc]
          rcases hx : extractString D sel1 pp.acc with ⟨s, _ | err⟩
          · cases e.isByte with
            | true => exact ⟨rfl, rfl, hp⟩
            | false => trivial
          · exact ⟨rfl, rfl, hp⟩
    | false =>
      simp only [Bool.false_eq_true, if_false]
      refine Run.agree_map (@outcomeAgree (List Val)) (@outcomeAgree Val)
        (fun st => (Val.array st.1, st.2.1, st.2.2)) (fun st => (Val.array st.1, st.2.1, st.2.2))
        (fun a b hab => ⟨congrArg Val.array hab.1, hab.2.1, hab.2.2⟩) _ _ ?_
      refine eachIndexed_agree (@outcomeAgree (List Val)) _ _ ?_ sel1 0 _ _ ⟨rfl, rfl, hp⟩
      rintro i n ⟨vs, errs, pl⟩ ⟨vs', errs', pl'⟩ ⟨h1, h2, h3⟩
      simp only at h1 h2 h3
      subst h1
      subst h2
      by_cases hi : i < len
      · simp only [hi, if_true]
        have hv := hydrateValue_agree L D D' R R' hD hR e true (vs.getD i (zero e)) [n] pl pl'
          (by simp) h3
        rcases Run.agree_cases hv with ⟨k1, k2⟩ | ⟨a, b, k1, k2, hab⟩
        · rw [k1, k2]
          trivial
        · rw [k1, k2]
          exact ⟨by simp only [hab.1], by simp only [hab.2.1], hab.2.2⟩
      · simp only [hi, if_false]
        exact ⟨rfl, rfl, h3⟩
  | .slice id e, c, v, sel, p, p', hs, hp => by
    have e1 : ∀ (D : Dom) (R : Registry) (p : Option path),
        hydrateValue L D R (.slice id e) c v sel p =
          beforeKindSwitch L D R (.slice id e) c v sel p (fun sel1 =>
            if e.isUint8 then
              match p with
              | none => .panic
              | some pp =>
                match extractString D sel1 pp.acc with
                | (_, some err) => .done (v, [err], p)
                | (s, none) => .done (.slice ((bytesOf s).map Val.uint), [], p)
            else
              (eachIndexed (fun i n (st : List Val × List Err × Option path) =>
                  match hydrateValue L D R e true (st.1.getD i (zero e)) [n] st.2.2 with
                  | .panic => .panic
                  | .done h => .done (st.1.set i h.1, st.2.1 ++ h.2.1, h.2.2))
                0 sel1 (List.replicate sel1.length (zero e), [], p)).map
                (fun st => (Val.slice st.1, st.2.1, st.2.2))) := by
      intro D R p
      simp only [hydrateValue, beforeKindSwitch]
    rw [e1, e1]
    refine beforeKindSwitch_agree L D D' R R' hD hR _ c v sel hs p p' hp _ _ ?_
    intro sel1 hs1
    cases hb : e.isUint8 with
    | true =>
      simp only [if_true]
      cases p with
      | none =>
        cases p' with
        | none => trivial
        | some _ => exact hp.elim
      | some pp =>
        cases p' with
        | none => exact hp.elim
        | some pp' =>
          have hacc : pp.acc = pp'.acc := hp.2.1
          simp only [← extractString_agree D D' hD sel1 hs1, ← hacc]
          rcases hx : extractString D sel1 pp.acc with ⟨s, _ | err⟩
          · exact ⟨rfl, rfl, hp⟩
          · exact ⟨rfl, rfl, hp⟩
    | false =>
      simp only [Bool.false_eq_true, if_false]
      refine Run.agree_map (@outcomeAgree (List Val)) (@outcomeAgree Val)
        (fun st => (Val.slice st.1, st.2.1, st.2.2)) (fun st => (Val.slice st.1, st.2.1, st.2.2))
        (fun a b hab => ⟨congrArg Val.slice hab.1, hab.2.1, hab.2.2⟩) _ _ ?_
      refine eachIndexed_agree (@outcomeAgree (List Val)) _ _ ?_ sel1 0 _ _ ⟨rfl, rfl, hp⟩
      rintro i n ⟨vs, errs, pl⟩ ⟨vs', errs', pl'⟩ ⟨h1, h2, h3⟩
      simp only at h1 h2 h3
      subst h1
      subst h2
      have hv := hydrateValue_agree L D D' R R' hD hR e true (vs.getD i (zero e)) [n] pl pl'
        (by simp) h3
      rcases Run.agree_cases hv with ⟨k1, k2⟩ | ⟨a, b, k1, k2, hab⟩
      · simp only [k1, k2]
        trivial
      · simp only [k1, k2]
        exact ⟨by simp only [hab.1], by simp only [hab.2.1], hab.2.2⟩
  | .unsupported id kind, c, v, sel, p, p', hs, hp => by
    have e1 : ∀ (D : Dom) (R : Registry) (p : Option path),
        hydrateValue L D R (.unsupported id kind) c v sel p =
          beforeKindSwitch L D R (.unsupported id kind) c v sel p (fun _ =>
            .done (v, [Err.invalidKind kind], p)) := by
      intro D R p
      simp only [hydrateValue, beforeKindSwitch]
    rw [e1, e1]
    refine beforeKindSwitch_agree L D D' R R' hD hR _ c v sel hs p p' hp _ _ ?_
    intro sel1 hs1
    exact ⟨rfl, rfl, hp⟩
/-- The struct loop runs alike in two environments that agree on the contexts
that hold a node. -/
theorem hydrateFields_agree (L : Lib) (D D' : Dom) (R R' : Registry) (hD : Dom.agree D D')
    (hR : Registry.agree R R') :
    ∀ (fs : List (Field Ty)) (vs : List Val) (sel : Selection) (errs : List Err), sel ≠ [] →
      hydrateFields L D R fs vs sel errs = hydrateFields L D' R' fs vs sel errs
  | [], vs, sel, errs, hs => by simp only [hydrateFields]
  | ft :: fs, vs, sel, errs, hs => by
    have hc := parseTag_agree R.toFuncRegistry R'.toFuncRegistry hR.1 ft.tag
    simp only [hydrateFields]
    cases hp : parseTag R.toFuncRegistry ft.tag with
    | error err =>
      cases hp' : parseTag R'.toFuncRegistry ft.tag with
      | ok q' => simp [hp, hp', compiledAgree] at hc
      | error err' =>
        rw [hp, hp'] at hc
        have he : err = err' := hc
        subst he
        simp only
        rw [hydrateFields_agree L D D' R R' hD hR fs vs.tail sel _ hs]
    | ok q =>
      cases hp' : parseTag R'.toFuncRegistry ft.tag with
      | error err' => simp [hp, hp', compiledAgree] at hc
      | ok q' =>
        rw [hp, hp'] at hc
        simp only
        cases hx : exported L ft.name with
        | false =>
          simp only [Bool.not_false, if_true]
          rw [hydrateFields_agree L D D' R R' hD hR fs vs.tail sel _ hs]
        | true =>
          simp only [Bool.not_true, Bool.false_eq_true, if_false]
          have hv := hydrateValue_agree L D D' R R' hD hR ft.type true
            (vs.headD (zero ft.type)) sel (some q) (some q') hs hc
          rcases Run.agree_cases hv with ⟨h1, h2⟩ | ⟨a, b, h1, h2, hab⟩
          · rw [h1, h2]
          · rw [h1, h2]
            simp only
            rw [hydrateFields_agree L D D' R R' hD hR fs vs.tail sel _ hs, hab.1, hab.2.1]
end

/-- A document and the document that answers otherwise on the empty context
agree. -/
theorem Dom.withEmpty_agree (D : Dom) (text : Str) (found : Node) :
    Dom.agree D (D.withEmpty text found) := by
  intro sel hs
  simp [Dom.withEmpty, hs]

/-- The built-in registries and the registries with the checked "html" type
loader agree, over documents that agree. -/
theorem checkedRegistry_agree (X : Ext) (F : ExtFuncs) (D D' : Dom) (hD : Dom.agree D D') :
    Registry.agree (builtinRegistry X F D) (checkedRegistry X F D') := by
  refine ⟨⟨fun _ => rfl, fun name => ?_⟩, ?_⟩
  · exact optAgree_refl _ (optAgree_refl _ (fun _ _ _ _ _ => rfl)) _
  · have ht : ∀ sel : Selection, sel ≠ [] → D.text sel = D'.text sel :=
      fun sel hs => (hD sel hs).2.2.1
    refine List.Forall₂.cons ⟨fun _ => rfl, fun _ _ _ => rfl⟩
      (List.Forall₂.cons ⟨fun _ => rfl, fun _ _ _ => rfl⟩
        (List.Forall₂.cons ⟨fun _ => rfl, ?_⟩
          (List.Forall₂.cons ⟨fun _ => rfl, ?_⟩
            (List.Forall₂.cons ⟨fun _ => rfl, ?_⟩ List.Forall₂.nil))))
    · intro sel hs s
      cases sel with
      | nil => exact absurd rfl hs
      | cons n ns => rfl
    · intro sel hs s
      simp only [ottoTypeLoader, ht sel hs]
    · intro sel hs s
      simp only [cssTypeLoader, ht sel hs]

/-- C26: starting from `Scrape` on a document whose root context holds one
node, no context that reaches text extraction, narrowing, a terminal or a type
loader is empty.  The outcome of `Scrape` is the same in any two environments
that agree on every context that holds a node, whatever the document
operations, the registered terminals and the type loaders do on the empty
context (so that the failing access to the first node of the "html" type loader
is never reached).  The selector step passes on a context that holds a node:
the context it was given, or the non-empty result of `Find`; a `Find` without
result ends in the did-not-match error. -/
theorem Scrape_contexts_hold_a_node (L : Lib) (D D' : Dom) (R R' : Registry)
    (target : Option (Ty × Val)) (n : Node) (hD : Dom.agree D D') (hR : Registry.agree R R') :
    Scrape L R target (fun _ => .ok ⟨D, [n]⟩) = Scrape L R' target (fun _ => .ok ⟨D', [n]⟩) ∧
    (∀ (sel sel1 : Selection) (p : Option path), sel ≠ [] → narrow D sel p = .ok sel1 →
      sel1 ≠ []) ∧
    (∀ (sel sel1 : Selection) (p : path), narrow D sel (some p) = .ok sel1 →
      sel1 = sel ∨ (sel1 = D.find sel p.selector ∧ sel1 ≠ [])) ∧
    (∀ (sel : Selection) (p : path) (err : Err), narrow D sel (some p) = .error err →
      err = Err.didNotMatch p.selector ∧ D.find sel p.selector = []) := by
  refine ⟨?_, ?_, ?_, ?_⟩
  · cases target with
    | none => rfl
    | some tv =>
      obtain ⟨t, v⟩ := tv
      simp only [Scrape]
      cases isStructPtr t with
      | false => rfl
      | true =>
        simp only [Bool.not_true, Bool.false_eq_true, if_false]
        have hv := hydrateValue_agree L D D' R R' hD hR t false v [n] none none (by simp) trivial
        rcases Run.agree_cases hv with ⟨k1, k2⟩ | ⟨a, b, k1, k2, hab⟩
        · rw [k1, k2]
        · rw [k1, k2]
          simp only [Run.map_done, hab.1, hab.2.1]
  · intro sel sel1 p hs h
    exact (narrow_agree D D (fun _ _ => ⟨fun _ => rfl, fun _ => rfl, rfl, rfl, fun _ => rfl⟩)
      sel hs p p (optAgree_refl _ path_agree_refl p)).2 sel1 h
  · intro sel sel1 p h
    simp only [narrow] at h
    split at h
    · split at h
      · cases h
      · rename_i hne
        simp only [Except.ok.injEq] at h
        subst h
        exact Or.inr ⟨rfl, fun he => hne (by simp [he])⟩
    · simp only [Except.ok.injEq] at h
      exact Or.inl h.symm
  · intro sel p err h
    simp only [narrow] at h
    split at h
    · split at h
      · rename_i he
        simp only [Except.error.injEq] at h
        exact ⟨h.symm, List.length_eq_zero.mp he⟩
      · cases h
    · cases h

/-- C26 at a composite with a node field, a field that is a sequence of nodes
and a text field, on the two-div document: the outcome is the same with the
built-in registries and with the registries whose "html" type loader checks
for the empty context, over a document that answers otherwise on the empty
context. -/
theorem Scrape_contexts_hold_a_node_witness :
    Dom.agree twoDivs.dom (twoDivs.dom.withEmpty "none".toList 9) ∧
    Registry.agree (builtinRegistry exampleExt exampleFuncs twoDivs.dom)
      (checkedRegistry exampleExt exampleFuncs (twoDivs.dom.withEmpty "none".toList 9)) ∧
    Scrape exampleLib (builtinRegistry exampleExt exampleFuncs twoDivs.dom)
        (some (.ptr {} nodeFields, .ptr (some (zero nodeFields))))
        (fun _ => .ok ⟨twoDivs.dom, [0]⟩) =
      .done (some (.ptr {} nodeFields,
          .ptr (some (.struct [.ptr (some (.loaded (Dyn.node 1))),
            .slice [.ptr (some (.loaded (Dyn.node 1))), .ptr (some (.loaded (Dyn.node 2)))],
            .string "7".toList]))), []) ∧
    Scrape exampleLib (builtinRegistry exampleExt exampleFuncs twoDivs.dom)
        (some (.ptr {} nodeFields, .ptr (some (zero nodeFields))))
        (fun _ => .ok ⟨twoDivs.dom, [0]⟩) =
      Scrape exampleLib
        (checkedRegistry exampleExt exampleFuncs (twoDivs.dom.withEmpty "none".toList 9))
        (some (.ptr {} nodeFields, .ptr (some (zero nodeFields))))
        (fun _ => .ok ⟨twoDivs.dom.withEmpty "none".toList 9, [0]⟩) :=
  ⟨Dom.withEmpty_agree _ _ _,
   checkedRegistry_agree _ _ _ _ (Dom.withEmpty_agree _ _ _),
   rfl,
   (Scrape_contexts_hold_a_node exampleLib twoDivs.dom (twoDivs.dom.withEmpty "none".toList 9)
      (builtinRegistry exampleExt exampleFuncs twoDivs.dom)
      (checkedRegistry exampleExt exampleFuncs (twoDivs.dom.withEmpty "none".toList 9))
      (some (.ptr {} nodeFields, .ptr (some (zero nodeFields)))) 0
      (Dom.withEmpty_agree _ _ _)
      (checkedRegistry_agree _ _ _ _ (Dom.withEmpty_agree _ _ _))).1⟩

/-- The selector step in one formula: the context is kept when the selector is
empty, the self selector, or satisfied by the context; otherwise the step
narrows to the result of `Find`, or fails when there is none. -/
theorem narrow_eq (D : Dom) (sel : Selection) (q : path) :
    narrow D sel (some q) =
      if q.selector = [] ∨ q.selector = ['.'] ∨ D.matchesSel sel q.selector = true then .ok sel
      else if D.find sel q.selector = [] then .error (Err.didNotMatch q.selector)
      else .ok (D.find sel q.selector) := by
  unfold narrow
  by_cases h1 : q.selector = []
  · simp [h1]
  · by_cases h2 : q.selector = ['.']
    · simp [h2]
    · by_cases h3 : D.matchesSel sel q.selector = true
      · simp [h3]
      · have hlen : q.selector.length > 0 := List.length_pos.mpr h1
        simp only [h1, h2, h3, false_or, if_false]
        simp [hlen, h2, h3, List.length_eq_zero]

/-- The loop of `Each` keeps a property of the state that each step keeps. -/
theorem eachIndexed_invariant {σ : Type} (P : σ → Prop) (body : Nat → Node → σ → Run σ)
    (hb : ∀ i n s s', P s → body i n s = .done s' → P s') :
    ∀ (ns : List Node) (i : Nat) (s s' : σ), P s → eachIndexed body i ns s = .done s' → P s'
  | [], i, s, s', hs, h => by
    simp only [eachIndexed, Run.done.injEq] at h
    exact h ▸ hs
  | n :: ns, i, s, s', hs, h => by
    simp only [eachIndexed] at h
    cases hx : body i n s with
    | panic => simp [hx] at h
    | done a =>
      simp only [hx] at h
      exact eachIndexed_invariant P body hb ns (i + 1) a s' (hb i n s a hs hx) h

/-- The steps before the switch on the kind write at most the terminal of the
plan, when the switch does. -/
theorem beforeKindSwitch_planText (L : Lib) (D : Dom) (R : Registry) (t : Ty) (canSet : Bool)
    (v : Val) (sel0 : Selection) (p : Option path) (k : Selection → Run Hydrated)
    (hk : ∀ sel h, k sel = .done h → planText h.2.2 = planText p) (h : Hydrated)
    (hh : beforeKindSwitch L D R t canSet v sel0 p k = .done h) :
    planText h.2.2 = planText p := by
  unfold beforeKindSwitch at hh
  cases canSet with
  | false =>
    simp only [Bool.not_false, if_true, Run.done.injEq] at hh
    rw [← hh]
  | true =>
    simp only [Bool.not_true, Bool.false_eq_true, if_false] at hh
    cases hn : narrow D sel0 p with
    | error err =>
      simp only [hn, Run.done.injEq] at hh
      rw [← hh]
    | ok sel =>
      simp only [hn] at hh
      cases hl : planWithLoader p with
      | some pp =>
        simp only [hl] at hh
        cases hx : setValueFromSel L D t v sel pp with
        | panic => simp [hx, leafResult] at hh
        | done a =>
          simp only [hx, leafResult, Run.map_done, Run.done.injEq] at hh
          rw [← hh]
      | none =>
        simp only [hl] at hh
        cases ht : findTypeLoader R.typeLoaders t with
        | none =>
          simp only [ht] at hh
          exact hk sel h hh
        | some tl =>
          simp only [ht] at hh
          cases p with
          | none => simp at hh
          | some pp =>
            simp only at hh
            cases hx : setValueFromSel L D t v sel
                { pp with loader := some (typeLoaderAsLoader tl) } with
            | panic => simp [hx, leafResult] at hh
            | done a =>
              simp only [hx, leafResult, Run.map_done, Run.done.injEq] at hh
              rw [← hh]
              rfl

/-- A mapped run that ends comes from a run that ends. -/
theorem Run.map_eq_done {α β : Type} {f : α → β} {r : Run α} {b : β}
    (h : r.map f = .done b) : ∃ a, r = .done a ∧ f a = b := by
  cases r with
  | panic => cases h
  | done a => exact ⟨a, rfl, by simpa using h⟩

/-- Hydration writes at most the terminal of the plan: the plan it leaves
behind has the selector, the accessor and the pipeline of the plan it was
given. -/
theorem hydrateValue_planText (L : Lib) (D : Dom) (R : Registry) :
    ∀ (t : Ty) (canSet : Bool) (v : Val) (sel : Selection) (p : Option path) (h : Hydrated),
      hydrateValue L D R t canSet v sel p = .done h → planText h.2.2 = planText p
  | .ptr id e, c, v, sel, p, h, hh => by
    have hu : ∀ w, underPointer (hydrateValue L D R e true w sel p) = .done h →
        planText h.2.2 = planText p := by
      intro w hw
      cases hx : hydrateValue L D R e true w sel p with
      | panic => simp [hx, underPointer] at hw
      | done a =>
        simp only [hx, underPointer, Run.map_done, Run.done.injEq] at hw
        rw [← hw]
        exact hydrateValue_planText L D R e true w sel p a hx
    cases v with
    | ptr tgt =>
      cases tgt with
      | some w =>
        simp only [hydrateValue] at hh
        exact hu w hh
      | none =>
        simp only [hydrateValue] at hh
        cases c with
        | true =>
          simp only [if_true] at hh
          exact hu _ hh
        | false => simp at hh
    | _ =>
      simp only [hydrateValue] at hh
      cases c with
      | true =>
        simp only [if_true] at hh
        exact hu _ hh
      | false => simp at hh
  | .struct id fs, c, v, sel, p, h, hh => by
    have e1 : ∀ q : Option path, hydrateValue L D R (.struct id fs) c v sel q =
        beforeKindSwitch L D R (.struct id fs) c v sel q (fun sel1 =>
          (hydrateFields L D R fs v.fields sel1 []).map (fun r => (Val.struct r.1, r.2, q))) := by
      intro q
      simp only [hydrateValue, beforeKindSwitch]
    rw [e1] at hh
    refine beforeKindSwitch_planText L D R _ c v sel p _ ?_ h hh
    intro sel1 h1 hk
    cases hx : hydrateFields L D R fs v.fields sel1 [] with
    | panic => simp [hx] at hk
    | done r =>
      simp only [hx, Run.map_done, Run.done.injEq] at hk
      rw [← hk]
  | .scalar id k, c, v, sel, p, h, hh => by
    have e1 : ∀ q : Option path, hydrateValue L D R (.scalar id k) c v sel q =
        beforeKindSwitch L D R (.scalar id k) c v sel q (fun sel1 =>
          match q with
          | none => .panic
          | some pp => leafResult q (setValueFromSel L D (.scalar id k) v sel1 pp)) := by
      intro q
      simp only [hydrateValue, beforeKindSwitch]
    rw [e1] at hh
    refine beforeKindSwitch_planText L D R _ c v sel p _ ?_ h hh
    intro sel1 h1 hk
    cases p with
    | none => simp at hk
    | some pp =>
      simp only at hk
      cases hx : setValueFromSel L D (.scalar id k) v sel1 pp with
      | panic => simp [hx, leafResult] at hk
      | done a =>
        simp only [hx, leafResult, Run.map_done, Run.done.injEq] at hk
        rw [← hk]
  | .unsupported id kind, c, v, sel, p, h, hh => by
    have e1 : ∀ q : Option path, hydrateValue L D R (.unsupported id kind) c v sel q =
        beforeKindSwitch L D R (.unsupported id kind) c v sel q (fun _ =>
          .done (v, [Err.invalidKind kind], q)) := by
      intro q
      simp only [hydrateValue, beforeKindSwitch]
    rw [e1] at hh
    refine beforeKindSwitch_planText L D R _ c v sel p _ ?_ h hh
    intro sel1 h1 hk
    simp only [Run.done.injEq] at hk
    rw [← hk]
  | .array id len e, c, v, sel, p, h, hh => by
    have e1 : ∀ q : Option path, hydrateValue L D R (.array id len e) c v sel q =
        beforeKindSwitch L D R (.array id len e) c v sel q (fun sel1 =>
          if e.isUint8 then
            match q with
            | none => .panic
            | some pp =>
              match extractString D sel1 pp.acc with
              | (_, some err) => .done (v, [err], q)
              | (s, none) =>
                if e.isByte then
                  .done (.array (copyInto v.elems ((bytesOf s).map Val.uint)), [], q)
                else .panic
          else
            (eachIndexed (fun i n (st : List Val × List Err × Option path) =>
                if i < len then
                  match hydrateValue L D R e true (st.1.getD i (zero e)) [n] st.2.2 with
                  | .panic => .panic
                  | .done h => .done (st.1.set i h.1, st.2.1 ++ h.2.1, h.2.2)
                else .done st) 0 sel1 (v.elems, [], q)).map
              (fun st => (Val.array st.1, st.2.1, st.2.2))) := by
      intro q
      simp only [hydrateValue, beforeKindSwitch]
    rw [e1] at hh
    refine beforeKindSwitch_planText L D R _ c v sel p _ ?_ h hh
    intro sel1 h1 hk
    cases hb : e.isUint8 with
    | true =>
      simp only [hb, if_true] at hk
      cases p with
      | none => simp at hk
      | some pp =>
        simp only at hk
        rcases hx : extractString D sel1 pp.acc with ⟨s, _ | err⟩
        · simp only [hx] at hk
          cases hy : e.isByte with
          | true =>
            simp only [hy, if_true, Run.done.injEq] at hk
            rw [← hk]
          | false => simp [hy] at hk
        · simp only [hx, Run.done.injEq] at hk
          rw [← hk]
    | false =>
      simp only [hb, Bool.false_eq_true, if_false] at hk
      obtain ⟨st, hx, hst⟩ := Run.map_eq_done hk
      rw [← hst]
      refine eachIndexed_invariant (fun st => planText st.2.2 = planText p) _ ?_
        sel1 0 _ st rfl hx
      intro i n s s' hs hbody
      by_cases hi : i < len
      · simp only [hi, if_true] at hbody
        split at hbody
        · cases hbody
        · rename_i a hv
          simp only [Run.done.injEq] at hbody
          rw [← hbody]
          exact (hydrateValue_planText L D R e true _ [n] s.2.2 a hv).trans hs
      · simp only [hi, if_false, Run.done.injEq] at hbody
        rw [← hbody]
        exact hs
  | .slice id e, c, v, sel, p, h, hh => by
    have e1 : ∀ q : Option path, hydrateValue L D R (.slice id e) c v sel q =
        beforeKindSwitch L D R (.slice id e) c v sel q (fun sel1 =>
          if e.isUint8 then
            match q with
            | none => .panic
            | some pp =>
              match extractString D sel1 pp.acc with
              | (_, some err) => .done (v, [err], q)
              | (s, none) => .done (.slice ((bytesOf s).map Val.uint), [], q)
          else
            (eachIndexed (fun i n (st : List Val × List Err × Option path) =>
                match hydrateValue L D R e true (st.1.getD i (zero e)) [n] st.2.2 with
                | .panic => .panic
                | .done h => .done (st.1.set i h.1, st.2.1 ++ h.2.1, h.2.2))
              0 sel1 (List.replicate sel1.length (zero e), [], q)).map
              (fun st => (Val.slice st.1, st.2.1, st.2.2))) := by
      intro q
      simp only [hydrateValue, beforeKindSwitch]
    rw [e1] at hh
    refine beforeKindSwitch_planText L D R _ c v sel p _ ?_ h hh
    intro sel1 h1 hk
    cases hb : e.isUint8 with
    | true =>
      simp only [hb, if_true] at hk
      cases p with
      | none => simp at hk
      | some pp =>
        simp only at hk
        rcases hx : extractString D sel1 pp.acc with ⟨s, _ | err⟩
        · simp only [hx, Run.done.injEq] at hk
          rw [← hk]
        · simp only [hx, Run.done.injEq] at hk
          rw [← hk]
    | false =>
      simp only [hb, Bool.false_eq_true, if_false] at hk
      obtain ⟨st, hx, hst⟩ := Run.map_eq_done hk
      rw [← hst]
      refine eachIndexed_invariant (fun st => planText st.2.2 = planText p) _ ?_
        sel1 0 _ st rfl hx
      intro i n s s' hs hbody
      split at hbody
      · cases hbody
      · rename_i a hv
        simp only [Run.done.injEq] at hbody
        rw [← hbody]
        exact (hydrateValue_planText L D R e true _ [n] s.2.2 a hv).trans hs

/-- C19 (counterexample): a sequence field whose context satisfies the
selector of its plan gets a did-not-match error all the same.  The context of
the two `div` nodes satisfies "div.a", since node 1 does, and the selector step
of the field keeps it; the element for node 2 runs the step again on node 2
alone, which does not satisfy the selector and has nothing below that does. -/
theorem sequence_element_did_not_match :
    mixedDivs.dom.matchesSel [1, 2] planDivA.selector = true ∧
    narrow mixedDivs.dom [1, 2] (some planDivA) = .ok [1, 2] ∧
    (hydrateValue exampleLib mixedDivs.dom (exampleRegistry mixedDivs.dom) (.slice {} tyString)
        true (.slice []) [1, 2] (some planDivA)).map (fun h => (h.1, h.2.1)) =
      .done (.slice [.string "x".toList, .string []], [Err.didNotMatch "div.a".toList]) ∧
    Scrape exampleLib (exampleRegistry mixedDivs.dom)
        (some (.ptr {} itemsStruct, .ptr (some (zero itemsStruct))))
        (fun _ => .ok ⟨mixedDivs.dom, [0]⟩) =
      .done (some (.ptr {} itemsStruct,
          .ptr (some (.struct [.struct [.slice [.string "x".toList, .string []]]]))),
        [Err.didNotMatch "div.a".toList]) :=
  ⟨rfl, rfl, rfl, rfl⟩

/-- C19 (amended): when the selector of the plan is the self selector ".", or
a selector that the current context already satisfies, the selector step of
`hydrateValue` keeps the context it was given and raises no did-not-match
error; a scalar slot is then filled by `setValueFromSel` on that very context,
the fields of a composite are hydrated against it, and the elements of a
sequence are hydrated from its nodes.  With the self selector the step keeps
every context, so also the node of each element of a sequence.  With another
selector each element of a sequence runs the step again on its own node: the
node is kept when it satisfies the selector itself, and otherwise the element
is narrowed to what `Find` gives below the node, or gets the did-not-match
error when that is nothing.  The plans handed from element to element keep the
selector. -/
theorem narrow_keeps_context (L : Lib) (D : Dom) (R : Registry) (sel : Selection) (p : path)
    (h : p.selector = ['.'] ∨ D.matchesSel sel p.selector = true) :
    narrow D sel (some p) = .ok sel ∧
    (∀ (id : TypeId) (k : ScalarKind) (v : Val), p.loader = none →
      findTypeLoader R.typeLoaders (.scalar id k) = none →
      hydrateValue L D R (.scalar id k) true v sel (some p) =
        leafResult (some p) (setValueFromSel L D (.scalar id k) v sel p)) ∧
    (∀ (id : TypeId) (fs : List (Field Ty)) (vs : List Val), p.loader = none →
      findTypeLoader R.typeLoaders (.struct id fs) = none →
      hydrateValue L D R (.struct id fs) true (.struct vs) sel (some p) =
        (hydrateFields L D R fs vs sel []).map (fun r => (Val.struct r.1, r.2, some p))) ∧
    (∀ (id : TypeId) (e : Ty) (v : Val), p.loader = none → e.isUint8 = false →
      findTypeLoader R.typeLoaders (.slice id e) = none →
      hydrateValue L D R (.slice id e) true v sel (some p) =
        (hydratePairs L D R e (List.replicate sel.length (zero e)) sel (some p)).map
          (fun r => (Val.slice r.1, r.2))) ∧
    (p.selector = ['.'] → ∀ (q : path) (ctx : Selection), q.selector = p.selector →
      narrow D ctx (some q) = .ok ctx) ∧
    (∀ (q : path) (n : Node), q.selector = p.selector →
      narrow D [n] (some q) =
        if p.selector = [] ∨ p.selector = ['.'] ∨ D.matchesSel [n] p.selector = true then
          .ok [n]
        else if D.find [n] p.selector = [] then .error (Err.didNotMatch p.selector)
        else .ok (D.find [n] p.selector)) ∧
    (∀ (t : Ty) (canSet : Bool) (v : Val) (ctx : Selection) (q : path) (out : Hydrated),
      q.selector = p.selector → hydrateValue L D R t canSet v ctx (some q) = .done out →
      ∃ q1, out.2.2 = some q1 ∧ q1.selector = p.selector) := by
  have hn : narrow D sel (some p) = .ok sel := by
    rcases h with h | h
    · simp [narrow, h]
    · simp [narrow, h]
  have hpl : p.loader = none → planWithLoader (some p) = none := by
    intro hl
    simp [planWithLoader, Option.filter, hl]
  refine ⟨hn, ?_, ?_, ?_, ?_, ?_, ?_⟩
  · intro id k v hl htl
    simp only [hydrateValue, Bool.not_true, Bool.false_eq_true, if_false, hn, hpl hl, htl]
  · intro id fs vs hl htl
    exact hydrateValue_struct_eq L D R id fs vs sel sel (some p) hn (hpl hl) htl
  · intro id e v hl hb htl
    exact hydrateValue_slice_eq L D R id e v sel sel (some p) hb hn (hpl hl) htl
  · intro hdot q ctx hq
    rw [narrow_eq, hq, hdot]
    simp
  · intro q n hq
    rw [narrow_eq, hq]
  · intro t canSet v ctx q out hq hout
    have hpt := hydrateValue_planText L D R t canSet v ctx (some q) out hout
    cases hq1 : out.2.2 with
    | none => simp [planText, hq1] at hpt
    | some q1 =>
      refine ⟨q1, rfl, ?_⟩
      simp only [planText, hq1, Option.map_some', Option.some.injEq, Prod.mk.injEq] at hpt
      rw [hpt.1, hq]

/-- C19 (amended) on a row of a table: the plan " . | html" of the test types
keeps the row as context, and so does a plan whose selector the row satisfies;
and on the two `div` nodes of which one has the class `a`: the context of both
is kept for the selector "div.a", node 1 is kept for its element, and the
element for node 2 gets the did-not-match error. -/
theorem narrow_keeps_context_witness :
    parseTag noFuncs "sq:\" . | html\"".toList =
      .ok { selector := ".".toList, acc := "html".toList } ∧
    narrow twoDivs.dom [1] (some { selector := ".".toList, acc := "html".toList }) = .ok [1] ∧
    narrow twoDivs.dom [1] (some planDiv) = .ok [1] ∧
    narrow mixedDivs.dom [1, 2] (some planDivA) = .ok [1, 2] ∧
    narrow mixedDivs.dom [1] (some planDivA) = .ok [1] ∧
    narrow mixedDivs.dom [2] (some planDivA) = .error (Err.didNotMatch "div.a".toList) :=
  ⟨rfl,
   (narrow_keeps_context exampleLib twoDivs.dom (exampleRegistry twoDivs.dom) [1]
      { selector := ".".toList, acc := "html".toList } (Or.inl rfl)).1,
   (narrow_keeps_context exampleLib twoDivs.dom (exampleRegistry twoDivs.dom) [1] planDiv
      (Or.inr rfl)).1,
   (narrow_keeps_context exampleLib mixedDivs.dom (exampleRegistry mixedDivs.dom) [1, 2]
      planDivA (Or.inr rfl)).1,
   ((narrow_keeps_context exampleLib mixedDivs.dom (exampleRegistry mixedDivs.dom) [1, 2]
      planDivA (Or.inr rfl)).2.2.2.2.2.1 planDivA 1 rfl).trans rfl,
   ((narrow_keeps_context exampleLib mixedDivs.dom (exampleRegistry mixedDivs.dom) [1, 2]
      planDivA (Or.inr rfl)).2.2.2.2.2.1 planDivA 2 rfl).trans rfl⟩

end Sq
